import Mathlib

/-!
# ServerMan: the synchronization scheduler (`sync/sync.go`)

A shallow embedding of the credential rotator (`LRUAPIKeyManager`), the request
cycle (`rebuildRequestCycle`, `retryRequest`, the selection step of the ticking
loop), the console-credential parser and the resource-list reconciler.

Conventions of the embedding:

* a Go `string` is the list of its bytes, each byte written as a `Char`
  (`Str`); `len`, slicing, `==`, `strings.Split` are list operations;
* a Go `int` is an `Int`; every arithmetic step of the modelled code stays
  within the 64-bit range when its inputs do;
* a pointer to an `APIKeyNode` is an `Option Nat` (`none` is `nil`), an address
  into an explicit heap of nodes;
* a run-time panic is the error side of `Except Fault`;
* `log.Printf` appends a `LogLine` (format string and arguments) to the log.
-/

namespace Sync

/-! ## Strings, faults, log lines -/

/-- A Go string: its bytes in order. -/
abbrev Str := List Char

/-- The ways the modelled code can stop without returning. -/
inductive Fault where
  | nilDeref
  | sliceBounds
  | indexRange
  | diverge
  | divideByZero
  | tickerInterval
  deriving DecidableEq, Repr

/-- One argument handed to `log.Printf`. -/
inductive LogArg where
  | str (s : Str)
  | int (i : Int)
  | err
  deriving DecidableEq, Repr

/-- One call of `log.Printf` / `log.Println`: the format and its arguments. -/
structure LogLine where
  fmt : String
  args : List LogArg
  deriving DecidableEq, Repr

/-- The decimal digit character of `d` (for `d < 10`). -/
def digitChar (d : Nat) : Char :=
  match d with
  | 0 => '0' | 1 => '1' | 2 => '2' | 3 => '3' | 4 => '4'
  | 5 => '5' | 6 => '6' | 7 => '7' | 8 => '8' | _ => '9'

/-- Decimal digits of `n`, most significant first, in front of `acc`. -/
def natDigits : Nat → Nat → Str → Str
  | 0, _, acc => acc
  | fuel + 1, n, acc =>
    if n < 10 then digitChar n :: acc
    else natDigits fuel (n / 10) (digitChar (n % 10) :: acc)

/-- Decimal rendering of a natural number. -/
def natToDec (n : Nat) : Str := natDigits (n + 1) n []

/-- Go `strconv.Itoa`. -/
def Itoa (i : Int) : Str :=
  if i < 0 then '-' :: natToDec i.natAbs else natToDec i.toNat

/-- Two-digit rendering used by clock formats. -/
def twoDigits (n : Nat) : Str := [digitChar (n / 10 % 10), digitChar (n % 10)]

/-- Go `t.Format("15:04:05")` for a time given as a count of seconds. -/
def formatClock (t : Nat) : Str :=
  twoDigits (t / 3600 % 24) ++ [':'] ++ twoDigits (t / 60 % 60) ++ [':'] ++ twoDigits (t % 60)

/-- Go `key[len(key)-8:]`: panics when the key has fewer than 8 bytes. -/
def lastEight (key : Str) : Except Fault Str :=
  if key.length < 8 then throw Fault.sliceBounds else pure (key.drop (key.length - 8))

/-! ## The credential rotator -/

/-- Go `APIKeyNode`; `lastUsed` is a time in seconds. -/
structure APIKeyNode where
  key : Str
  prev : Option Nat
  next : Option Nat
  lastUsed : Nat
  deriving DecidableEq, Repr

/-- The zero value `APIKeyNode{}`. -/
def APIKeyNode.zero : APIKeyNode := ⟨[], none, none, 0⟩

/-- The memory holding the nodes: `cells a` is the node at address `a`, and the
addresses below `size` are the allocated ones. -/
structure Heap where
  cells : Nat → APIKeyNode
  size : Nat

/-- Go `LRUAPIKeyManager` (its mutex left out) together with the heap its
pointers refer to. -/
structure LRUAPIKeyManager where
  keys : Str → Option Nat
  head : Option Nat
  tail : Option Nat
  capacity : Int
  heap : Heap

/-- Dereference a pointer: `nil` panics. -/
def deref (p : Option Nat) : Except Fault Nat :=
  match p with
  | some a => pure a
  | none => throw Fault.nilDeref

/-- Allocate `&node`: the new address and the grown manager. -/
def LRUAPIKeyManager.alloc (lru : LRUAPIKeyManager) (node : APIKeyNode) :
    Nat × LRUAPIKeyManager :=
  (lru.heap.size,
    { lru with heap := ⟨fun a => if a = lru.heap.size then node else lru.heap.cells a,
                        lru.heap.size + 1⟩ })

/-- The node at address `a`. -/
def LRUAPIKeyManager.node (lru : LRUAPIKeyManager) (a : Nat) : APIKeyNode :=
  lru.heap.cells a

/-- The assignment `a.prev = p`. -/
def LRUAPIKeyManager.setPrev (lru : LRUAPIKeyManager) (a : Nat) (p : Option Nat) :
    LRUAPIKeyManager :=
  { lru with heap := ⟨fun b => if b = a then { lru.heap.cells b with prev := p }
                                else lru.heap.cells b, lru.heap.size⟩ }

/-- The assignment `a.next = p`. -/
def LRUAPIKeyManager.setNext (lru : LRUAPIKeyManager) (a : Nat) (p : Option Nat) :
    LRUAPIKeyManager :=
  { lru with heap := ⟨fun b => if b = a then { lru.heap.cells b with next := p }
                                else lru.heap.cells b, lru.heap.size⟩ }

/-- The assignment `a.lastUsed = t`. -/
def LRUAPIKeyManager.setLastUsed (lru : LRUAPIKeyManager) (a : Nat) (t : Nat) :
    LRUAPIKeyManager :=
  { lru with heap := ⟨fun b => if b = a then { lru.heap.cells b with lastUsed := t }
                                else lru.heap.cells b, lru.heap.size⟩ }

/-- Go `addToHead`: link `node` right after the head sentinel. -/
def LRUAPIKeyManager.addToHead (lru : LRUAPIKeyManager) (node : Option Nat) :
    Except Fault LRUAPIKeyManager := do
  -- node.prev = lru.head
  let n ← deref node
  let lru := lru.setPrev n lru.head
  -- node.next = lru.head.next
  let h ← deref lru.head
  let lru := lru.setNext n (lru.node h).next
  -- lru.head.next.prev = node
  let h ← deref lru.head
  let hn ← deref (lru.node h).next
  let lru := lru.setPrev hn node
  -- lru.head.next = node
  let h ← deref lru.head
  pure (lru.setNext h node)

/-- Go `removeNode`: unlink `node` from its neighbours. -/
def LRUAPIKeyManager.removeNode (lru : LRUAPIKeyManager) (node : Option Nat) :
    Except Fault LRUAPIKeyManager := do
  -- node.prev.next = node.next
  let n ← deref node
  let p ← deref (lru.node n).prev
  let lru := lru.setNext p (lru.node n).next
  -- node.next.prev = node.prev
  let x ← deref (lru.node n).next
  pure (lru.setPrev x (lru.node n).prev)

/-- Go `moveToHead`. -/
def LRUAPIKeyManager.moveToHead (lru : LRUAPIKeyManager) (node : Option Nat) :
    Except Fault LRUAPIKeyManager := do
  let lru ← lru.removeNode node
  lru.addToHead node

/-- Go `addKey`, the node created at time `now`. -/
def LRUAPIKeyManager.addKey (lru : LRUAPIKeyManager) (key : Str) (now : Nat) :
    Except Fault LRUAPIKeyManager := do
  let (node, lru) := lru.alloc ⟨key, none, none, now⟩
  let lru := { lru with keys := fun k => if k = key then some node else lru.keys k }
  lru.addToHead (some node)

/-- The loop of `NewLRUAPIKeyManager` over the configured keys. -/
def addKeys (lru : LRUAPIKeyManager) (now : Nat) : List Str → Except Fault LRUAPIKeyManager
  | [] => pure lru
  | key :: rest =>
    if key ≠ [] then do
      let lru ← lru.addKey key now
      addKeys lru now rest
    else addKeys lru now rest

/-- Go `NewLRUAPIKeyManager`; the result `none` is the `nil` manager. -/
def NewLRUAPIKeyManager (apiKeys : List Str) (now : Nat) :
    Except Fault (Option LRUAPIKeyManager) :=
  if apiKeys.length = 0 then pure none
  else do
    let manager : LRUAPIKeyManager :=
      { keys := fun _ => none, head := none, tail := none,
        capacity := apiKeys.length, heap := ⟨fun _ => APIKeyNode.zero, 0⟩ }
    -- Create dummy head and tail nodes
    let (h, manager) := manager.alloc APIKeyNode.zero
    let manager := { manager with head := some h }
    let (t, manager) := manager.alloc APIKeyNode.zero
    let manager := { manager with tail := some t }
    let h ← deref manager.head
    let manager := manager.setNext h manager.tail
    let t ← deref manager.tail
    let manager := manager.setPrev t manager.head
    let manager ← addKeys manager now apiKeys
    pure (some manager)

/-- What `GetLeastRecentlyUsedKey` hands back: the key, the manager after the
call and the lines it logged. -/
structure Acquired where
  key : Str
  lru : Option LRUAPIKeyManager
  logs : List LogLine

/-- Go `GetLeastRecentlyUsedKey`, called at time `now`. -/
def GetLeastRecentlyUsedKey (lru : Option LRUAPIKeyManager) (now : Nat) :
    Except Fault Acquired :=
  match lru with
  | none => pure ⟨[], none, []⟩
  | some lru => do
    let t ← deref lru.tail
    if (lru.node t).prev = lru.head then
      -- No keys available
      pure ⟨[], some lru, []⟩
    else
      let lruNode := (lru.node t).prev
      let lru ← lru.moveToHead lruNode
      let n ← deref lruNode
      let lru := lru.setLastUsed n now
      let suffix ← lastEight (lru.node n).key
      let line : LogLine :=
        ⟨"Selected LRU API key ending in ...%s (last used: %s)",
         [LogArg.str suffix, LogArg.str (formatClock (lru.node n).lastUsed)]⟩
      pure ⟨(lru.node n).key, some lru, [line]⟩

/-- One entry of `GetAllKeysStatus`:
`fmt.Sprintf("Pos %d: ...%s (last used: %s)", position, suffix, clock)`. -/
def statusEntry (position : Int) (suffix : Str) (lastUsed : Nat) : Str :=
  "Pos ".toList ++ Itoa position ++ ": ...".toList ++ suffix
    ++ " (last used: ".toList ++ formatClock lastUsed ++ ")".toList

/-- The loop of `GetAllKeysStatus`. The fuel bounds the number of iterations;
a walk longer than the number of allocated nodes never reaches the tail. -/
def statusLoop (lru : LRUAPIKeyManager) :
    Nat → Option Nat → Int → List Str → Except Fault (List Str)
  | 0, _, _, _ => throw Fault.diverge
  | fuel + 1, current, position, status =>
    if current = lru.tail then pure status
    else do
      let c ← deref current
      let suffix ← lastEight (lru.node c).key
      statusLoop lru fuel (lru.node c).next (position + 1)
        (status ++ [statusEntry position suffix (lru.node c).lastUsed])

/-- Go `GetAllKeysStatus`. -/
def GetAllKeysStatus (lru : Option LRUAPIKeyManager) : Except Fault (List Str) :=
  match lru with
  | none => pure []
  | some lru => do
    let h ← deref lru.head
    statusLoop lru (lru.heap.size + 1) (lru.node h).next 1 []

/-- Addresses met when following `next` from `current` up to the tail. -/
def walk (lru : LRUAPIKeyManager) : Nat → Option Nat → List Nat
  | 0, _ => []
  | fuel + 1, current =>
    if current = lru.tail then []
    else match current with
      | none => []
      | some c => c :: walk lru fuel (lru.node c).next

/-- The ledger as a list of addresses, most recently used first. -/
def LRUAPIKeyManager.order (lru : LRUAPIKeyManager) : List Nat :=
  match lru.head with
  | none => []
  | some h => walk lru (lru.heap.size + 1) (lru.node h).next

/-- The ledger as a list of credentials, most recently used first. -/
def LRUAPIKeyManager.ledger (lru : LRUAPIKeyManager) : List Str :=
  lru.order.map fun a => (lru.node a).key

/-- The ledger of a possibly `nil` manager. -/
def ledgerOf (lru : Option LRUAPIKeyManager) : List Str :=
  match lru with
  | none => []
  | some m => m.ledger

/-- The cells from `a` through `l` to `t` are doubly linked in this order. -/
def Linked (cells : Nat → APIKeyNode) : Nat → List Nat → Nat → Prop
  | a, [], t => (cells a).next = some t ∧ (cells t).prev = some a
  | a, b :: l, t => (cells a).next = some b ∧ (cells b).prev = some a ∧ Linked cells b l t

/-- The manager is a well-formed list: sentinels `h` and `t`, and the nodes `l`
between them, pairwise distinct, allocated and doubly linked. -/
def Shape (lru : LRUAPIKeyManager) (h t : Nat) (l : List Nat) : Prop :=
  lru.head = some h ∧ lru.tail = some t ∧ (h :: (l ++ [t])).Nodup ∧
  Linked lru.heap.cells h l t ∧ ∀ a ∈ h :: (l ++ [t]), a < lru.heap.size

/-- The frame of a list operation: sentinels, allocation, map and payloads stay. -/
def SameFrame (m lru : LRUAPIKeyManager) : Prop :=
  m.head = lru.head ∧ m.tail = lru.tail ∧ m.heap.size = lru.heap.size ∧ m.keys = lru.keys ∧
  m.capacity = lru.capacity ∧ (∀ y, (m.heap.cells y).key = (lru.heap.cells y).key) ∧
  (∀ y, (m.heap.cells y).lastUsed = (lru.heap.cells y).lastUsed)

/-- A well-formed manager. -/
def LRUAPIKeyManager.WellFormed (lru : LRUAPIKeyManager) : Prop :=
  ∃ h t l, Shape lru h t l

/-- The credentials stored at the given addresses, in order. -/
def LRUAPIKeyManager.keysAt (lru : LRUAPIKeyManager) (l : List Nat) : List Str :=
  l.map fun a => (lru.node a).key

/-- The configured credentials: the non-empty strings of the input, in input order. -/
def configured (apiKeys : List Str) : List Str :=
  apiKeys.filter fun k => k ≠ []

/-- Keys of a successful run of acquisitions at the given times, in call order. -/
def acquireAll : Option LRUAPIKeyManager → List Nat →
    Except Fault (List Str × Option LRUAPIKeyManager)
  | lru, [] => pure ([], lru)
  | lru, now :: rest => do
    let r ← GetLeastRecentlyUsedKey lru now
    let (ks, lru) ← acquireAll r.lru rest
    pure (r.key :: ks, lru)

/-- A call made on the rotator: an acquisition at a given time, or a status
listing. -/
inductive Op where
  | acquire (now : Nat)
  | status
  deriving DecidableEq, Repr

/-- A sequence of calls on the rotator, each on the manager the previous one left. -/
def runOps : Option LRUAPIKeyManager → List Op → Except Fault (Option LRUAPIKeyManager)
  | lru, [] => pure lru
  | lru, Op.acquire now :: rest => do
    let r ← GetLeastRecentlyUsedKey lru now
    runOps r.lru rest
  | lru, Op.status :: rest => do
    let _ ← GetAllKeysStatus lru
    runOps lru rest

/-- The listing `GetAllKeysStatus` builds for the nodes `l`, numbered from
`position`, when every key has at least 8 bytes. -/
def LRUAPIKeyManager.listing (lru : LRUAPIKeyManager) : Int → List Nat → List Str
  | _, [] => []
  | position, a :: l =>
    statusEntry position ((lru.node a).key.drop ((lru.node a).key.length - 8))
      (lru.node a).lastUsed :: lru.listing (position + 1) l

/-- The pool of the repository's test `TestLRUAPIKeyManager`. -/
def testKeys : List Str :=
  ["key1_12345678".toList, "key2_87654321".toList, "key3_abcdefgh".toList]

/-! ## Strings of the standard library used by the parser -/

/-- Go `strings.Index`: the first position at which `sep` starts, if any. -/
def Index (sep : Str) : Str → Option Nat
  | [] => if sep = [] then some 0 else none
  | c :: cs => if sep.isPrefixOf (c :: cs) then some 0 else (Index sep cs).map (· + 1)

/-- The loop of Go `genSplit` for a non-empty separator: at most `n` cuts, each
at the first occurrence of `sep` in what is left. -/
def genSplit (sep : Str) : Nat → Str → List Str
  | 0, s => [s]
  | n + 1, s =>
    match Index sep s with
    | none => [s]
    | some m => s.take m :: genSplit sep n (s.drop (m + sep.length))

/-- Go `strings.Split(s, sep)` for a non-empty `sep`: a cut at every occurrence
(there are at most `len(s)` of them). -/
def Split (s sep : Str) : List Str := genSplit sep s.length s

/-- Go `strings.SplitN(s, sep, 2)` for a non-empty `sep`: one cut at most. -/
def SplitN2 (s sep : Str) : List Str := genSplit sep 1 s

/-- Go `strings.TrimSuffix`. -/
def TrimSuffix (s suffix : Str) : Str :=
  if suffix.isSuffixOf s then s.take (s.length - suffix.length) else s

/-- The value of a decimal digit. -/
def digitVal (c : Char) : Option Nat :=
  if '0' ≤ c ∧ c ≤ '9' then some (c.toNat - 48) else none

/-- The digits of Go `strconv.ParseUint(s, 10, 64)`, read left to right. -/
def parseDigits : Str → Nat → Option Nat
  | [], acc => some acc
  | c :: cs, acc =>
    match digitVal c with
    | none => none
    | some d => parseDigits cs (acc * 10 + d)

/-- Go `strconv.ParseInt(s, 10, 64)`; `none` is a non-nil error (syntax or range). -/
def ParseInt (s : Str) : Option Int :=
  match s with
  | [] => none
  | c :: rest =>
    if c = '+' then
      if rest = [] then none
      else (parseDigits rest 0).bind fun n => if n < 2 ^ 63 then some (n : Int) else none
    else if c = '-' then
      if rest = [] then none
      else (parseDigits rest 0).bind fun n => if n ≤ 2 ^ 63 then some (-(n : Int)) else none
    else (parseDigits (c :: rest) 0).bind fun n => if n < 2 ^ 63 then some (n : Int) else none

/-! ## The scheduler state -/

/-- Go `SyncRequest`; `ReqType` is the field `Type`. -/
structure SyncRequest where
  URL : Str
  ReqType : Str
  Method : Str
  Body : Str
  ServerID : Int
  RetryCount : Int
  MaxRetries : Int
  deriving DecidableEq, Repr

/-- Go `api.Server`, one entry of a decoded resource-list response. -/
structure Server where
  ID : Int
  Domain : Str
  RegDate : Str
  BillingCycle : Str
  NextDueDate : Str
  DomainStatus : Str
  deriving DecidableEq, Repr

/-- Go `api.VncConsoleCredentials`. -/
structure VncConsoleCredentials where
  Host : Str
  Port : Int
  Password : Str
  deriving DecidableEq, Repr

/-- A row of `server_credentials_cache` (the `last_updated` column left out). -/
structure CredentialsRow where
  server_id : Int
  root_password : Str
  vnc_host : Str
  vnc_port : Int
  vnc_password : Str
  deriving DecidableEq, Repr

/-- Go `api.OsType`. -/
structure OsType where
  ID : Int
  Name : Str
  deriving DecidableEq, Repr

/-- Go `api.AppType`. -/
structure AppType where
  ID : Int
  App : Str
  Name : Str
  deriving DecidableEq, Repr

/-- Go `api.ServerDetail`. -/
structure ServerDetail where
  Name : Str
  State : Str
  IpAddress : Str
  OperatingSystem : Str
  Memory : Str
  Disk : Str
  Cpu : Str
  VncStatus : Str
  DailySnapshots : Str
  deriving DecidableEq, Repr

/-- Go `api.ServerSnapshot` (the floating-point `SizeGB` left out). -/
structure ServerSnapshot where
  ID : Str
  Name : Str
  CreatedAt : Str
  Status : Str
  deriving DecidableEq, Repr

/-- Go `api.RootPasswordResponse`. -/
structure RootPasswordResponse where
  Password : Str
  deriving DecidableEq, Repr

/-- Go `api.StatusMessage`. -/
structure StatusMessage where
  Status : Str
  Message : Str
  deriving DecidableEq, Repr

/-- The cache store: the tables the reconcilers write (per-resource tables keep
the resource identifier with each row), and for each of the next statements
whether the store will fail it (`true`: it fails and changes nothing; past the
end of the list every statement succeeds). -/
structure DB where
  servers_cache : List Server
  server_credentials_cache : List CredentialsRow
  os_types_cache : List OsType
  apps_cache : List AppType
  server_details_cache : List (Int × ServerDetail)
  server_snapshots_cache : List (Int × ServerSnapshot)
  faults : List Bool
  deriving DecidableEq, Repr

/-- The statements the reconcilers send to the store. -/
inductive Stmt where
  | truncateServers
  | insertServer (row : Server)
  | truncateOsTypes
  | insertOsType (row : OsType)
  | truncateApps
  | insertApp (row : AppType)
  | deleteServerDetail (serverID : Int)
  | insertServerDetail (serverID : Int) (row : ServerDetail)
  | deleteSnapshots (serverID : Int)
  | insertSnapshot (serverID : Int) (row : ServerSnapshot)
  | deleteCredentials (serverID : Int)
  | insertCredentials (row : CredentialsRow)
  deriving DecidableEq, Repr

/-- Go `db.ExecContext`: the store after the statement, and whether it failed. -/
def DB.exec (db : DB) (st : Stmt) : DB × Bool :=
  match db.faults with
  | true :: rest => ({ db with faults := rest }, true)
  | faults =>
    let db := { db with faults := faults.tail }
    match st with
    | Stmt.truncateServers => ({ db with servers_cache := [] }, false)
    | Stmt.insertServer row => ({ db with servers_cache := db.servers_cache ++ [row] }, false)
    | Stmt.truncateOsTypes => ({ db with os_types_cache := [] }, false)
    | Stmt.insertOsType row => ({ db with os_types_cache := db.os_types_cache ++ [row] }, false)
    | Stmt.truncateApps => ({ db with apps_cache := [] }, false)
    | Stmt.insertApp row => ({ db with apps_cache := db.apps_cache ++ [row] }, false)
    | Stmt.deleteServerDetail serverID =>
      ({ db with server_details_cache :=
          db.server_details_cache.filter fun r => r.1 ≠ serverID }, false)
    | Stmt.insertServerDetail serverID row =>
      ({ db with server_details_cache := db.server_details_cache ++ [(serverID, row)] }, false)
    | Stmt.deleteSnapshots serverID =>
      ({ db with server_snapshots_cache :=
          db.server_snapshots_cache.filter fun r => r.1 ≠ serverID }, false)
    | Stmt.insertSnapshot serverID row =>
      ({ db with server_snapshots_cache := db.server_snapshots_cache ++ [(serverID, row)] },
        false)
    | Stmt.deleteCredentials serverID =>
      ({ db with server_credentials_cache :=
          db.server_credentials_cache.filter fun r => r.server_id ≠ serverID }, false)
    | Stmt.insertCredentials row =>
      ({ db with server_credentials_cache := db.server_credentials_cache ++ [row] }, false)

/-- What `QueryRowContext(...).Scan(&existingPassword)` gives: `sql.ErrNoRows`,
the scanned value, or another error. -/
inductive RowResult where
  | noRows
  | row (root_password : Str)
  | failed
  deriving DecidableEq, Repr

/-- The query `SELECT root_password FROM server_credentials_cache WHERE
server_id = ?`, scanned from the first matching row. -/
def DB.queryRootPassword (db : DB) (serverID : Int) : DB × RowResult :=
  match db.faults with
  | true :: rest => ({ db with faults := rest }, RowResult.failed)
  | faults =>
    let db := { db with faults := faults.tail }
    match db.server_credentials_cache.find? fun r => r.server_id = serverID with
    | none => (db, RowResult.noRows)
    | some r => (db, RowResult.row r.root_password)

/-- What `json.NewDecoder(resp.Body).Decode` makes of a response body for each
target type (`none`: the body does not decode). The decoder itself is not
modelled; it is a function of the body. -/
structure Decoders where
  servers : Str → Option (List Server)
  osTypes : Str → Option (List OsType)
  apps : Str → Option (List AppType)
  serverDetail : Str → Option ServerDetail
  snapshots : Str → Option (List ServerSnapshot)
  rootPassword : Str → Option RootPasswordResponse
  statusMessage : Str → Option StatusMessage

/-- An outgoing HTTP request as handed to `client.Do`. -/
structure HttpRequest where
  method : Str
  url : Str
  headers : List (Str × Str)
  body : Str
  deriving DecidableEq, Repr

/-- An upstream answer: status code, status text and body. -/
structure HttpResponse where
  StatusCode : Int
  Status : Str
  Body : Str
  deriving DecidableEq, Repr

/-- The network as the scheduler sees it: the answers the next calls of
`client.Do` will get (`none`, and every call past the end of the list, is a
transport failure) and the requests sent so far. -/
structure Net where
  replies : List (Option HttpResponse)
  sent : List HttpRequest
  deriving DecidableEq, Repr

/-- Go `SyncService` (channels, mutexes and the HTTP client left out) together
with the world it acts on: the cache store behind `db`, the network behind
`client`, the clock read by `time.Now()` and the lines written to the log.
`requestOk method url` tells whether `http.NewRequest` accepts the pair and
`decode` is the JSON decoding of response bodies. -/
structure SyncService where
  db : DB
  managementURL : Str
  lruKeyManager : Option LRUAPIKeyManager
  serverIDs : List Int
  requestCycle : List (Unit → SyncRequest)
  cycleIndex : Int
  net : Net
  clock : Nat
  requestOk : Str → Str → Bool
  decode : Decoders
  logs : List LogLine

/-- Go `log.Printf` on the state. -/
def SyncService.logf (s : SyncService) (fmt : String) (args : List LogArg) : SyncService :=
  { s with logs := s.logs ++ [⟨fmt, args⟩] }

/-- The body sent with the resource-list request. -/
def serversBody : Str := "\x7b\"items_per_page\": \"1000\"\x7d".toList

/-- The resource-list recipe. -/
def serversRecipe (managementURL : Str) : Unit → SyncRequest := fun _ =>
  { URL := managementURL ++ "/servers".toList, ReqType := "servers".toList,
    Method := "GET".toList, Body := serversBody, ServerID := 0, RetryCount := 0,
    MaxRetries := 3 }

/-- The OS-catalog recipe. -/
def osTypesRecipe (managementURL : Str) : Unit → SyncRequest := fun _ =>
  { URL := managementURL ++ "/operating-systems".toList, ReqType := "os-types".toList,
    Method := "GET".toList, Body := [], ServerID := 0, RetryCount := 0, MaxRetries := 3 }

/-- The application-catalog recipe. -/
def appsRecipe (managementURL : Str) : Unit → SyncRequest := fun _ =>
  { URL := managementURL ++ "/apps".toList, ReqType := "apps".toList,
    Method := "GET".toList, Body := [], ServerID := 0, RetryCount := 0, MaxRetries := 3 }

/-- The server-detail recipe for `id`. -/
def serverDetailRecipe (managementURL : Str) (id : Int) : Unit → SyncRequest := fun _ =>
  { URL := managementURL ++ "/servers/".toList ++ Itoa id, ReqType := "server-detail".toList,
    Method := "GET".toList, Body := [], ServerID := id, RetryCount := 0, MaxRetries := 3 }

/-- The root-password recipe for `id`. -/
def rootPasswordRecipe (managementURL : Str) (id : Int) : Unit → SyncRequest := fun _ =>
  { URL := managementURL ++ "/servers/".toList ++ Itoa id ++ "/get-root-password".toList,
    ReqType := "root-password".toList, Method := "GET".toList, Body := [], ServerID := id,
    RetryCount := 0, MaxRetries := 3 }

/-- The console-credentials recipe for `id`. -/
def consoleCredentialsRecipe (managementURL : Str) (id : Int) : Unit → SyncRequest := fun _ =>
  { URL := managementURL ++ "/servers/".toList ++ Itoa id
      ++ "/get-console-credentials".toList,
    ReqType := "console-credentials".toList, Method := "GET".toList, Body := [],
    ServerID := id, RetryCount := 0, MaxRetries := 3 }

/-- Go `initializeRequestCycle`: the three catalog recipes. A recipe reads
`s.managementURL` when it runs; the field is never assigned after construction. -/
def initializeRequestCycle (s : SyncService) : SyncService :=
  { s with requestCycle :=
      [serversRecipe s.managementURL, osTypesRecipe s.managementURL,
       appsRecipe s.managementURL] }

/-- The loop of `rebuildRequestCycle` appending the recipes of each server. -/
def appendServerRecipes (managementURL : Str) :
    List (Unit → SyncRequest) → List Int → List (Unit → SyncRequest)
  | cycle, [] => cycle
  | cycle, serverID :: rest =>
    let id := serverID
    appendServerRecipes managementURL
      (cycle ++ [serverDetailRecipe managementURL id, rootPasswordRecipe managementURL id,
        consoleCredentialsRecipe managementURL id]) rest

/-- Go `rebuildRequestCycle`. -/
def rebuildRequestCycle (s : SyncService) : SyncService :=
  let serverIDs := s.serverIDs
  -- Reset cycle
  let cycle := [serversRecipe s.managementURL, osTypesRecipe s.managementURL]
  -- Add server-specific requests
  let cycle := appendServerRecipes s.managementURL cycle serverIDs
  -- Reset cycle index to start from beginning
  let s := { s with requestCycle := cycle, cycleIndex := 0 }
  s.logf "Request cycle rebuilt with %d total requests (base: 3, server-specific: %d)"
    [LogArg.int s.requestCycle.length, LogArg.int (serverIDs.length * 4)]

/-- Go `xs[:i]` as used by `retryRequest`. An index above `len(xs)` that the
capacity would still admit fails at the `xs[i:]` of the same expression, so the
bound checked here is the length. -/
def sliceTo {α : Type} (xs : List α) (i : Int) : Except Fault (List α) :=
  if 0 ≤ i ∧ i ≤ xs.length then pure (xs.take i.toNat) else throw Fault.sliceBounds

/-- Go `xs[i:]`. -/
def sliceFrom {α : Type} (xs : List α) (i : Int) : Except Fault (List α) :=
  if 0 ≤ i ∧ i ≤ xs.length then pure (xs.drop i.toNat) else throw Fault.sliceBounds

/-- Go `xs[i]`. -/
def indexAt {α : Type} (xs : List α) (i : Int) : Except Fault α :=
  if 0 ≤ i then
    match xs[i.toNat]? with
    | some x => pure x
    | none => throw Fault.indexRange
  else throw Fault.indexRange

/-- Go `retryRequest`. -/
def retryRequest (s : SyncService) (req : SyncRequest) : Except Fault SyncService :=
  if req.RetryCount < req.MaxRetries then do
    let req := { req with RetryCount := req.RetryCount + 1 }
    let s := s.logf "Retrying request %s (attempt %d/%d) - will retry on next cycle"
      [LogArg.str req.URL, LogArg.int req.RetryCount, LogArg.int req.MaxRetries]
    if s.requestCycle.length > 0 then do
      -- Insert the retry request at the current cycle position
      let retryFunc : Unit → SyncRequest := fun _ => req
      let front ← sliceTo s.requestCycle s.cycleIndex
      let back ← sliceFrom s.requestCycle s.cycleIndex
      pure { s with requestCycle := front ++ ([retryFunc] ++ back) }
    else pure s
  else
    pure (s.logf "Max retries exceeded for %s" [LogArg.str req.URL])

/-- The selection step of one tick of `processNextRequest`, the part done under
the cycle lock: the request to dispatch (none when the cycle is empty) and the
state with the cursor advanced. -/
def selectNext (s : SyncService) : Except Fault (Option SyncRequest × SyncService) :=
  if s.requestCycle.length = 0 then pure (none, s)
  else do
    -- Get the next request in the cycle
    let recipe ← indexAt s.requestCycle s.cycleIndex
    let req := recipe ()
    -- Move to next request in cycle
    pure (some req,
      { s with cycleIndex := (s.cycleIndex + 1).tmod (s.requestCycle.length : Int) })

/-! ## The console-credential parser -/

/-- The separator in front of the port. -/
def portSep : Str := ": vnc_port: ".toList

/-- The separator between port and password. -/
def passSep : Str := ", vnc_pass: ".toList

/-- The loop of `parseVncConsoleCredentials` over the parts of the message. -/
def parseParts (serverID : Int) :
    List Str → VncConsoleCredentials → SyncService → VncConsoleCredentials × SyncService
  | [], creds, s => (creds, s)
  | part :: rest, creds, s =>
    match SplitN2 part passSep with
    | [k, v] =>
      match ParseInt k with
      | none =>
        parseParts serverID rest { creds with Port := 0 }
          (s.logf "Error parsing vnc_port for server %d: %v" [LogArg.int serverID, LogArg.err])
      | some port =>
        ({ creds with Port := port, Password := TrimSuffix v ".".toList }, s)
    | _ => parseParts serverID rest creds s

/-- Go `client.Do`: the request is recorded and the next answer consumed. -/
def SyncService.clientDo (s : SyncService) (req : HttpRequest) :
    Option HttpResponse × SyncService :=
  ((s.net.replies.head?).join,
    { s with net := ⟨s.net.replies.tail, s.net.sent ++ [req]⟩ })

/-- The headers every outgoing request carries. -/
def authHeaders (apiKey : Str) : List (Str × Str) :=
  [("Authorization".toList, "Bearer ".toList ++ apiKey),
   ("Content-Type".toList, "application/json".toList)]

/-- Go `parseVncConsoleCredentials`: the parsed credentials and the state after
the side request that an incomplete result triggers. -/
def parseVncConsoleCredentials (s : SyncService) (msg : Str) (serverID : Int) :
    Except Fault (VncConsoleCredentials × SyncService) := do
  let creds : VncConsoleCredentials := ⟨"23.227.199.130".toList, 0, []⟩
  let parts := Split msg portSep
  let (creds, s) := parseParts serverID parts creds s
  if creds.Port = 0 ∨ creds.Password = [] then
    -- Set the VNC to be enabled
    let s := s.logf
      "Incomplete VNC credentials parsed for server %d: port=%d, password=%s, reenabling console server"
      [LogArg.int serverID, LogArg.int creds.Port, LogArg.str creds.Password]
    let url := "/servers/".toList ++ Itoa serverID ++ "/console/enable".toList
    if s.requestOk "POST".toList url = false then
      pure (creds, s.logf "Error creating console enable request for server %d: %v"
        [LogArg.int serverID, LogArg.err])
    else do
      let r ← GetLeastRecentlyUsedKey s.lruKeyManager s.clock
      let s := { s with lruKeyManager := r.lru, logs := s.logs ++ r.logs }
      let apiKey := r.key
      if apiKey = [] then
        pure (creds, s.logf "No API key available to re-enable console for server %d"
          [LogArg.int serverID])
      else
        let req : HttpRequest := ⟨"POST".toList, url, authHeaders apiKey, []⟩
        let (resp, s) := s.clientDo req
        match resp with
        | none =>
          pure (creds, s.logf "Error making console enable request for server %d: %v"
            [LogArg.int serverID, LogArg.err])
        | some resp =>
          if resp.StatusCode ≠ 200 then
            pure (creds, s.logf "API returned status %s when re-enabling console for server %d"
              [LogArg.str resp.Status, LogArg.int serverID])
          else
            pure (creds, s.logf "Successfully re-enabled console for server %d"
              [LogArg.int serverID])
  else pure (creds, s)

/-- The fixed message shape of the upstream:
`Your VM console credentials are: vnc_port: <p>, vnc_pass: <pw>.` -/
def consoleMessage (p : Nat) (pw : Str) : Str :=
  "Your VM console credentials are".toList ++ portSep ++ natToDec p ++ passSep ++ pw ++ ['.']

/-! ## The resource-list reconciler -/

/-- The insert loop of `processServersResponse`: the state and the identifiers
collected so far. -/
def insertServers : SyncService → List Server → List Int → SyncService × List Int
  | s, [], serverIDs => (s, serverIDs)
  | s, server :: rest, serverIDs =>
    let (db, failed) := s.db.exec (Stmt.insertServer server)
    let s := { s with db := db }
    if failed then
      insertServers
        (s.logf "Error inserting server %d: %v" [LogArg.int server.ID, LogArg.err])
        rest serverIDs
    else if server.DomainStatus = "Active".toList ∧ server.Domain ≠ [] then
      insertServers s rest (serverIDs ++ [server.ID])
    else insertServers s rest serverIDs

/-- Go `processServersResponse`; `decoded` is what decoding the response body
gave (`none`: the body does not decode). -/
def processServersResponse (s : SyncService) (decoded : Option (List Server)) : SyncService :=
  match decoded with
  | none => s.logf "Error parsing servers response: %v" [LogArg.err]
  | some servers =>
    -- Update servers cache
    let (db, failed) := s.db.exec Stmt.truncateServers
    let s := { s with db := db }
    if failed then s.logf "Error clearing servers_cache: %v" [LogArg.err]
    else
      let (s, serverIDs) := insertServers s servers []
      -- Update the known server IDs
      let oldCount := s.serverIDs.length
      let s := { s with serverIDs := serverIDs }
      -- Rebuild request cycle if server list changed
      let s :=
        if serverIDs.length ≠ oldCount then
          rebuildRequestCycle
            (s.logf "Server count changed from %d to %d, rebuilding request cycle"
              [LogArg.int oldCount, LogArg.int serverIDs.length])
        else s
      s.logf "Updated servers cache with %d servers" [LogArg.int servers.length]

/-! ## The other reconcilers -/

/-- The insert loop of `processOSTypesResponse`. -/
def insertOsTypes : SyncService → List OsType → SyncService
  | s, [] => s
  | s, osType :: rest =>
    let (db, failed) := s.db.exec (Stmt.insertOsType osType)
    let s := { s with db := db }
    if failed then
      insertOsTypes
        (s.logf "Error inserting OS type %d: %v" [LogArg.int osType.ID, LogArg.err]) rest
    else insertOsTypes s rest

/-- Go `processOSTypesResponse`. -/
def processOSTypesResponse (s : SyncService) (decoded : Option (List OsType)) : SyncService :=
  match decoded with
  | none => s.logf "Error parsing OS types response: %v" [LogArg.err]
  | some osTypes =>
    let (db, failed) := s.db.exec Stmt.truncateOsTypes
    let s := { s with db := db }
    if failed then s.logf "Error clearing os_types_cache: %v" [LogArg.err]
    else
      (insertOsTypes s osTypes).logf "Updated OS types cache with %d entries"
        [LogArg.int osTypes.length]

/-- The insert loop of `processAppsResponse`. -/
def insertApps : SyncService → List AppType → SyncService
  | s, [] => s
  | s, app :: rest =>
    let (db, failed) := s.db.exec (Stmt.insertApp app)
    let s := { s with db := db }
    if failed then
      insertApps (s.logf "Error inserting app %d: %v" [LogArg.int app.ID, LogArg.err]) rest
    else insertApps s rest

/-- Go `processAppsResponse`. -/
def processAppsResponse (s : SyncService) (decoded : Option (List AppType)) : SyncService :=
  match decoded with
  | none => s.logf "Error parsing apps response: %v" [LogArg.err]
  | some apps =>
    let (db, failed) := s.db.exec Stmt.truncateApps
    let s := { s with db := db }
    if failed then s.logf "Error clearing apps_cache: %v" [LogArg.err]
    else
      (insertApps s apps).logf "Updated apps cache with %d entries" [LogArg.int apps.length]

/-- Go `processServerDetailResponse`. -/
def processServerDetailResponse (s : SyncService) (decoded : Option ServerDetail)
    (serverID : Int) : SyncService :=
  match decoded with
  | none =>
    s.logf "Error parsing server detail response for server %d: %v"
      [LogArg.int serverID, LogArg.err]
  | some serverDetail =>
    -- Delete existing entry for this server
    let (db, failed) := s.db.exec (Stmt.deleteServerDetail serverID)
    let s := { s with db := db }
    if failed then
      s.logf "Error deleting existing server detail for %d: %v"
        [LogArg.int serverID, LogArg.err]
    else
      let (db, failed) := s.db.exec (Stmt.insertServerDetail serverID serverDetail)
      let s := { s with db := db }
      if failed then
        s.logf "Error inserting server detail for %d: %v" [LogArg.int serverID, LogArg.err]
      else s.logf "Updated server detail for server %d" [LogArg.int serverID]

/-- The insert loop of `processSnapshotsResponse`. -/
def insertSnapshots (serverID : Int) : SyncService → List ServerSnapshot → SyncService
  | s, [] => s
  | s, snapshot :: rest =>
    let (db, failed) := s.db.exec (Stmt.insertSnapshot serverID snapshot)
    let s := { s with db := db }
    if failed then
      insertSnapshots serverID
        (s.logf "Error inserting snapshot %s for server %d: %v"
          [LogArg.str snapshot.ID, LogArg.int serverID, LogArg.err]) rest
    else insertSnapshots serverID s rest

/-- Go `processSnapshotsResponse`. -/
def processSnapshotsResponse (s : SyncService) (decoded : Option (List ServerSnapshot))
    (serverID : Int) : SyncService :=
  match decoded with
  | none =>
    s.logf "Error parsing snapshots response for server %d: %v"
      [LogArg.int serverID, LogArg.err]
  | some snapshots =>
    -- Delete existing snapshots for this server
    let (db, failed) := s.db.exec (Stmt.deleteSnapshots serverID)
    let s := { s with db := db }
    if failed then
      s.logf "Error deleting existing snapshots for server %d: %v"
        [LogArg.int serverID, LogArg.err]
    else
      (insertSnapshots serverID s snapshots).logf "Updated %d snapshots for server %d"
        [LogArg.int snapshots.length, LogArg.int serverID]

/-- Go `processRootPasswordResponse`. -/
def processRootPasswordResponse (s : SyncService) (decoded : Option RootPasswordResponse)
    (serverID : Int) : SyncService :=
  match decoded with
  | none =>
    s.logf "Error parsing root password response for server %d: %v"
      [LogArg.int serverID, LogArg.err]
  | some rootPass =>
    -- Delete existing entry and insert new one (ClickHouse approach)
    let (db, failed) := s.db.exec (Stmt.deleteCredentials serverID)
    let s := { s with db := db }
    let s :=
      if failed then
        s.logf "Error deleting existing credentials for server %d: %v"
          [LogArg.int serverID, LogArg.err]
      else s
    -- VALUES (?, ?, '', 0, '', now())
    let (db, failed) := s.db.exec
      (Stmt.insertCredentials ⟨serverID, rootPass.Password, [], 0, []⟩)
    let s := { s with db := db }
    if failed then
      s.logf "Error inserting root password for server %d: %v"
        [LogArg.int serverID, LogArg.err]
    else s.logf "Updated root password for server %d" [LogArg.int serverID]

/-- The closing lines of `processConsoleCredentialsResponse`. -/
def consoleOutcome (s : SyncService) (failed : Bool) (serverID : Int) : SyncService :=
  if failed then
    s.logf "Error updating console credentials for server %d: %v"
      [LogArg.int serverID, LogArg.err]
  else s.logf "Updated console credentials for server %d" [LogArg.int serverID]

/-- Go `processConsoleCredentialsResponse`. -/
def processConsoleCredentialsResponse (s : SyncService) (decoded : Option StatusMessage)
    (serverID : Int) : Except Fault SyncService :=
  match decoded with
  | none =>
    pure (s.logf "Error parsing console credentials response for server %d: %v"
      [LogArg.int serverID, LogArg.err])
  | some creds => do
    let (credsData, s) ← parseVncConsoleCredentials s creds.Message serverID
    -- Check if entry exists and update appropriately
    let (db, found) := s.db.queryRootPassword serverID
    let s := { s with db := db }
    match found with
    | RowResult.noRows =>
      -- Insert new entry: VALUES (?, '', ?, ?, ?, now())
      let (db, failed) := s.db.exec
        (Stmt.insertCredentials
          ⟨serverID, [], credsData.Host, credsData.Port, credsData.Password⟩)
      pure (consoleOutcome { s with db := db } failed serverID)
    | RowResult.row existingPassword =>
      -- Update existing entry
      let (db, failed) := s.db.exec (Stmt.deleteCredentials serverID)
      let s := { s with db := db }
      if failed then pure (consoleOutcome s true serverID)
      else
        let (db, failed) := s.db.exec
          (Stmt.insertCredentials
            ⟨serverID, existingPassword, credsData.Host, credsData.Port, credsData.Password⟩)
        pure (consoleOutcome { s with db := db } failed serverID)
    | RowResult.failed => pure (consoleOutcome s true serverID)

/-! ## The request executor, the tick and the manual trigger -/

/-- The `switch req.Type` of `processRequest`, on a response with status 200. -/
def dispatch (s : SyncService) (req : SyncRequest) (resp : HttpResponse) :
    Except Fault SyncService :=
  if req.ReqType = "servers".toList then
    pure (processServersResponse s (s.decode.servers resp.Body))
  else if req.ReqType = "os-types".toList then
    pure (processOSTypesResponse s (s.decode.osTypes resp.Body))
  else if req.ReqType = "apps".toList then
    pure (processAppsResponse s (s.decode.apps resp.Body))
  else if req.ReqType = "server-detail".toList then
    pure (processServerDetailResponse s (s.decode.serverDetail resp.Body) req.ServerID)
  else if req.ReqType = "snapshots".toList then
    pure (processSnapshotsResponse s (s.decode.snapshots resp.Body) req.ServerID)
  else if req.ReqType = "root-password".toList then
    pure (processRootPasswordResponse s (s.decode.rootPassword resp.Body) req.ServerID)
  else if req.ReqType = "console-credentials".toList then
    processConsoleCredentialsResponse s (s.decode.statusMessage resp.Body) req.ServerID
  else
    pure (s.logf "Unknown request type: %s" [LogArg.str req.ReqType])

/-- Go `processRequest`. -/
def processRequest (s : SyncService) (req : SyncRequest) : Except Fault SyncService := do
  let s := s.logf "Processing: %s (%s)" [LogArg.str req.URL, LogArg.str req.ReqType]
  if s.requestOk req.Method req.URL = false then
    retryRequest (s.logf "Error creating request for %s: %v" [LogArg.str req.URL, LogArg.err])
      req
  else do
    -- Get the least recently used API key
    let r ← GetLeastRecentlyUsedKey s.lruKeyManager s.clock
    let s := { s with lruKeyManager := r.lru, logs := s.logs ++ r.logs }
    let apiKey := r.key
    if apiKey = [] then
      retryRequest (s.logf "No API key available for request %s" [LogArg.str req.URL]) req
    else
      let httpReq : HttpRequest := ⟨req.Method, req.URL, authHeaders apiKey, req.Body⟩
      let (resp, s) := s.clientDo httpReq
      match resp with
      | none =>
        retryRequest
          (s.logf "Error making request to %s: %v" [LogArg.str req.URL, LogArg.err]) req
      | some resp =>
        if resp.StatusCode ≠ 200 then
          -- Don't retry on 401 (Unauthorized) or 404 (Not Found)
          if resp.StatusCode = 401 ∨ resp.StatusCode = 404 then
            pure (s.logf "API returned permanent error %s for %s - skipping retries"
              [LogArg.str resp.Status, LogArg.str req.URL])
          else
            retryRequest
              (s.logf "API returned status %s for %s"
                [LogArg.str resp.Status, LogArg.str req.URL]) req
        else dispatch s req resp

/-- The drain loop of `ManualSync`. -/
def processAll : SyncService → List SyncRequest → Except Fault SyncService
  | s, [] => pure s
  | s, req :: rest => do
    let s ← processRequest s req
    processAll s rest

/-- Go `ManualSync`: the state afterwards and the returned `error` (`none` is
`nil`). -/
def ManualSync (s : SyncService) : Except Fault (SyncService × Option Str) := do
  let s := s.logf "Manual sync triggered" []
  -- Trigger a complete cycle of all requests
  let requestsToProcess := s.requestCycle.map fun reqFunc => reqFunc ()
  -- Process all requests
  let s ← processAll s requestsToProcess
  let s := s.logf "Manual sync completed: processed %d requests"
    [LogArg.int requestsToProcess.length]
  pure (s, none)

/-- One tick of `processNextRequest`: the selection under the cycle lock, then
the processing of the selected request. -/
def tick (s : SyncService) : Except Fault SyncService := do
  let (next, s) ← selectNext s
  match next with
  | none => pure s
  | some req => processRequest s req

/-- A run of `n` ticks. -/
def ticks : Nat → SyncService → Except Fault SyncService
  | 0, s => pure s
  | n + 1, s => do
    let s ← tick s
    ticks n s

/-- The whole seconds of the ticker period of `processNextRequest`:
`60/s.lruKeyManager.capacity`, an integer division. -/
def tickSeconds (s : SyncService) : Except Fault Int :=
  match s.lruKeyManager with
  | none => throw Fault.nilDeref
  | some lru =>
    if lru.capacity = 0 then throw Fault.divideByZero
    else pure ((60 : Int).tdiv lru.capacity)

/-- The ticker of `processNextRequest`: its period
`time.Duration(60/capacity) * time.Second` in nanoseconds; `time.NewTicker`
panics on a period that is not positive. -/
def newTicker (s : SyncService) : Except Fault Int := do
  let seconds ← tickSeconds s
  let d := seconds * 1000000000
  if d ≤ 0 then throw Fault.tickerInterval else pure d

/-- The format of the line `rebuildRequestCycle` logs, once per call. -/
def rebuiltFmt : String :=
  "Request cycle rebuilt with %d total requests (base: 3, server-specific: %d)"

/-- How many times the cycle has been rebuilt, read off the log. -/
def rebuildCount (s : SyncService) : Nat :=
  s.logs.countP fun line => line.fmt = rebuiltFmt

/-- The requests the recipes of the cycle produce, in cycle order. -/
def SyncService.requests (s : SyncService) : List SyncRequest :=
  s.requestCycle.map fun recipe => recipe ()

/-! ## Observations used by the statements -/

/-- The format of the line `processRequest` logs first, once per call. -/
def processingFmt : String := "Processing: %s (%s)"

/-- The format of the line `retryRequest` logs when it reinserts. -/
def retryingFmt : String :=
  "Retrying request %s (attempt %d/%d) - will retry on next cycle"

/-- The format of the line `retryRequest` logs when it drops the item. -/
def exhaustedFmt : String := "Max retries exceeded for %s"

/-- The log lines that mark a call of `processRequest`, of `retryRequest` or of
`rebuildRequestCycle`. -/
def tracked (line : LogLine) : Bool :=
  line.fmt = processingFmt || line.fmt = retryingFmt || line.fmt = exhaustedFmt ||
    line.fmt = rebuiltFmt

/-- The tracked lines of the log, in order. -/
def SyncService.trace (s : SyncService) : List LogLine := s.logs.filter tracked

/-- How many times `retryRequest` has been called, read off the log. -/
def retryCalls (s : SyncService) : Nat :=
  s.logs.countP fun line => line.fmt = retryingFmt || line.fmt = exhaustedFmt

/-- The requests `processRequest` has been called on, read off the log: the URL
and the type of each, in call order. -/
def SyncService.processed (s : SyncService) : List (List LogArg) :=
  (s.logs.filter fun line => line.fmt = processingFmt).map fun line => line.args

/-- What a call leaves alone when it neither processes a request, nor retries,
nor rebuilds: cycle, cursor, Known-Resource Set, configuration, and the tracked
lines of the log. -/
def Quiet (s s' : SyncService) : Prop :=
  s'.requestCycle = s.requestCycle ∧ s'.cycleIndex = s.cycleIndex ∧
  s'.serverIDs = s.serverIDs ∧ s'.managementURL = s.managementURL ∧
  s'.requestOk = s.requestOk ∧ s'.decode = s.decode ∧ s'.clock = s.clock ∧
  s'.trace = s.trace

/-- The ways the part of `processRequest` after its first log line can end, as
seen on cycle, cursor and tracked log: nothing tracked happens, or one call of
`retryRequest`, or one rebuild (which leaves the cursor at 0). -/
def Settled (s s' : SyncService) : Prop :=
  s'.managementURL = s.managementURL ∧ s'.requestOk = s.requestOk ∧ s'.decode = s.decode ∧
  s'.clock = s.clock ∧
  ((s'.trace = s.trace ∧ s'.requestCycle = s.requestCycle ∧ s'.cycleIndex = s.cycleIndex) ∨
   (∃ line, s'.trace = s.trace ++ [line] ∧
      (line.fmt = retryingFmt ∨ line.fmt = exhaustedFmt) ∧ s'.cycleIndex = s.cycleIndex ∧
      s'.serverIDs = s.serverIDs) ∨
   (∃ line, s'.trace = s.trace ++ [line] ∧ line.fmt = rebuiltFmt ∧ s'.cycleIndex = 0))

/-- The ways a reconciler can end, as seen on cycle, cursor and tracked log:
nothing tracked happens, or one rebuild (which leaves the cursor at 0). -/
def Reconciled (s s' : SyncService) : Prop :=
  s'.managementURL = s.managementURL ∧ s'.requestOk = s.requestOk ∧ s'.decode = s.decode ∧
  s'.clock = s.clock ∧
  ((s'.trace = s.trace ∧ s'.requestCycle = s.requestCycle ∧ s'.cycleIndex = s.cycleIndex) ∨
   (∃ line, s'.trace = s.trace ++ [line] ∧ line.fmt = rebuiltFmt ∧ s'.cycleIndex = 0))

/-- The state of `processRequest` after its first log line. -/
def began (s : SyncService) (req : SyncRequest) : SyncService :=
  s.logf "Processing: %s (%s)" [LogArg.str req.URL, LogArg.str req.ReqType]

/-- The state of `processRequest` after the rotator has answered with `r`. -/
def keyed (s : SyncService) (req : SyncRequest) (r : Acquired) : SyncService :=
  { began s req with lruKeyManager := r.lru, logs := (began s req).logs ++ r.logs }

/-- The HTTP request `processRequest` sends for `req` with the credential of `r`. -/
def theCall (req : SyncRequest) (r : Acquired) : HttpRequest :=
  ⟨req.Method, req.URL, authHeaders r.key, req.Body⟩

/-- The state of `processRequest` after `client.Do` has returned. -/
def called (s : SyncService) (req : SyncRequest) (r : Acquired) : SyncService :=
  ((keyed s req r).clientDo (theCall req r)).2

/-- An entry of the resource list counts as active. -/
def isActive (server : Server) : Bool :=
  server.DomainStatus = "Active".toList ∧ server.Domain ≠ []

/-- The identifiers of the active entries of a response, in response order. -/
def activeIDs (servers : List Server) : List Int :=
  (servers.filter isActive).map fun server => server.ID

/-- The identifiers of the active entries whose insert the store accepted, in
response order; `faults` are the verdicts of the store for the inserts. -/
def keptIDs : List Bool → List Server → List Int
  | _, [] => []
  | faults, server :: rest =>
    if faults.head? = some true then keptIDs faults.tail rest
    else if isActive server then server.ID :: keptIDs faults.tail rest
    else keptIDs faults.tail rest

/-- A request is one of the three per-resource kinds. -/
def perResource (req : SyncRequest) : Bool :=
  req.ReqType = "server-detail".toList || req.ReqType = "root-password".toList ||
    req.ReqType = "console-credentials".toList

/-- The server identifiers targeted by the per-resource recipes of the cycle,
in cycle order. -/
def SyncService.targets (s : SyncService) : List Int :=
  (s.requests.filter perResource).map fun req => req.ServerID

/-- The manager `NewLRUAPIKeyManager` builds at time 0 (`nil` if it fails). -/
def managerOf (apiKeys : List Str) : Option LRUAPIKeyManager :=
  match NewLRUAPIKeyManager apiKeys 0 with
  | Except.ok m => m
  | Except.error _ => none

/-- An entry of the resource list with the given identifier, active. -/
def activeServer (id : Int) : Server :=
  ⟨id, "vm".toList ++ Itoa id, [], [], [], "Active".toList⟩

/-- The item `retryRequest` reinserts for `req`: the same item, its retry count
one higher. -/
def retried (req : SyncRequest) : SyncRequest :=
  { req with RetryCount := req.RetryCount + 1 }

/-- A chain of `n` failures: the item fails and goes to `retryRequest`, the
next tick dispatches what stands at the cursor, that item fails in turn, and so
on. The result lists the items these ticks dispatched. -/
def failChain : Nat → SyncService → SyncRequest → Except Fault (List SyncRequest × SyncService)
  | 0, s, _ => pure ([], s)
  | n + 1, s, req => do
    let s ← retryRequest s req
    let (next, s) ← selectNext s
    match next with
    | none => pure ([], s)
    | some item => do
      let (items, s) ← failChain n s item
      pure (item :: items, s)

/-- A scheduler state as `NewSyncService` leaves it: the bootstrap cycle, no
known resource, cursor 0, no credential configured. -/
def sampleService : SyncService :=
  initializeRequestCycle
    { db := ⟨[], [], [], [], [], [], []⟩,
      managementURL := "https://upstream.example/api".toList,
      lruKeyManager := none, serverIDs := [], requestCycle := [], cycleIndex := 0,
      net := ⟨[], []⟩, clock := 0, requestOk := fun _ _ => true,
      decode := ⟨fun _ => none, fun _ => none, fun _ => none, fun _ => none, fun _ => none,
        fun _ => none, fun _ => none⟩,
      logs := [] }

/-- A work item as the cycle produces it. -/
def sampleRequest : SyncRequest := serversRecipe "https://upstream.example/api".toList ()

/-- A pool of seven credentials. -/
def sevenKeys : List Str :=
  (List.range 7).map fun i => "credential-".toList ++ natToDec i

/-- A state whose credentials cache holds a full row for server 7. -/
def cachedService : SyncService :=
  { sampleService with
    db := { sampleService.db with
      server_credentials_cache :=
        [⟨7, "old-root".toList, "23.227.199.130".toList, 9063, "Nc#mq6Rv".toList⟩] } }

/-- The bootstrap state with the pool of the repository's test configured. -/
def keyedService : SyncService :=
  { sampleService with lruKeyManager := managerOf testKeys }

/-- A state with the cursor on the second recipe in which the upstream answers
the resource-list request with one active resource and fails the two requests
after it at transport level. -/
def listingService : SyncService :=
  { keyedService with
    cycleIndex := 1,
    net := ⟨[some ⟨200, "200 OK".toList, "[7]".toList⟩, none, none], []⟩,
    decode := { keyedService.decode with servers := fun _ => some [activeServer 7] } }

/-- A state whose management URL holds an invalid escape, so that
`http.NewRequest` rejects every request built from it, while a credential is
available and the upstream would answer. -/
def brokenURLService : SyncService :=
  initializeRequestCycle
    { keyedService with
      managementURL := "https://upstream.example/%zz".toList,
      requestOk := fun _ _ => false,
      net := ⟨[some ⟨200, "200 OK".toList, []⟩], []⟩ }

/-- The keyed bootstrap state in which the upstream answers 404. -/
def rejectingService : SyncService :=
  { keyedService with net := ⟨[some ⟨404, "404 Not Found".toList, []⟩], []⟩ }

/-- The outcome "routed to `retryRequest`, exactly once, and no reconciler
ran" of a call of `processRequest` on `s` that ended in `s'`: the call of
`retryRequest` on the intermediate state `t` gave `s'`, the log shows one more
call of `retryRequest` than before, and there was no rebuild and no change of
the store or of the Known-Resource Set. -/
def RoutedToRetry (s : SyncService) (req : SyncRequest) (t s' : SyncService) : Prop :=
  retryRequest t req = Except.ok s' ∧ retryCalls s' = retryCalls s + 1 ∧
  rebuildCount s' = rebuildCount s ∧ s'.db = s.db ∧ s'.serverIDs = s.serverIDs

/-- The keyed bootstrap state in which the upstream answers every request of
the next four ticks with 404. -/
def refusingService : SyncService :=
  { keyedService with
    net := ⟨List.replicate 4 (some ⟨404, "404 Not Found".toList, []⟩), []⟩ }

/-- A pool of sixty-one credentials. -/
def sixtyOneKeys : List Str :=
  (List.range 61).map fun i => "credential-".toList ++ natToDec i

/-- The keyed bootstrap state in which the next network call fails at transport
level. -/
def offlineService : SyncService :=
  { keyedService with net := ⟨[none], []⟩ }

/-! ## The constructor of the service and runs of calls -/

/-- Go `strings.HasPrefix`. -/
def HasPrefix (s pre : Str) : Bool := pre.isPrefixOf s

/-- The loop of `NewSyncService` over `os.Environ()`: the non-empty values of
the variables whose name starts with `SERVER_MANAGEMENT_KEY`, in order. -/
def environKeys : List Str → List Str
  | [] => []
  | env :: rest =>
    match SplitN2 env "=".toList with
    | [name, value] =>
      if HasPrefix name "SERVER_MANAGEMENT_KEY".toList = true ∧ value ≠ [] then
        value :: environKeys rest
      else environKeys rest
    | _ => environKeys rest

/-- Go `os.Getenv` on an environment given as `name=value` strings: the value
of the first entry for the name, empty when there is none. -/
def Getenv (environ : List Str) (name : Str) : Str :=
  match environ.find? fun env => (name ++ ['=']).isPrefixOf env with
  | some env => env.drop (name.length + 1)
  | none => []

/-- Go `NewSyncService` (the unused `syncInterval` left out), given the store,
the environment and the world the service will run in. -/
def NewSyncService (db : DB) (environ : List Str) (net : Net) (clock : Nat)
    (requestOk : Str → Str → Bool) (decode : Decoders) : Except Fault SyncService := do
  -- Get API keys from environment
  let apiKeys := environKeys environ
  let manager ← NewLRUAPIKeyManager apiKeys clock
  let service : SyncService :=
    { db := db, managementURL := Getenv environ "SERVER_MANAGEMENT_URL".toList,
      lruKeyManager := manager, serverIDs := [], requestCycle := [], cycleIndex := 0,
      net := net, clock := clock, requestOk := requestOk, decode := decode, logs := [] }
  pure (initializeRequestCycle service)

/-- A call made on the service: a tick of the scheduler loop, its selection
step alone, `processRequest`, `retryRequest`, `processServersResponse` on a
decoded body, `rebuildRequestCycle`, or `ManualSync`. -/
inductive Call where
  | tick
  | select
  | process (req : SyncRequest)
  | retry (req : SyncRequest)
  | servers (decoded : Option (List Server))
  | rebuild
  | manual

/-- One call on the service. -/
def step (s : SyncService) : Call → Except Fault SyncService
  | Call.tick => tick s
  | Call.select => do
    let (_, s) ← selectNext s
    pure s
  | Call.process req => processRequest s req
  | Call.retry req => retryRequest s req
  | Call.servers decoded => pure (processServersResponse s decoded)
  | Call.rebuild => pure (rebuildRequestCycle s)
  | Call.manual => do
    let (s, _) ← ManualSync s
    pure s

/-- A sequence of calls, each on the state the previous one left. -/
def runCalls : SyncService → List Call → Except Fault SyncService
  | s, [] => pure s
  | s, call :: rest => do
    let s ← step s call
    runCalls s rest

/-- An environment with the management URL and two credentials. -/
def sampleEnviron : List Str :=
  ["PATH=/usr/bin".toList, "SERVER_MANAGEMENT_URL=https://upstream.example/api".toList,
   "SERVER_MANAGEMENT_KEY=key1_12345678".toList, "SERVER_MANAGEMENT_KEY_2=key2_87654321".toList,
   "SERVER_MANAGEMENT_KEY_3=".toList]

/-- A run of `n` ticks of the scheduler loop together with the requests the
ticks dispatched, in order. -/
def dispatched : Nat → SyncService → Except Fault (List SyncRequest × SyncService)
  | 0, s => pure ([], s)
  | n + 1, s => do
    let (next, s) ← selectNext s
    match next with
    | none => dispatched n s
    | some req => do
      let s ← processRequest s req
      let (reqs, s) ← dispatched n s
      pure (req :: reqs, s)

/-- The keyed bootstrap state with an upstream that fails the first call at
transport level, answers the second with 200 and an undecodable body, the next
three with 404 and the sixth with 200. -/
def flakyService : SyncService :=
  { keyedService with
    net := ⟨[none, some ⟨200, "200 OK".toList, []⟩, some ⟨404, "404 Not Found".toList, []⟩,
      some ⟨404, "404 Not Found".toList, []⟩, some ⟨404, "404 Not Found".toList, []⟩,
      some ⟨200, "200 OK".toList, []⟩], []⟩ }

/-- The cycle `rebuildRequestCycle` builds for a base URL and a Known-Resource
Set. -/
def rebuiltCycle (managementURL : Str) (serverIDs : List Int) : List (Unit → SyncRequest) :=
  appendServerRecipes managementURL
    [serversRecipe managementURL, osTypesRecipe managementURL] serverIDs

/-- The ways a call of `retryRequest`, of a reconciler or of the part of
`processRequest` after its first log line can end, as seen on cycle, cursor
and tracked log: nothing tracked happens and cycle and cursor stay; or one call
of `retryRequest`, which leaves the cursor and either leaves the cycle or
inserts one recipe at the cursor; or one rebuild, which leaves the cursor at 0
and the cycle rebuilt from the Known-Resource Set. -/
def Outcome (s s' : SyncService) : Prop :=
  s'.managementURL = s.managementURL ∧
  ((s'.trace = s.trace ∧ s'.requestCycle = s.requestCycle ∧ s'.cycleIndex = s.cycleIndex) ∨
   (∃ line, s'.trace = s.trace ++ [line] ∧
      (line.fmt = retryingFmt ∨ line.fmt = exhaustedFmt) ∧ s'.cycleIndex = s.cycleIndex ∧
      (s'.requestCycle = s.requestCycle ∨
        (0 ≤ s.cycleIndex ∧ s.cycleIndex ≤ (s.requestCycle.length : Int) ∧
          ∃ recipe, s'.requestCycle =
            s.requestCycle.take s.cycleIndex.toNat ++
              ([recipe] ++ s.requestCycle.drop s.cycleIndex.toNat)))) ∨
   (∃ line, s'.trace = s.trace ++ [line] ∧ line.fmt = rebuiltFmt ∧ s'.cycleIndex = 0 ∧
      s'.requestCycle = rebuiltCycle s'.managementURL s'.serverIDs))

/-- The cursor invariant: the cycle has at least two recipes and the cursor is
an index of it. -/
def CursorOk (s : SyncService) : Prop :=
  2 ≤ s.requestCycle.length ∧ 0 ≤ s.cycleIndex ∧ s.cycleIndex < (s.requestCycle.length : Int)

/-- What a returning call of `processRequest` (or of `retryRequest`, or of a
reconciler) has done to the counts of retries and rebuilds, to the cursor and
to the cycle: nothing; or one retry, the cursor kept and the cycle kept or one
recipe inserted at the cursor; or one rebuild. -/
def Turn (s s' : SyncService) : Prop :=
  (retryCalls s' = retryCalls s ∧ rebuildCount s' = rebuildCount s ∧
    s'.requestCycle = s.requestCycle ∧ s'.cycleIndex = s.cycleIndex) ∨
  (retryCalls s' = retryCalls s + 1 ∧ rebuildCount s' = rebuildCount s ∧
    s'.cycleIndex = s.cycleIndex ∧
    (s'.requestCycle = s.requestCycle ∨
      (0 ≤ s.cycleIndex ∧ s.cycleIndex ≤ (s.requestCycle.length : Int) ∧
        ∃ recipe, s'.requestCycle =
          s.requestCycle.take s.cycleIndex.toNat ++
            ([recipe] ++ s.requestCycle.drop s.cycleIndex.toNat)))) ∨
  (retryCalls s' = retryCalls s ∧ rebuildCount s' = rebuildCount s + 1 ∧
    s'.cycleIndex = 0 ∧ s'.requestCycle = rebuiltCycle s'.managementURL s'.serverIDs)

/-- Between two rebuilds the cycle only grows: the count of rebuilds has not
gone down, and while it is the same the old cycle is a sublist of the new one. -/
def Grew (s s' : SyncService) : Prop :=
  rebuildCount s ≤ rebuildCount s' ∧
  (rebuildCount s' = rebuildCount s → s.requestCycle.Sublist s'.requestCycle)

/-- A state that knows the resource 5, with the cursor on the third recipe. -/
def knowingService : SyncService :=
  { sampleService with serverIDs := [5], cycleIndex := 2 }

/-- A state that knows the resource 7 and whose store will accept the next
statement and fail the one after it. -/
def failingInsertService : SyncService :=
  { sampleService with
    serverIDs := [7], db := { sampleService.db with faults := [false, true] } }

/-! ## Theorems -/

section setters
variable (lru : LRUAPIKeyManager) (a : Nat) (p : Option Nat) (t y : Nat)

@[simp] theorem pure_eq_ok {α : Type} (x : α) : (pure x : Except Fault α) = Except.ok x := rfl
@[simp] theorem ok_bind {α β : Type} (x : α) (f : α → Except Fault β) :
    (Except.ok x >>= f) = f x := rfl
@[simp] theorem error_bind {α β : Type} (e : Fault) (f : α → Except Fault β) :
    (Except.error e >>= f) = Except.error e := rfl
@[simp] theorem throw_eq_error {α : Type} (e : Fault) :
    (throw e : Except Fault α) = Except.error e := rfl
@[simp] theorem deref_some (a : Nat) : deref (some a) = Except.ok a := rfl
@[simp] theorem node_eq : lru.node y = lru.heap.cells y := rfl

@[simp] theorem setNext_head : (lru.setNext a p).head = lru.head := rfl
@[simp] theorem setNext_tail : (lru.setNext a p).tail = lru.tail := rfl
@[simp] theorem setNext_keys : (lru.setNext a p).keys = lru.keys := rfl
@[simp] theorem setNext_capacity : (lru.setNext a p).capacity = lru.capacity := rfl
@[simp] theorem setNext_size : (lru.setNext a p).heap.size = lru.heap.size := rfl
@[simp] theorem setNext_next :
    ((lru.setNext a p).heap.cells y).next = if y = a then p else (lru.heap.cells y).next := by
  simp only [LRUAPIKeyManager.setNext]; split <;> rfl
@[simp] theorem setNext_prev :
    ((lru.setNext a p).heap.cells y).prev = (lru.heap.cells y).prev := by
  simp only [LRUAPIKeyManager.setNext]; split <;> rfl
@[simp] theorem setNext_key :
    ((lru.setNext a p).heap.cells y).key = (lru.heap.cells y).key := by
  simp only [LRUAPIKeyManager.setNext]; split <;> rfl
@[simp] theorem setNext_lastUsed :
    ((lru.setNext a p).heap.cells y).lastUsed = (lru.heap.cells y).lastUsed := by
  simp only [LRUAPIKeyManager.setNext]; split <;> rfl

@[simp] theorem setPrev_head : (lru.setPrev a p).head = lru.head := rfl
@[simp] theorem setPrev_tail : (lru.setPrev a p).tail = lru.tail := rfl
@[simp] theorem setPrev_keys : (lru.setPrev a p).keys = lru.keys := rfl
@[simp] theorem setPrev_capacity : (lru.setPrev a p).capacity = lru.capacity := rfl
@[simp] theorem setPrev_size : (lru.setPrev a p).heap.size = lru.heap.size := rfl
@[simp] theorem setPrev_prev :
    ((lru.setPrev a p).heap.cells y).prev = if y = a then p else (lru.heap.cells y).prev := by
  simp only [LRUAPIKeyManager.setPrev]; split <;> rfl
@[simp] theorem setPrev_next :
    ((lru.setPrev a p).heap.cells y).next = (lru.heap.cells y).next := by
  simp only [LRUAPIKeyManager.setPrev]; split <;> rfl
@[simp] theorem setPrev_key :
    ((lru.setPrev a p).heap.cells y).key = (lru.heap.cells y).key := by
  simp only [LRUAPIKeyManager.setPrev]; split <;> rfl
@[simp] theorem setPrev_lastUsed :
    ((lru.setPrev a p).heap.cells y).lastUsed = (lru.heap.cells y).lastUsed := by
  simp only [LRUAPIKeyManager.setPrev]; split <;> rfl

@[simp] theorem setLastUsed_head : (lru.setLastUsed a t).head = lru.head := rfl
@[simp] theorem setLastUsed_tail : (lru.setLastUsed a t).tail = lru.tail := rfl
@[simp] theorem setLastUsed_keys : (lru.setLastUsed a t).keys = lru.keys := rfl
@[simp] theorem setLastUsed_capacity : (lru.setLastUsed a t).capacity = lru.capacity := rfl
@[simp] theorem setLastUsed_size : (lru.setLastUsed a t).heap.size = lru.heap.size := rfl
@[simp] theorem setLastUsed_prev :
    ((lru.setLastUsed a t).heap.cells y).prev = (lru.heap.cells y).prev := by
  simp only [LRUAPIKeyManager.setLastUsed]; split <;> rfl
@[simp] theorem setLastUsed_next :
    ((lru.setLastUsed a t).heap.cells y).next = (lru.heap.cells y).next := by
  simp only [LRUAPIKeyManager.setLastUsed]; split <;> rfl
@[simp] theorem setLastUsed_key :
    ((lru.setLastUsed a t).heap.cells y).key = (lru.heap.cells y).key := by
  simp only [LRUAPIKeyManager.setLastUsed]; split <;> rfl
@[simp] theorem setLastUsed_lastUsed :
    ((lru.setLastUsed a t).heap.cells y).lastUsed =
      if y = a then t else (lru.heap.cells y).lastUsed := by
  simp only [LRUAPIKeyManager.setLastUsed]; split <;> rfl

end setters

theorem addToHead_eq (lru : LRUAPIKeyManager) (h hn n : Nat)
    (hh : lru.head = some h) (hnx : (lru.heap.cells h).next = some hn) :
    ∃ m, lru.addToHead (some n) = Except.ok m ∧ SameFrame m lru ∧
      (∀ y, (m.heap.cells y).next =
        if y = h then some n else if y = n then some hn else (lru.heap.cells y).next) ∧
      (∀ y, (m.heap.cells y).prev =
        if y = hn then some n else if y = n then some h else (lru.heap.cells y).prev) := by
  have e : lru.addToHead (some n) = Except.ok
      ((((lru.setPrev n (some h)).setNext n (some hn)).setPrev hn (some n)).setNext h
        (some n)) := by
    simp [LRUAPIKeyManager.addToHead, hh, hnx]
  refine ⟨_, e, ?_, ?_, ?_⟩
  · simp [SameFrame]
  · intro y; simp
  · intro y; simp

theorem removeNode_eq (lru : LRUAPIKeyManager) (p n x : Nat)
    (hp : (lru.heap.cells n).prev = some p) (hx : (lru.heap.cells n).next = some x) :
    ∃ m, lru.removeNode (some n) = Except.ok m ∧ SameFrame m lru ∧
      (∀ y, (m.heap.cells y).next = if y = p then some x else (lru.heap.cells y).next) ∧
      (∀ y, (m.heap.cells y).prev = if y = x then some p else (lru.heap.cells y).prev) := by
  have e : lru.removeNode (some n) = Except.ok
      ((lru.setNext p (some x)).setPrev x (some p)) := by
    simp [LRUAPIKeyManager.removeNode, hp, hx]
  refine ⟨_, e, ?_, ?_, ?_⟩
  · simp [SameFrame]
  · intro y; simp
  · intro y; simp

theorem Linked_congr {c d : Nat → APIKeyNode} : ∀ (l : List Nat) (a t : Nat),
    (∀ x ∈ a :: l, (d x).next = (c x).next) → (∀ x ∈ l ++ [t], (d x).prev = (c x).prev) →
    Linked c a l t → Linked d a l t
  | [], a, t, hn, hp, hl => by
    simp only [Linked] at hl ⊢
    rw [hn a (by simp), hp t (by simp)]
    exact hl
  | b :: l, a, t, hn, hp, hl => by
    simp only [Linked] at hl ⊢
    refine ⟨by rw [hn a (by simp)]; exact hl.1, by rw [hp b (by simp)]; exact hl.2.1, ?_⟩
    refine Linked_congr l b t (fun x hx => hn x (List.mem_cons_of_mem _ hx))
      (fun x hx => hp x ?_) hl.2.2
    simp only [List.cons_append, List.mem_cons]
    exact Or.inr hx

theorem Linked_snoc {c : Nat → APIKeyNode} : ∀ (l : List Nat) (a x t : Nat),
    Linked c a (l ++ [x]) t ↔ Linked c a l x ∧ (c x).next = some t ∧ (c t).prev = some x
  | [], a, x, t => by simp [Linked]; tauto
  | b :: l, a, x, t => by
    have ih := @Linked_snoc c l b x t
    show (_ ∧ _ ∧ Linked c b (l ++ [x]) t) ↔ (_ ∧ _ ∧ Linked c b l x) ∧ _ ∧ _
    rw [ih]
    tauto

theorem Linked_prev_mem {c : Nat → APIKeyNode} : ∀ (l : List Nat) (a x : Nat),
    Linked c a l x → ∃ p, (c x).prev = some p ∧ p ∈ a :: l ∧ (c p).next = some x
  | [], a, x, h => ⟨a, h.2, by simp, h.1⟩
  | b :: l, a, x, h => by
    obtain ⟨p, h1, h2, h3⟩ := Linked_prev_mem l b x h.2.2
    exact ⟨p, h1, List.mem_cons_of_mem _ h2, h3⟩

/-- Unlinking the last node `x` of a chain that ends at `t`. -/
theorem Linked_unlink {c d : Nat → APIKeyNode} (x t p : Nat) : ∀ (l : List Nat) (a : Nat),
    (a :: (l ++ [x, t])).Nodup → Linked c a l x → (c x).prev = some p →
    (∀ y, (d y).next = if y = p then some t else (c y).next) →
    (∀ y, (d y).prev = if y = t then some p else (c y).prev) →
    Linked d a l t
  | [], a, _, hl, hp, hn, hv => by
    have hpa : p = a := by
      have := hl.2; rw [hp] at this; exact Option.some.inj this
    subst hpa
    exact ⟨by rw [hn]; simp, by rw [hv]; simp⟩
  | b :: l, a, hnd, hl, hp, hn, hv => by
    obtain ⟨q, hq1, hq2, _⟩ := Linked_prev_mem l b x hl.2.2
    have hqp : q = p := by rw [hp] at hq1; exact (Option.some.inj hq1).symm
    subst hqp
    have hnd2 : (b :: (l ++ [x, t])).Nodup := (List.nodup_cons.mp hnd).2
    have ha : a ∉ b :: (l ++ [x, t]) := (List.nodup_cons.mp hnd).1
    have hb : b ∉ l ++ [x, t] := (List.nodup_cons.mp hnd2).1
    refine ⟨?_, ?_, Linked_unlink x t q l b hnd2 hl.2.2 hp hn hv⟩
    · rw [hn, if_neg]
      · exact hl.1
      · rintro rfl
        apply ha
        rcases List.mem_cons.mp hq2 with h | h
        · simp [h]
        · simp [h]
    · rw [hv, if_neg]
      · exact hl.2.1
      · rintro rfl
        apply hb
        simp

/-- Linking a node `x` from outside the chain right after its first cell. -/
theorem Linked_push {c d : Nat → APIKeyNode} (h t x hn : Nat) (l : List Nat)
    (hnd : (h :: (l ++ [t])).Nodup) (hx : x ∉ h :: (l ++ [t])) (hl : Linked c h l t)
    (hhn : (c h).next = some hn)
    (hnext : ∀ y, (d y).next =
      if y = h then some x else if y = x then some hn else (c y).next)
    (hprev : ∀ y, (d y).prev =
      if y = hn then some x else if y = x then some h else (c y).prev) :
    Linked d h (x :: l) t := by
  have hxh : x ≠ h := fun e => hx (by simp [e])
  cases l with
  | nil =>
    have e : hn = t := by
      have := hl.1; rw [hhn] at this; exact Option.some.inj this
    subst e
    have hxt : x ≠ hn := fun e => hx (by simp [e])
    refine ⟨by rw [hnext]; simp, by rw [hprev]; simp [hxt], ?_, ?_⟩
    · rw [hnext]; simp [hxh]
    · rw [hprev]; simp
  | cons b l =>
    have e : hn = b := by
      have := hl.1; rw [hhn] at this; exact Option.some.inj this
    subst e
    have hxb : x ≠ hn := fun e => hx (by simp [e])
    simp only [List.cons_append, List.nodup_cons, List.mem_cons, List.mem_append,
      List.mem_singleton, not_or] at hnd hx
    refine ⟨by rw [hnext]; simp, by rw [hprev]; simp [hxb], ?_, ?_, ?_⟩
    · rw [hnext]; simp [hxh]
    · rw [hprev]; simp
    · refine Linked_congr l hn t ?_ ?_ hl.2.2
      · intro y hy
        have hyh : y ≠ h := by
          rintro rfl
          rcases List.mem_cons.mp hy with e | e
          · exact hnd.1.1 e
          · exact hnd.1.2.1 e
        have hyx : y ≠ x := by
          rintro rfl
          rcases List.mem_cons.mp hy with e | e
          · exact hx.2.1 e
          · exact hx.2.2.1 e
        rw [hnext, if_neg hyh, if_neg hyx]
      · intro y hy
        have hyb : y ≠ hn := by
          rintro rfl
          rcases List.mem_append.mp hy with e | e
          · exact hnd.2.1.1 e
          · exact hnd.2.1.2.1 (by simpa using e)
        have hyx : y ≠ x := by
          rintro rfl
          rcases List.mem_append.mp hy with e | e
          · exact hx.2.2.1 e
          · exact hx.2.2.2.1 (by simpa using e)
        rw [hprev, if_neg hyb, if_neg hyx]

theorem Linked_first {c : Nat → APIKeyNode} (h t : Nat) (l : List Nat)
    (hl : Linked c h l t) : ∃ hn, (c h).next = some hn ∧ hn ∈ l ++ [t] := by
  cases l with
  | nil => exact ⟨t, hl.1, by simp⟩
  | cons b l => exact ⟨b, hl.1, by simp⟩

theorem moveToHead_shape (lru : LRUAPIKeyManager) (h t x : Nat) (l : List Nat)
    (hs : Shape lru h t (l ++ [x])) :
    ∃ m, lru.moveToHead (some x) = Except.ok m ∧ SameFrame m lru ∧ Shape m h t (x :: l) := by
  obtain ⟨hh, ht, hnd, hl, hb⟩ := hs
  obtain ⟨hl1, hxn, _⟩ := (Linked_snoc l h x t).mp hl
  obtain ⟨p, hp, _, _⟩ := Linked_prev_mem l h x hl1
  obtain ⟨m1, e1, f1, n1, p1⟩ := removeNode_eq lru p x t hp hxn
  have hnd1 : (h :: (l ++ [x, t])).Nodup := by simpa using hnd
  have hl2 : Linked m1.heap.cells h l t := Linked_unlink x t p l h hnd1 hl1 hp n1 p1
  obtain ⟨hn, hhn, _⟩ := Linked_first h t l hl2
  obtain ⟨m2, e2, f2, n2, p2⟩ := addToHead_eq m1 h hn x (f1.1.trans hh) hhn
  have hnd2 : (h :: (l ++ [t])).Nodup := by
    simp only [List.nodup_cons, List.mem_append, List.mem_cons, List.nodup_append,
      List.mem_singleton, not_or, List.append_assoc, List.cons_append, List.nil_append]
      at hnd ⊢
    simp only [List.nodup_cons, List.mem_append, List.mem_cons, List.nodup_append,
      List.mem_singleton, not_or, List.append_assoc, List.cons_append, List.nil_append,
      List.not_mem_nil, List.nodup_nil, List.Disjoint, or_false,
      not_false_eq_true, and_true, true_and] at hnd ⊢
    refine ⟨⟨hnd.1.1, hnd.1.2.2⟩, hnd.2.1, ?_⟩
    intro a ha e
    exact hnd.2.2.2 ha (Or.inr e)
  have hx : x ∉ h :: (l ++ [t]) := by
    simp only [List.nodup_cons, List.mem_append, List.mem_cons, List.nodup_append,
      List.mem_singleton, not_or, List.append_assoc, List.cons_append, List.nil_append,
      List.not_mem_nil, List.nodup_nil, List.Disjoint, or_false,
      not_false_eq_true, and_true, true_and] at hnd ⊢
    refine ⟨fun e => hnd.1.2.1 e.symm, ?_, hnd.2.2.1⟩
    intro hxl
    exact hnd.2.2.2 hxl (Or.inl rfl)
  refine ⟨m2, ?_, ?_, ?_⟩
  · simp [LRUAPIKeyManager.moveToHead, e1, e2]
  · obtain ⟨a1, a2, a3, a4, a5, a6, a7⟩ := f1
    obtain ⟨b1, b2, b3, b4, b5, b6, b7⟩ := f2
    exact ⟨b1.trans a1, b2.trans a2, b3.trans a3, b4.trans a4, b5.trans a5,
      fun y => (b6 y).trans (a6 y), fun y => (b7 y).trans (a7 y)⟩
  · refine ⟨f2.1.trans (f1.1.trans hh), f2.2.1.trans (f1.2.1.trans ht), ?_,
      Linked_push h t x hn l hnd2 hx hl2 hhn n2 p2, ?_⟩
    · have : (h :: ((x :: l) ++ [t])).Perm (x :: h :: (l ++ [t])) := by
        simpa using List.Perm.swap x h (l ++ [t])
      exact this.nodup_iff.mpr (List.nodup_cons.mpr ⟨hx, hnd2⟩)
    · intro a ha
      rw [f2.2.2.1, f1.2.2.1]
      apply hb
      simp only [List.mem_cons, List.mem_append, List.mem_singleton, List.cons_append,
        List.not_mem_nil, or_false] at ha ⊢
      tauto

theorem addKey_shape (lru : LRUAPIKeyManager) (h t : Nat) (l : List Nat) (key : Str)
    (now : Nat) (hs : Shape lru h t l) :
    ∃ m, lru.addKey key now = Except.ok m ∧ Shape m h t (lru.heap.size :: l) ∧
      m.heap.size = lru.heap.size + 1 ∧ m.capacity = lru.capacity ∧
      (m.heap.cells lru.heap.size).key = key ∧
      ∀ y, y ≠ lru.heap.size → (m.heap.cells y).key = (lru.heap.cells y).key := by
  obtain ⟨hh, ht, hnd, hl, hb⟩ := hs
  let m0 : LRUAPIKeyManager :=
    { lru with
      keys := fun k => if k = key then some lru.heap.size else lru.keys k,
      heap := ⟨fun a => if a = lru.heap.size then ⟨key, none, none, now⟩ else lru.heap.cells a,
                lru.heap.size + 1⟩ }
  have e0 : lru.addKey key now = m0.addToHead (some lru.heap.size) := rfl
  have hfresh : ∀ a ∈ h :: (l ++ [t]), a ≠ lru.heap.size := fun a ha => (hb a ha).ne
  have hc : ∀ a ∈ h :: (l ++ [t]), m0.heap.cells a = lru.heap.cells a := by
    intro a ha
    show (if a = lru.heap.size then _ else _) = _
    rw [if_neg (hfresh a ha)]
  have hl0 : Linked m0.heap.cells h l t := by
    refine Linked_congr l h t ?_ ?_ hl
    · intro y hy
      rw [hc y]
      simp only [List.mem_cons, List.mem_append] at hy ⊢
      tauto
    · intro y hy
      rw [hc y (List.mem_cons_of_mem _ hy)]
  obtain ⟨hn, hhn, _⟩ := Linked_first h t l hl0
  obtain ⟨m, e, f, n1, p1⟩ := addToHead_eq m0 h hn lru.heap.size hh hhn
  have hx : lru.heap.size ∉ h :: (l ++ [t]) := fun hm => hfresh _ hm rfl
  refine ⟨m, e0.trans e, ⟨f.1.trans hh, f.2.1.trans ht, ?_,
    Linked_push h t lru.heap.size hn l hnd hx hl0 hhn n1 p1, ?_⟩, f.2.2.1, f.2.2.2.2.1, ?_, ?_⟩
  · have : (h :: ((lru.heap.size :: l) ++ [t])).Perm (lru.heap.size :: h :: (l ++ [t])) := by
      simpa using List.Perm.swap lru.heap.size h (l ++ [t])
    exact this.nodup_iff.mpr (List.nodup_cons.mpr ⟨hx, hnd⟩)
  · intro a ha
    rw [f.2.2.1]
    show a < lru.heap.size + 1
    simp only [List.mem_cons, List.mem_append, List.mem_singleton, List.cons_append] at ha
    rcases ha with rfl | rfl | ha
    · exact Nat.lt_succ_of_lt (hb _ (by simp))
    · exact Nat.lt_succ_self _
    · exact Nat.lt_succ_of_lt (hb _ (by
        simp only [List.mem_cons, List.mem_append, List.mem_singleton]; tauto))
  · rw [f.2.2.2.2.2.1]
    show (if lru.heap.size = lru.heap.size then (⟨key, none, none, now⟩ : APIKeyNode)
      else _).key = key
    rw [if_pos rfl]
  · intro y hy
    rw [f.2.2.2.2.2.1]
    show (if y = lru.heap.size then (⟨key, none, none, now⟩ : APIKeyNode)
      else lru.heap.cells y).key = _
    rw [if_neg hy]

theorem keysAt_cons (lru : LRUAPIKeyManager) (a : Nat) (l : List Nat) :
    lru.keysAt (a :: l) = (lru.heap.cells a).key :: lru.keysAt l := rfl

theorem keysAt_congr (m lru : LRUAPIKeyManager) (l : List Nat)
    (h : ∀ a ∈ l, (m.heap.cells a).key = (lru.heap.cells a).key) :
    m.keysAt l = lru.keysAt l :=
  List.map_congr_left h

theorem addKeys_shape (now : Nat) (h t : Nat) : ∀ (ks : List Str) (lru : LRUAPIKeyManager)
    (l : List Nat), Shape lru h t l →
    ∃ m l', addKeys lru now ks = Except.ok m ∧ Shape m h t l' ∧
      m.keysAt l' = (configured ks).reverse ++ lru.keysAt l ∧ m.capacity = lru.capacity
  | [], lru, l, hs => ⟨lru, l, rfl, hs, by simp [configured], rfl⟩
  | key :: rest, lru, l, hs => by
    by_cases hk : key = []
    · obtain ⟨m, l', e, hs', hk', hc⟩ := addKeys_shape now h t rest lru l hs
      refine ⟨m, l', ?_, hs', ?_, hc⟩
      · simp [addKeys, hk, e]
      · simp [configured, hk] at hk' ⊢
        exact hk'
    · obtain ⟨m1, e1, hs1, _, hc1, hk1, hk2⟩ := addKey_shape lru h t l key now hs
      obtain ⟨m, l', e, hs', hk', hc⟩ := addKeys_shape now h t rest m1 _ hs1
      refine ⟨m, l', ?_, hs', ?_, hc.trans hc1⟩
      · simp [addKeys, hk, e1, e]
      · rw [hk', keysAt_cons, hk1, keysAt_congr m1 lru l]
        · simp [configured, hk]
        · intro a ha
          apply hk2
          have := hs.2.2.2.2 a (by simp [ha])
          exact this.ne

theorem nodup_bounded_length : ∀ (n : Nat) (l : List Nat), l.Nodup → (∀ a ∈ l, a < n) →
    l.length ≤ n := by
  intro n l hnd hb
  have hsub : l ⊆ List.range n := fun a ha => List.mem_range.mpr (hb a ha)
  have := (List.subperm_of_subset hnd hsub).length_le
  simpa using this

theorem walk_linked (lru : LRUAPIKeyManager) (t : Nat) (ht : lru.tail = some t) :
    ∀ (l : List Nat) (a fuel : Nat), Linked lru.heap.cells a l t → t ∉ l →
    l.length < fuel → walk lru fuel (lru.heap.cells a).next = l
  | [], a, fuel, hl, _, hf => by
    obtain ⟨f, rfl⟩ : ∃ f, fuel = f + 1 := ⟨fuel - 1, by simp at hf; omega⟩
    simp [walk, hl.1, ht]
  | b :: l, a, fuel, hl, hnt, hf => by
    obtain ⟨f, rfl⟩ : ∃ f, fuel = f + 1 := ⟨fuel - 1, by simp at hf; omega⟩
    have hbt : b ≠ t := fun e => hnt (by simp [e])
    have ih := walk_linked lru t ht l b f hl.2.2 (fun e => hnt (List.mem_cons_of_mem _ e))
      (by simp at hf; omega)
    simp [walk, hl.1, ht, hbt, ih]

theorem order_of_shape (lru : LRUAPIKeyManager) (h t : Nat) (l : List Nat)
    (hs : Shape lru h t l) : lru.order = l := by
  obtain ⟨hh, ht, hnd, hl, hb⟩ := hs
  have hlen : (h :: (l ++ [t])).length ≤ lru.heap.size := nodup_bounded_length _ _ hnd hb
  have hnt : t ∉ l := by
    intro e
    have := (List.nodup_cons.mp hnd).2
    rw [List.nodup_append] at this
    exact this.2.2 e (by simp)
  simp only [LRUAPIKeyManager.order, hh, node_eq]
  apply walk_linked lru t ht l h _ hl hnt
  simp at hlen
  omega

theorem ledger_of_shape (lru : LRUAPIKeyManager) (h t : Nat) (l : List Nat)
    (hs : Shape lru h t l) : lru.ledger = lru.keysAt l := by
  simp only [LRUAPIKeyManager.ledger, order_of_shape lru h t l hs, LRUAPIKeyManager.keysAt]

theorem New_shape (apiKeys : List Str) (now : Nat) (hne : apiKeys ≠ []) :
    ∃ m l, NewLRUAPIKeyManager apiKeys now = Except.ok (some m) ∧ Shape m 0 1 l ∧
      m.keysAt l = (configured apiKeys).reverse ∧ m.capacity = apiKeys.length := by
  let m0 : LRUAPIKeyManager :=
    { keys := fun _ => none, head := some 0, tail := some 1, capacity := apiKeys.length,
      heap := ⟨fun b => if b = 1 then
          { (if b = 0 then { (if b = 1 then APIKeyNode.zero
              else if b = 0 then APIKeyNode.zero else APIKeyNode.zero) with next := some 1 }
            else if b = 1 then APIKeyNode.zero
              else if b = 0 then APIKeyNode.zero else APIKeyNode.zero) with prev := some 0 }
        else if b = 0 then { (if b = 1 then APIKeyNode.zero
              else if b = 0 then APIKeyNode.zero else APIKeyNode.zero) with next := some 1 }
            else if b = 1 then APIKeyNode.zero
              else if b = 0 then APIKeyNode.zero else APIKeyNode.zero, 2⟩ }
  have hlen : apiKeys.length ≠ 0 := fun e => hne (List.length_eq_zero.mp e)
  have e0 : NewLRUAPIKeyManager apiKeys now =
      (addKeys m0 now apiKeys >>= fun m => pure (some m)) := by
    simp only [NewLRUAPIKeyManager, if_neg hlen]
    rfl
  have hs0 : Shape m0 0 1 [] := by
    refine ⟨rfl, rfl, by decide, ⟨rfl, rfl⟩, ?_⟩
    intro a ha
    show a < 2
    simp at ha
    omega
  obtain ⟨m, l, e, hs, hk, hc⟩ := addKeys_shape now 0 1 apiKeys m0 [] hs0
  refine ⟨m, l, ?_, hs, ?_, hc⟩
  · rw [e0, e]; rfl
  · rw [hk]; simp [LRUAPIKeyManager.keysAt]

theorem lastEight_ok (key : Str) (h : 8 ≤ key.length) :
    lastEight key = Except.ok (key.drop (key.length - 8)) := by
  simp [lastEight, Nat.not_lt.mpr h]

theorem lastEight_short (key : Str) (h : key.length < 8) :
    lastEight key = Except.error Fault.sliceBounds := by
  simp [lastEight, h]

/-- The promote step of an acquisition on a well-formed, non-empty ledger. -/
theorem acquire_shape (lru : LRUAPIKeyManager) (h t x : Nat) (l : List Nat) (now : Nat)
    (hs : Shape lru h t (l ++ [x])) :
    ∃ m, Shape m h t (x :: l) ∧ m.capacity = lru.capacity ∧
      (∀ y, (m.heap.cells y).key = (lru.heap.cells y).key) ∧
      GetLeastRecentlyUsedKey (some lru) now =
        (lastEight (lru.heap.cells x).key >>= fun suffix =>
          Except.ok ⟨(lru.heap.cells x).key, some m,
            [⟨"Selected LRU API key ending in ...%s (last used: %s)",
              [LogArg.str suffix, LogArg.str (formatClock now)]⟩]⟩) := by
  obtain ⟨m1, e1, f1, hs1⟩ := moveToHead_shape lru h t x l hs
  obtain ⟨hh, ht, hnd, hl, hb⟩ := hs
  obtain ⟨_, _, hpt⟩ := (Linked_snoc l h x t).mp hl
  have hxh : x ≠ h := by
    intro e
    have := (List.nodup_cons.mp hnd).1
    exact this (by simp [e])
  refine ⟨m1.setLastUsed x now, ?_, ?_, ?_, ?_⟩
  · obtain ⟨a1, a2, a3, a4, a5⟩ := hs1
    refine ⟨a1, a2, a3, ?_, a5⟩
    exact Linked_congr _ _ _ (fun y _ => by simp) (fun y _ => by simp) a4
  · exact f1.2.2.2.2.1
  · intro y
    simp [f1.2.2.2.2.2.1 y]
  · have hk : (m1.heap.cells x).key = (lru.heap.cells x).key := f1.2.2.2.2.2.1 x
    simp [GetLeastRecentlyUsedKey, ht, hpt, hh, hxh, e1, hk]

theorem keysAt_append (lru : LRUAPIKeyManager) (l l' : List Nat) :
    lru.keysAt (l ++ l') = lru.keysAt l ++ lru.keysAt l' := by
  simp [LRUAPIKeyManager.keysAt]

theorem keysAt_same (m lru : LRUAPIKeyManager) (l : List Nat)
    (h : ∀ y, (m.heap.cells y).key = (lru.heap.cells y).key) : m.keysAt l = lru.keysAt l :=
  keysAt_congr m lru l fun a _ => h a

/-- A run of acquisitions on a well-formed ledger whose credentials all have at
least 8 bytes: every call returns, and call `j` returns the head of the ledger
(least recently used first) rotated `j` times. -/
theorem acquireAll_shape (h t : Nat) : ∀ (times : List Nat) (lru : LRUAPIKeyManager)
    (l : List Nat), Shape lru h t l → l ≠ [] → (∀ k ∈ lru.keysAt l, 8 ≤ k.length) →
    ∃ out m l', acquireAll (some lru) times = Except.ok (out, some m) ∧ Shape m h t l' ∧
      (m.keysAt l').reverse = (lru.keysAt l).reverse.rotate times.length ∧
      out.length = times.length ∧
      ∀ j, j < times.length → out[j]? = ((lru.keysAt l).reverse.rotate j).head?
  | [], lru, l, hs, _, _ => ⟨[], lru, l, rfl, hs, by simp, rfl, by simp⟩
  | now :: rest, lru, l, hs, hne, h8 => by
    obtain ⟨l1, x, rfl⟩ : ∃ l1 x, l = l1 ++ [x] := by
      rcases List.eq_nil_or_concat l with e | ⟨l1, x, e⟩
      · exact absurd e hne
      · exact ⟨l1, x, by simpa using e⟩
    obtain ⟨m1, hs1, _, hk1, e1⟩ := acquire_shape lru h t x l1 now hs
    have hx8 : 8 ≤ (lru.heap.cells x).key.length :=
      h8 _ (by simp [LRUAPIKeyManager.keysAt])
    rw [lastEight_ok _ hx8] at e1
    have hkeys : m1.keysAt (x :: l1) = (lru.heap.cells x).key :: lru.keysAt l1 := by
      rw [keysAt_same m1 lru _ hk1]; rfl
    have h81 : ∀ k ∈ m1.keysAt (x :: l1), 8 ≤ k.length := by
      intro k hk
      rw [hkeys] at hk
      apply h8
      rw [keysAt_append]
      simp only [List.mem_cons, List.mem_append] at hk ⊢
      rcases hk with hk | hk
      · right; rw [hk]; simp [LRUAPIKeyManager.keysAt]
      · left; exact hk
    obtain ⟨out, m, l', e, hs', hrot, hlen, hout⟩ :=
      acquireAll_shape h t rest m1 (x :: l1) hs1 (by simp) h81
    have hR : (lru.keysAt (l1 ++ [x])).reverse =
        (lru.heap.cells x).key :: (lru.keysAt l1).reverse := by
      rw [keysAt_append]; simp [LRUAPIKeyManager.keysAt]
    have hR1 : (m1.keysAt (x :: l1)).reverse = (lru.keysAt (l1 ++ [x])).reverse.rotate 1 := by
      rw [hR, hkeys, List.rotate_cons_succ, List.rotate_zero, List.reverse_cons]
    refine ⟨(lru.heap.cells x).key :: out, m, l', ?_, hs', ?_, by simp [hlen], ?_⟩
    · simp [acquireAll, e1, e]
    · rw [hrot, hR1, List.rotate_rotate, List.length_cons, Nat.add_comm]
    · intro j hj
      cases j with
      | zero => rw [hR]; simp
      | succ j =>
        have := hout j (by simpa using hj)
        rw [List.getElem?_cons_succ, this, hR1, List.rotate_rotate, Nat.add_comm]

theorem head_rotate_eq {α : Type} (R : List α) (j : Nat) (hR : R ≠ []) :
    (R.rotate j).head? = R[j % R.length]? := by
  have hpos : 0 < R.length := List.length_pos.mpr hR
  rw [← List.rotate_mod, List.head?_rotate (Nat.mod_lt _ hpos)]

theorem configured_eq_self (keys : List Str) (h : ∀ k ∈ keys, k ≠ []) :
    configured keys = keys := by
  simp only [configured]
  rw [List.filter_eq_self]
  intro k hk
  simpa using h k hk
theorem window_eq_rotate {α : Type} (keys out : List α)
    (hout : ∀ j, j < out.length → out[j]? = keys[j % keys.length]?) (j : Nat)
    (hj : j + keys.length ≤ out.length) :
    (out.drop j).take keys.length = keys.rotate j := by
  apply List.ext_getElem?
  intro i
  by_cases hi : i < keys.length
  · rw [List.getElem?_take_of_lt hi, List.getElem?_drop, hout (j + i) (by omega),
      List.getElem?_rotate hi, Nat.add_comm]
  · rw [List.getElem?_take_eq_none (Nat.le_of_not_lt hi), List.getElem?_eq_none]
    rw [List.length_rotate]
    exact Nat.le_of_not_lt hi

theorem count_of_windows (keys : List Str) (hd : keys.Nodup) :
    ∀ (n : Nat) (out : List Str), out.length = n * keys.length →
    (∀ j, j + keys.length ≤ out.length → ((out.drop j).take keys.length).Perm keys) →
    ∀ c ∈ keys, out.countP (fun k => k = c) = n
  | 0, out, hlen, _, c, _ => by
    have : out = [] := List.length_eq_zero.mp (by simpa using hlen)
    simp [this]
  | n + 1, out, hlen, hw, c, hc => by
    have hle : keys.length ≤ out.length := by rw [hlen]; nlinarith
    have h0 := hw 0 (by simpa using hle)
    rw [List.drop_zero] at h0
    have ih := count_of_windows keys hd n (out.drop keys.length)
      (by rw [List.length_drop, hlen]; simp [Nat.succ_mul])
      (fun j hj => by
        rw [List.drop_drop]
        apply hw
        rw [List.length_drop] at hj
        omega) c hc
    have h1 : keys.countP (fun k => decide (k = c)) = 1 := List.count_eq_one_of_mem hd hc
    rw [← List.take_append_drop keys.length out, List.countP_append, h0.countP_eq, h1, ih,
      Nat.add_comm]

/-- C1: a manager built from `N ≥ 1` distinct credentials of at least 8 bytes
serves every run of sequential acquisitions without failing; call `j` returns
credential `j mod N`, so the returned sequence has period `N`, every `N`
consecutive calls return each credential exactly once, and `n * N` calls return
each credential exactly `n` times. -/
theorem C1_rotation_periodic (keys : List Str) (now : Nat) (times : List Nat)
    (hN : keys ≠ []) (hd : keys.Nodup) (h8 : ∀ k ∈ keys, 8 ≤ k.length) :
    ∃ m out final, NewLRUAPIKeyManager keys now = Except.ok (some m) ∧
      acquireAll (some m) times = Except.ok (out, final) ∧
      out.length = times.length ∧
      (∀ j, j < times.length → out[j]? = keys[j % keys.length]?) ∧
      (∀ j, j + keys.length < times.length → out[j + keys.length]? = out[j]?) ∧
      (∀ j, j + keys.length ≤ times.length →
        ((out.drop j).take keys.length).Perm keys ∧
        ((out.drop j).take keys.length).Nodup) ∧
      (∀ n c, times.length = n * keys.length → c ∈ keys →
        out.countP (fun k => k = c) = n) := by
  obtain ⟨m, l, e, hs, hk, _⟩ := New_shape keys now hN
  have hconf : configured keys = keys := configured_eq_self keys (fun k hk e => by
    have := h8 k hk; rw [e] at this; simp at this)
  rw [hconf] at hk
  have hrev : (m.keysAt l).reverse = keys := by rw [hk, List.reverse_reverse]
  have hl : l ≠ [] := by
    intro e
    rw [e] at hk
    exact hN (List.reverse_eq_nil_iff.mp hk.symm)
  have h8m : ∀ k ∈ m.keysAt l, 8 ≤ k.length := by
    intro k hkm
    rw [hk] at hkm
    exact h8 k (List.mem_reverse.mp hkm)
  obtain ⟨out, m', l', e', _, _, hlen, hout⟩ := acquireAll_shape 0 1 times m l hs hl h8m
  rw [hrev] at hout
  have hidx : ∀ j, j < times.length → out[j]? = keys[j % keys.length]? := by
    intro j hj
    rw [hout j hj, head_rotate_eq keys j hN]
  have hwin : ∀ j, j + keys.length ≤ out.length →
      (out.drop j).take keys.length = keys.rotate j :=
    fun j hj => window_eq_rotate keys out (by rw [hlen]; exact hidx) j hj
  refine ⟨m, out, some m', e, e', hlen, hidx, ?_, ?_, ?_⟩
  · intro j hj
    rw [hidx _ hj, hidx j (by omega), Nat.add_mod_right]
  · intro j hj
    rw [hwin j (by rw [hlen]; exact hj)]
    exact ⟨List.rotate_perm keys j, (List.rotate_perm keys j).nodup_iff.mpr hd⟩
  · intro n c hn hc
    apply count_of_windows keys hd n out (by rw [hlen, hn]) ?_ c hc
    intro j hj
    rw [hwin j hj]
    exact List.rotate_perm keys j

/-- C1 at the pool of the repository's test: three credentials and six
acquisitions. -/
theorem C1_rotation_periodic_witness :
    testKeys ≠ [] ∧ testKeys.Nodup ∧ (∀ k ∈ testKeys, 8 ≤ k.length) ∧
    ∃ m out final, NewLRUAPIKeyManager testKeys 0 = Except.ok (some m) ∧
      acquireAll (some m) [1, 2, 3, 4, 5, 6] = Except.ok (out, final) ∧
      out.length = [1, 2, 3, 4, 5, 6].length ∧
      (∀ j, j < [1, 2, 3, 4, 5, 6].length → out[j]? = testKeys[j % testKeys.length]?) ∧
      (∀ j, j + testKeys.length < [1, 2, 3, 4, 5, 6].length →
        out[j + testKeys.length]? = out[j]?) ∧
      (∀ j, j + testKeys.length ≤ [1, 2, 3, 4, 5, 6].length →
        ((out.drop j).take testKeys.length).Perm testKeys ∧
        ((out.drop j).take testKeys.length).Nodup) ∧
      (∀ n c, [1, 2, 3, 4, 5, 6].length = n * testKeys.length → c ∈ testKeys →
        out.countP (fun k => k = c) = n) :=
  ⟨by decide, by decide, by decide,
    C1_rotation_periodic testKeys 0 [1, 2, 3, 4, 5, 6] (by decide) (by decide) (by decide)⟩

theorem New_nil (now : Nat) : NewLRUAPIKeyManager [] now = Except.ok none := rfl

theorem acquire_nil (now : Nat) :
    ∃ r, GetLeastRecentlyUsedKey none now = Except.ok r ∧ r.key = [] ∧ r.lru = none ∧
      r.logs = [] :=
  ⟨_, rfl, rfl, rfl, rfl⟩

theorem acquire_empty (lru : LRUAPIKeyManager) (h t : Nat) (now : Nat)
    (hs : Shape lru h t []) :
    ∃ r, GetLeastRecentlyUsedKey (some lru) now = Except.ok r ∧ r.key = [] ∧
      r.lru = some lru ∧ r.logs = [] := by
  obtain ⟨hh, ht, _, hl, _⟩ := hs
  refine ⟨⟨[], some lru, []⟩, ?_, rfl, rfl, rfl⟩
  simp [GetLeastRecentlyUsedKey, ht, hh, hl.2]

/-- C2: an empty pool never yields a credential and never fails. The
constructor returns the `nil` manager for an empty list; an acquisition on the
`nil` manager, or on the manager built from a list of empty strings only,
returns the empty string, and the manager (hence its ledger) is the one it was
called on. -/
theorem C2_empty_pool :
    (∀ now, NewLRUAPIKeyManager [] now = Except.ok none) ∧
    (∀ now, ∃ r, GetLeastRecentlyUsedKey none now = Except.ok r ∧ r.key = [] ∧
      r.lru = none) ∧
    (∀ apiKeys now now', apiKeys ≠ [] → (∀ k ∈ apiKeys, k = []) →
      ∃ m r, NewLRUAPIKeyManager apiKeys now = Except.ok (some m) ∧ m.ledger = [] ∧
        GetLeastRecentlyUsedKey (some m) now' = Except.ok r ∧ r.key = [] ∧
        r.lru = some m) := by
  refine ⟨New_nil, ?_, ?_⟩
  · intro now
    obtain ⟨r, e, hk, hl, _⟩ := acquire_nil now
    exact ⟨r, e, hk, hl⟩
  · intro apiKeys now now' hne hall
    obtain ⟨m, l, e, hs, hk, _⟩ := New_shape apiKeys now hne
    have hc : configured apiKeys = [] := by
      simp only [configured, List.filter_eq_nil_iff]
      intro k hk
      simp [hall k hk]
    rw [hc] at hk
    have hl : l = [] := by
      simpa [LRUAPIKeyManager.keysAt] using hk
    subst hl
    obtain ⟨r, er, hrk, hrl, _⟩ := acquire_empty m 0 1 now' hs
    exact ⟨m, r, e, by rw [ledger_of_shape m 0 1 [] hs]; rfl, er, hrk, hrl⟩

/-- C2 at a list of two empty strings. -/
theorem C2_empty_pool_witness :
    ([[], []] : List Str) ≠ [] ∧ (∀ k ∈ ([[], []] : List Str), k = []) ∧
    ∃ m r, NewLRUAPIKeyManager [[], []] 0 = Except.ok (some m) ∧ m.ledger = [] ∧
      GetLeastRecentlyUsedKey (some m) 1 = Except.ok r ∧ r.key = [] ∧ r.lru = some m :=
  ⟨by decide, by decide, C2_empty_pool.2.2 [[], []] 0 1 (by decide) (by decide)⟩

theorem shape_of_ledger (lru : LRUAPIKeyManager) (L : List Str) (k : Str)
    (hwf : lru.WellFormed) (hled : lru.ledger = L ++ [k]) :
    ∃ h t l x, Shape lru h t (l ++ [x]) ∧ lru.keysAt l = L ∧ (lru.heap.cells x).key = k := by
  obtain ⟨h, t, l0, hs⟩ := hwf
  rw [ledger_of_shape lru h t l0 hs] at hled
  obtain ⟨l1, l2, rfl, h1, h2⟩ := List.map_eq_append_iff.mp hled
  obtain ⟨x, rfl, hx⟩ : ∃ x, l2 = [x] ∧ (lru.heap.cells x).key = k := by
    cases l2 with
    | nil => simp at h2
    | cons x r =>
      cases r with
      | nil => exact ⟨x, rfl, by simpa using h2⟩
      | cons y r => simp at h2
  exact ⟨h, t, l1, x, hs, h1, hx⟩

/-- On a well-formed ledger whose least recently used credential has at least
8 bytes, an acquisition returns that credential and promotes it to the front,
the order of the others unchanged. -/
theorem acquire_promotes (lru : LRUAPIKeyManager) (now : Nat) (L : List Str) (k : Str)
    (hwf : lru.WellFormed) (hled : lru.ledger = L ++ [k]) (h8 : 8 ≤ k.length) :
    ∃ r m, GetLeastRecentlyUsedKey (some lru) now = Except.ok r ∧ r.key = k ∧
      r.lru = some m ∧ m.ledger = k :: L ∧ m.WellFormed := by
  obtain ⟨h, t, l, x, hs, hL, hx⟩ := shape_of_ledger lru L k hwf hled
  obtain ⟨m, hs1, _, hk1, e1⟩ := acquire_shape lru h t x l now hs
  rw [hx, lastEight_ok _ h8] at e1
  refine ⟨_, m, e1, rfl, rfl, ?_, ⟨h, t, _, hs1⟩⟩
  rw [ledger_of_shape m h t _ hs1, keysAt_same m lru _ hk1, keysAt_cons, hx]
  rw [← hL]

/-- On a well-formed ledger whose least recently used credential has fewer than
8 bytes, an acquisition panics at the suffix slice of its log line. -/
theorem acquire_short_panics (lru : LRUAPIKeyManager) (now : Nat) (L : List Str) (k : Str)
    (hwf : lru.WellFormed) (hled : lru.ledger = L ++ [k]) (h8 : k.length < 8) :
    GetLeastRecentlyUsedKey (some lru) now = Except.error Fault.sliceBounds := by
  obtain ⟨h, t, l, x, hs, _, hx⟩ := shape_of_ledger lru L k hwf hled
  obtain ⟨m, _, _, _, e1⟩ := acquire_shape lru h t x l now hs
  rw [hx, lastEight_short _ h8] at e1
  exact e1

/-- C3, failing input: the pool of the single credential `abc`. The manager is
built, its ledger is `[abc]`, and the acquisition panics with a slice bound out
of range instead of returning `abc`. -/
theorem C3_short_credential_panics :
    (NewLRUAPIKeyManager ["abc".toList] 0 >>= fun m => pure (ledgerOf m)) =
      Except.ok ["abc".toList] ∧
    (NewLRUAPIKeyManager ["abc".toList] 0 >>= fun m =>
      GetLeastRecentlyUsedKey m 1 >>= fun r => pure r.key) =
      Except.error Fault.sliceBounds :=
  ⟨rfl, rfl⟩

theorem statusLoop_linked (lru : LRUAPIKeyManager) (t : Nat) (ht : lru.tail = some t) :
    ∀ (l : List Nat) (a fuel : Nat) (pos : Int) (acc : List Str),
    Linked lru.heap.cells a l t → t ∉ l → l.length < fuel →
    (∀ x ∈ l, 8 ≤ (lru.heap.cells x).key.length) →
    statusLoop lru fuel (lru.heap.cells a).next pos acc = Except.ok (acc ++ lru.listing pos l)
  | [], a, fuel, pos, acc, hl, _, hf, _ => by
    obtain ⟨f, rfl⟩ : ∃ f, fuel = f + 1 := ⟨fuel - 1, by simp at hf; omega⟩
    simp [statusLoop, hl.1, ht, LRUAPIKeyManager.listing]
  | b :: l, a, fuel, pos, acc, hl, hnt, hf, h8 => by
    obtain ⟨f, rfl⟩ : ∃ f, fuel = f + 1 := ⟨fuel - 1, by simp at hf; omega⟩
    have hbt : b ≠ t := fun e => hnt (by simp [e])
    have ih := statusLoop_linked lru t ht l b f (pos + 1)
      (acc ++ [statusEntry pos ((lru.heap.cells b).key.drop ((lru.heap.cells b).key.length - 8))
        (lru.heap.cells b).lastUsed])
      hl.2.2 (fun e => hnt (List.mem_cons_of_mem _ e)) (by simp at hf; omega)
      (fun x hx => h8 x (List.mem_cons_of_mem _ hx))
    simp [statusLoop, hl.1, ht, hbt, lastEight_ok _ (h8 b (by simp)), ih,
      LRUAPIKeyManager.listing]

theorem listing_length (lru : LRUAPIKeyManager) : ∀ (l : List Nat) (pos : Int),
    (lru.listing pos l).length = l.length
  | [], _ => rfl
  | _ :: l, pos => by simp [LRUAPIKeyManager.listing, listing_length lru l (pos + 1)]

/-- On a well-formed ledger whose credentials all have at least 8 bytes the
status listing returns one entry per credential. -/
theorem status_shape (lru : LRUAPIKeyManager) (h t : Nat) (l : List Nat)
    (hs : Shape lru h t l) (h8 : ∀ k ∈ lru.keysAt l, 8 ≤ k.length) :
    GetAllKeysStatus (some lru) = Except.ok (lru.listing 1 l) := by
  have hs' := hs
  obtain ⟨hh, ht, hnd, hl, hb⟩ := hs
  have hlen : (h :: (l ++ [t])).length ≤ lru.heap.size := nodup_bounded_length _ _ hnd hb
  have hnt : t ∉ l := by
    intro e
    have := (List.nodup_cons.mp hnd).2
    rw [List.nodup_append] at this
    exact this.2.2 e (by simp)
  have := statusLoop_linked lru t ht l h (lru.heap.size + 1) 1 [] hl hnt
    (by simp at hlen; omega)
    (fun x hx => h8 _ (List.mem_map.mpr ⟨x, hx, rfl⟩))
  simpa [GetAllKeysStatus, hh] using this

/-- Every run of calls that returns keeps the ledger well formed and a
permutation of what it was; the run returns when every credential has at least
8 bytes. -/
theorem runOps_shape (h t : Nat) : ∀ (ops : List Op) (lru : LRUAPIKeyManager) (l : List Nat),
    Shape lru h t l →
    (∀ m', runOps (some lru) ops = Except.ok m' →
      ∃ m l', m' = some m ∧ Shape m h t l' ∧ (m.keysAt l').Perm (lru.keysAt l)) ∧
    ((∀ k ∈ lru.keysAt l, 8 ≤ k.length) → ∃ m', runOps (some lru) ops = Except.ok m')
  | [], lru, l, hs =>
    ⟨fun m' e => ⟨lru, l, by simpa [runOps] using e.symm, hs, List.Perm.refl _⟩,
     fun _ => ⟨some lru, rfl⟩⟩
  | Op.status :: rest, lru, l, hs => by
    obtain ⟨ih1, ih2⟩ := runOps_shape h t rest lru l hs
    constructor
    · intro m' e
      apply ih1 m'
      cases hst : GetAllKeysStatus (some lru) with
      | error err => simp [runOps, hst] at e
      | ok v => simpa [runOps, hst] using e
    · intro h8
      obtain ⟨m', e⟩ := ih2 h8
      exact ⟨m', by simp [runOps, status_shape lru h t l hs h8, e]⟩
  | Op.acquire now :: rest, lru, l, hs => by
    rcases List.eq_nil_or_concat l with rfl | ⟨l1, x, rfl⟩
    · obtain ⟨r, er, _, hrl, _⟩ := acquire_empty lru h t now hs
      obtain ⟨ih1, ih2⟩ := runOps_shape h t rest lru [] hs
      constructor
      · intro m' e
        apply ih1 m'
        simpa [runOps, er, hrl] using e
      · intro h8
        obtain ⟨m', e⟩ := ih2 h8
        exact ⟨m', by simp [runOps, er, hrl, e]⟩
    · rw [List.concat_eq_append] at hs ⊢
      obtain ⟨m1, hs1, _, hk1, e1⟩ := acquire_shape lru h t x l1 now hs
      have hperm : (m1.keysAt (x :: l1)).Perm (lru.keysAt (l1 ++ [x])) := by
        rw [keysAt_same m1 lru _ hk1]
        simp only [LRUAPIKeyManager.keysAt]
        apply List.Perm.map
        simpa using (List.perm_append_comm : ([x] ++ l1).Perm (l1 ++ [x]))
      obtain ⟨ih1, ih2⟩ := runOps_shape h t rest m1 (x :: l1) hs1
      constructor
      · intro m' e
        by_cases hx8 : 8 ≤ (lru.heap.cells x).key.length
        · rw [lastEight_ok _ hx8] at e1
          obtain ⟨m, l', hm, hs', hp⟩ := ih1 m' (by simpa [runOps, e1] using e)
          exact ⟨m, l', hm, hs', hp.trans hperm⟩
        · rw [lastEight_short _ (Nat.lt_of_not_le hx8)] at e1
          simp [runOps, e1] at e
      · intro h8
        have hx8 : 8 ≤ (lru.heap.cells x).key.length :=
          h8 _ (by simp [LRUAPIKeyManager.keysAt])
        rw [lastEight_ok _ hx8] at e1
        obtain ⟨m', e⟩ := ih2 (fun k hk => h8 k (hperm.subset hk))
        exact ⟨m', by simp [runOps, e1, e]⟩

theorem runOps_nil : ∀ (ops : List Op), runOps none ops = Except.ok none
  | [] => rfl
  | Op.status :: rest => by simp [runOps, GetAllKeysStatus, runOps_nil rest]
  | Op.acquire now :: rest => by simp [runOps, GetLeastRecentlyUsedKey, runOps_nil rest]

/-- C4, counterexample: a list that names the same credential twice gives a
ledger that holds it twice. -/
theorem C4_duplicate_counterexample :
    ∃ m, NewLRUAPIKeyManager ["key1_12345678".toList, "key1_12345678".toList] 0 =
        Except.ok (some m) ∧
      m.ledger = ["key1_12345678".toList, "key1_12345678".toList] ∧ ¬ m.ledger.Nodup := by
  obtain ⟨m, l, e, hs, hk, _⟩ :=
    New_shape ["key1_12345678".toList, "key1_12345678".toList] 0 (by decide)
  have hl : m.ledger = ["key1_12345678".toList, "key1_12345678".toList] := by
    rw [ledger_of_shape m 0 1 l hs, hk]
    decide
  exact ⟨m, e, hl, by rw [hl]; decide⟩

/-- C4, amended: when the non-empty strings of the input are pairwise distinct,
the ledger after every run of acquisitions and status listings that returns is
a permutation of these strings, none of them twice; and every run returns when
each of them has at least 8 bytes. -/
theorem C4_ledger_invariant (apiKeys : List Str) (now : Nat) (ops : List Op)
    (hd : (configured apiKeys).Nodup) :
    ∃ m, NewLRUAPIKeyManager apiKeys now = Except.ok m ∧
      (∀ m', runOps m ops = Except.ok m' →
        (ledgerOf m').Perm (configured apiKeys) ∧ (ledgerOf m').Nodup) ∧
      ((∀ k ∈ configured apiKeys, 8 ≤ k.length) → ∃ m', runOps m ops = Except.ok m') := by
  by_cases hne : apiKeys = []
  · subst hne
    refine ⟨none, rfl, ?_, fun _ => ⟨none, runOps_nil ops⟩⟩
    intro m' e
    rw [runOps_nil ops] at e
    cases e
    exact ⟨List.Perm.refl _, List.nodup_nil⟩
  · obtain ⟨m, l, e, hs, hk, _⟩ := New_shape apiKeys now hne
    obtain ⟨h1, h2⟩ := runOps_shape 0 1 ops m l hs
    refine ⟨some m, e, ?_, ?_⟩
    · intro m' e'
      obtain ⟨m2, l2, rfl, hs2, hp⟩ := h1 m' e'
      have hp2 : (ledgerOf (some m2)).Perm (configured apiKeys) := by
        show m2.ledger.Perm _
        rw [ledger_of_shape m2 0 1 l2 hs2]
        refine hp.trans ?_
        rw [hk]
        exact List.reverse_perm _
      exact ⟨hp2, hp2.nodup_iff.mpr hd⟩
    · intro h8
      apply h2
      intro k hkm
      rw [hk] at hkm
      exact h8 k (List.mem_reverse.mp hkm)

/-- C4 (amended) at the pool of the repository's test and a run of four calls. -/
theorem C4_ledger_invariant_witness :
    (configured testKeys).Nodup ∧
    ∃ m, NewLRUAPIKeyManager testKeys 0 = Except.ok m ∧
      (∀ m', runOps m [Op.acquire 1, Op.status, Op.acquire 2, Op.acquire 3] = Except.ok m' →
        (ledgerOf m').Perm (configured testKeys) ∧ (ledgerOf m').Nodup) ∧
      ((∀ k ∈ configured testKeys, 8 ≤ k.length) →
        ∃ m', runOps m [Op.acquire 1, Op.status, Op.acquire 2, Op.acquire 3] =
          Except.ok m') :=
  ⟨by decide, C4_ledger_invariant testKeys 0
    [Op.acquire 1, Op.status, Op.acquire 2, Op.acquire 3] (by decide)⟩

/-- The constructor keeps exactly the non-empty strings of a non-empty input,
least recently used first in input order; when each has at least 8 bytes the
status listing has one entry for each and the first acquisitions return them
in input order. -/
theorem New_configured (apiKeys : List Str) (now : Nat) (times : List Nat)
    (hne : apiKeys ≠ []) :
    ∃ m, NewLRUAPIKeyManager apiKeys now = Except.ok (some m) ∧ m.WellFormed ∧
      m.ledger.reverse = configured apiKeys ∧
      ((∀ k ∈ configured apiKeys, 8 ≤ k.length) →
        (∃ st, GetAllKeysStatus (some m) = Except.ok st ∧
          st.length = (configured apiKeys).length) ∧
        (times.length = (configured apiKeys).length →
          ∃ final, acquireAll (some m) times = Except.ok (configured apiKeys, final))) := by
  obtain ⟨m, l, e, hs, hk, _⟩ := New_shape apiKeys now hne
  have hled : m.ledger.reverse = configured apiKeys := by
    rw [ledger_of_shape m 0 1 l hs, hk, List.reverse_reverse]
  refine ⟨m, e, ⟨0, 1, l, hs⟩, hled, ?_⟩
  intro h8
  have h8m : ∀ k ∈ m.keysAt l, 8 ≤ k.length := by
    intro k hkm
    rw [hk] at hkm
    exact h8 k (List.mem_reverse.mp hkm)
  have hll : l.length = (configured apiKeys).length := by
    have := congrArg List.length hk
    simpa [LRUAPIKeyManager.keysAt] using this
  constructor
  · exact ⟨_, status_shape m 0 1 l hs h8m, by rw [listing_length, hll]⟩
  · intro ht
    by_cases hl : l = []
    · subst hl
      have hc : configured apiKeys = [] := by
        simpa [LRUAPIKeyManager.keysAt] using hk.symm
      have : times = [] := List.length_eq_zero.mp (by rw [ht, hc]; rfl)
      subst this
      exact ⟨some m, by rw [hc]; rfl⟩
    · obtain ⟨out, m', l', e', _, _, hlen, hout⟩ := acquireAll_shape 0 1 times m l hs hl h8m
      have hrev : (m.keysAt l).reverse = configured apiKeys := by
        rw [hk, List.reverse_reverse]
      rw [hrev] at hout
      have hcne : configured apiKeys ≠ [] := by
        intro hc
        rw [hc] at hll
        exact hl (List.length_eq_zero.mp hll)
      have : out = configured apiKeys := by
        apply List.ext_getElem?
        intro j
        by_cases hj : j < times.length
        · rw [hout j hj, head_rotate_eq _ j hcne, Nat.mod_eq_of_lt (by omega)]
        · rw [List.getElem?_eq_none (by omega), List.getElem?_eq_none (by omega)]
      exact ⟨some m', by rw [← this]; exact e'⟩

/-- C5, failing input: the pool of the single credential `abc`. The manager
holds `abc`, but the status listing and the first acquisition both panic with
a slice bound out of range. -/
theorem C5_short_credential_panics :
    (NewLRUAPIKeyManager ["abc".toList] 0 >>= fun m => pure (ledgerOf m)) =
      Except.ok ["abc".toList] ∧
    (NewLRUAPIKeyManager ["abc".toList] 0 >>= fun m => GetAllKeysStatus m) =
      Except.error Fault.sliceBounds ∧
    (NewLRUAPIKeyManager ["abc".toList] 0 >>= fun m =>
      acquireAll m [1] >>= fun r => pure r.1) = Except.error Fault.sliceBounds :=
  ⟨rfl, rfl, rfl⟩

/-! ### The request cycle -/

theorem appendServerRecipes_length (u : Str) : ∀ (ids : List Int)
    (cycle : List (Unit → SyncRequest)),
    (appendServerRecipes u cycle ids).length = cycle.length + 3 * ids.length
  | [], cycle => by simp [appendServerRecipes]
  | id :: ids, cycle => by
    simp only [appendServerRecipes, appendServerRecipes_length u ids, List.length_append,
      List.length_cons, List.length_nil]
    omega

/-- C6, counterexample: with two known resources the rebuilt cycle has 8
recipes, not `3 + 3 * 2 = 9`. -/
theorem C6_length_counterexample :
    (rebuildRequestCycle { sampleService with serverIDs := [5, 7] }).requestCycle.length = 8 ∧
    (rebuildRequestCycle { sampleService with serverIDs := [5, 7] }).requestCycle.length ≠
      3 + 3 * (rebuildRequestCycle { sampleService with serverIDs := [5, 7] }).serverIDs.length :=
  ⟨rfl, by decide⟩

/-- C6, amended: after every rebuild the cycle has `2 + 3 * n` recipes, the
resource-list and OS-catalog recipes plus three per known resource, and the
known resources are those of before the rebuild. -/
theorem C6_rebuild_length (s : SyncService) :
    (rebuildRequestCycle s).requestCycle.length = 2 + 3 * s.serverIDs.length ∧
    (rebuildRequestCycle s).serverIDs = s.serverIDs := by
  constructor
  · simp [rebuildRequestCycle, SyncService.logf, appendServerRecipes_length]
  · rfl

theorem retryRequest_exhausted (s : SyncService) (req : SyncRequest)
    (h : req.MaxRetries ≤ req.RetryCount) :
    retryRequest s req =
      Except.ok (s.logf "Max retries exceeded for %s" [LogArg.str req.URL]) := by
  simp [retryRequest, Int.not_lt.mpr h]

/-- The state `retryRequest` leaves when it reinserts `req` at cursor `k`. -/
theorem retryRequest_insert (s : SyncService) (req : SyncRequest) (k : Nat)
    (hk : s.cycleIndex = k) (hle : k ≤ s.requestCycle.length) (hne : s.requestCycle ≠ [])
    (hlt : req.RetryCount < req.MaxRetries) :
    retryRequest s req = Except.ok
      { s with
        requestCycle := s.requestCycle.take k ++ ([fun _ => retried req] ++ s.requestCycle.drop k),
        logs := s.logs ++ [⟨"Retrying request %s (attempt %d/%d) - will retry on next cycle",
          [LogArg.str req.URL, LogArg.int (req.RetryCount + 1), LogArg.int req.MaxRetries]⟩] } := by
  have hpos : 0 < s.requestCycle.length := List.length_pos.mpr hne
  have hle' : (k : Int) ≤ (s.requestCycle.length : Int) := by exact_mod_cast hle
  simp [retryRequest, hlt, SyncService.logf, hpos, sliceTo, sliceFrom, hk, hle', retried]

theorem selectNext_at (s : SyncService) (k : Nat) (r : Unit → SyncRequest)
    (hk : s.cycleIndex = k) (hr : s.requestCycle[k]? = some r) :
    selectNext s = Except.ok (some (r ()),
      { s with cycleIndex := ((k : Int) + 1).tmod (s.requestCycle.length : Int) }) := by
  have hne : s.requestCycle.length ≠ 0 := by
    intro h0
    rw [List.length_eq_zero.mp h0] at hr
    simp at hr
  simp [selectNext, hne, indexAt, hk, hr]

theorem cursor_step_bounds (k n : Nat) (hn : 0 < n) :
    0 ≤ ((k : Int) + 1).tmod (n : Int) ∧ ((k : Int) + 1).tmod (n : Int) ≤ (n : Int) := by
  constructor
  · exact Int.tmod_nonneg _ (by omega)
  · exact le_of_lt (Int.tmod_lt_of_pos _ (by exact_mod_cast hn))

theorem getElem?_insert_at {α : Type} (xs : List α) (x : α) (k : Nat) (hle : k ≤ xs.length) :
    (xs.take k ++ ([x] ++ xs.drop k))[k]? = some x := by
  have hlen : (xs.take k).length = k := by simp [hle]
  rw [List.getElem?_append_right (by omega), hlen]
  simp

/-- A chain of `n` failures of an item that has at least `n` retries left:
each failure reinserts the item with the next count and the following tick
dispatches exactly that reinsertion. -/
theorem failChain_counts : ∀ (n : Nat) (s : SyncService) (req : SyncRequest) (k : Nat),
    s.cycleIndex = k → k ≤ s.requestCycle.length → s.requestCycle ≠ [] →
    req.RetryCount + n ≤ req.MaxRetries →
    ∃ s', failChain n s req = Except.ok
        ((List.range n).map (fun j => { req with RetryCount := req.RetryCount + (j + 1) }), s') ∧
      s'.requestCycle.length = s.requestCycle.length + n ∧
      0 ≤ s'.cycleIndex ∧ s'.cycleIndex ≤ s'.requestCycle.length
  | 0, s, req, k, hk, hle, _, _ =>
    ⟨s, rfl, rfl, by rw [hk]; omega, by rw [hk]; exact_mod_cast hle⟩
  | n + 1, s, req, k, hk, hle, hne, hb => by
    have hlt : req.RetryCount < req.MaxRetries := by push_cast at hb; omega
    have e1 := retryRequest_insert s req k hk hle hne hlt
    generalize hs1 : ({ s with
        requestCycle := s.requestCycle.take k ++ ([fun _ => retried req] ++ s.requestCycle.drop k),
        logs := s.logs ++ [⟨"Retrying request %s (attempt %d/%d) - will retry on next cycle",
          [LogArg.str req.URL, LogArg.int (req.RetryCount + 1), LogArg.int req.MaxRetries]⟩] }
        : SyncService) = s1 at e1
    have hc1 : s1.requestCycle =
        s.requestCycle.take k ++ ([fun _ => retried req] ++ s.requestCycle.drop k) := by
      rw [← hs1]
    have hi1 : s1.cycleIndex = k := by rw [← hs1]; exact hk
    have hl1 : s1.requestCycle.length = s.requestCycle.length + 1 := by
      rw [hc1]; simp; omega
    have e2 := selectNext_at s1 k (fun _ => retried req) hi1
      (by rw [hc1]; exact getElem?_insert_at _ _ k hle)
    generalize hs2 : ({ s1 with
        cycleIndex := ((k : Int) + 1).tmod (s1.requestCycle.length : Int) } : SyncService)
        = s2 at e2
    have hc2 : s2.requestCycle = s1.requestCycle := by rw [← hs2]
    have hi2 : s2.cycleIndex = ((k : Int) + 1).tmod (s1.requestCycle.length : Int) := by
      rw [← hs2]
    obtain ⟨hb1, hb2⟩ := cursor_step_bounds k s1.requestCycle.length (by omega)
    obtain ⟨k2, hk2⟩ := Int.eq_ofNat_of_zero_le hb1
    have hne2 : s2.requestCycle ≠ [] := by
      intro h
      have := congrArg List.length h
      rw [hc2, hl1] at this
      simp at this
    obtain ⟨s', e3, hl3, hb3, hb4⟩ := failChain_counts n s2 (retried req) k2
      (by rw [hi2, hk2]) (by rw [hc2]; rw [hk2] at hb2; exact_mod_cast hb2) hne2
      (by simp only [retried]; push_cast at hb ⊢; omega)
    refine ⟨s', ?_, by rw [hl3, hc2, hl1]; omega, hb3, hb4⟩
    simp only [failChain, e1, ok_bind, e2, e3, pure_eq_ok, Except.ok.injEq, Prod.mk.injEq,
      and_true]
    rw [List.range_succ_eq_map, List.map_cons, List.map_map]
    congr 1
    apply List.map_congr_left
    intro j _
    simp only [retried, Function.comp, SyncRequest.mk.injEq, true_and, and_true]
    push_cast
    omega

/-- C7: `retryRequest` on an item whose count is below its maximum inserts
exactly one recipe, which reproduces the item with the count one higher and
every other field as it was; on an item whose count has reached the maximum it
inserts nothing. Along a chain of failures an item with `MaxRetries = m` that
starts at count 0 is therefore reinserted `m` times, with counts `1, ..., m`,
and the failure at count `m` drops it. -/
theorem C7_retry_budget (s : SyncService) (req : SyncRequest) :
    (req.MaxRetries ≤ req.RetryCount →
      ∃ s', retryRequest s req = Except.ok s' ∧ s'.requestCycle = s.requestCycle ∧
        s'.cycleIndex = s.cycleIndex) ∧
    (0 ≤ s.cycleIndex → s.cycleIndex ≤ s.requestCycle.length → s.requestCycle ≠ [] →
      (req.RetryCount < req.MaxRetries →
        ∃ s', retryRequest s req = Except.ok s' ∧
          s'.requestCycle.length = s.requestCycle.length + 1 ∧
          s'.requests = s.requests.take s.cycleIndex.toNat ++
            [{ req with RetryCount := req.RetryCount + 1 }] ++
            s.requests.drop s.cycleIndex.toNat) ∧
      (∀ m : Nat, req.RetryCount = 0 → req.MaxRetries = m →
        ∃ s', failChain m s req = Except.ok
            ((List.range m).map (fun j => { req with RetryCount := (j : Int) + 1 }), s') ∧
          s'.requestCycle.length = s.requestCycle.length + m ∧
          ∃ s'', retryRequest s' { req with RetryCount := m } = Except.ok s'' ∧
            s''.requestCycle = s'.requestCycle)) := by
  refine ⟨fun h => ⟨_, retryRequest_exhausted s req h, rfl, rfl⟩, ?_⟩
  intro h0 hle hne
  obtain ⟨k, hk⟩ := Int.eq_ofNat_of_zero_le h0
  have hle' : k ≤ s.requestCycle.length := by rw [hk] at hle; exact_mod_cast hle
  constructor
  · intro hlt
    refine ⟨_, retryRequest_insert s req k hk hle' hne hlt, ?_, ?_⟩
    · simp; omega
    · simp [SyncService.requests, hk, retried, List.map_take, List.map_drop]
  · intro m hrc hmax
    obtain ⟨s', e, hl, _, _⟩ := failChain_counts m s req k hk hle' hne (by rw [hrc, hmax]; simp)
    refine ⟨s', ?_, hl, _, retryRequest_exhausted s' _ (by simp [hmax]), rfl⟩
    rw [e, hrc]
    simp

/-- C7 at the bootstrap state and a fresh resource-list item (`MaxRetries = 3`). -/
theorem C7_retry_budget_witness :
    (0 : Int) ≤ sampleService.cycleIndex ∧
    sampleService.cycleIndex ≤ sampleService.requestCycle.length ∧
    sampleService.requestCycle ≠ [] ∧ sampleRequest.RetryCount < sampleRequest.MaxRetries ∧
    sampleRequest.RetryCount = 0 ∧ sampleRequest.MaxRetries = (3 : Nat) ∧
    (∃ s', retryRequest sampleService sampleRequest = Except.ok s' ∧
      s'.requestCycle.length = sampleService.requestCycle.length + 1 ∧
      s'.requests = sampleService.requests.take sampleService.cycleIndex.toNat ++
        [{ sampleRequest with RetryCount := sampleRequest.RetryCount + 1 }] ++
        sampleService.requests.drop sampleService.cycleIndex.toNat) ∧
    (∃ s', failChain 3 sampleService sampleRequest = Except.ok
        ((List.range 3).map (fun j => { sampleRequest with RetryCount := (j : Int) + 1 }), s') ∧
      s'.requestCycle.length = sampleService.requestCycle.length + 3 ∧
      ∃ s'', retryRequest s' { sampleRequest with RetryCount := (3 : Nat) } = Except.ok s'' ∧
        s''.requestCycle = s'.requestCycle) :=
  ⟨by decide, by decide, List.cons_ne_nil _ _, by decide, rfl, rfl,
    ((C7_retry_budget sampleService sampleRequest).2 (by decide) (by decide)
      (List.cons_ne_nil _ _)).1 (by decide),
    ((C7_retry_budget sampleService sampleRequest).2 (by decide) (by decide)
      (List.cons_ne_nil _ _)).2 3 rfl rfl⟩

/-- C8: a reinsertion into a cycle with cursor `i` puts the retry recipe between
the first `i` recipes and the remaining ones, leaves the cursor at `i`, and the
selection step of the next tick dispatches the retried item. The same holds
after the last recipe of the cycle has been dispatched and the cursor has
wrapped to 0: the retry recipe then stands in front of the whole cycle. -/
theorem C8_retry_at_cursor (s : SyncService) (req : SyncRequest)
    (h0 : 0 ≤ s.cycleIndex) (hle : s.cycleIndex ≤ s.requestCycle.length)
    (hne : s.requestCycle ≠ []) (hlt : req.RetryCount < req.MaxRetries) :
    (∃ s' s'', retryRequest s req = Except.ok s' ∧
      s'.requestCycle = s.requestCycle.take s.cycleIndex.toNat ++
        [fun _ => { req with RetryCount := req.RetryCount + 1 }] ++
        s.requestCycle.drop s.cycleIndex.toNat ∧
      s'.cycleIndex = s.cycleIndex ∧
      selectNext s' = Except.ok (some { req with RetryCount := req.RetryCount + 1 }, s'')) ∧
    (s.cycleIndex = (s.requestCycle.length : Int) - 1 →
      ∃ item s1, selectNext s = Except.ok (some item, s1) ∧ s1.cycleIndex = 0 ∧
        (item.RetryCount < item.MaxRetries →
          ∃ s2 s3, retryRequest s1 item = Except.ok s2 ∧
          s2.requestCycle =
            (fun _ => { item with RetryCount := item.RetryCount + 1 }) :: s.requestCycle ∧
          s2.cycleIndex = 0 ∧
          selectNext s2 =
            Except.ok (some { item with RetryCount := item.RetryCount + 1 }, s3))) := by
  obtain ⟨k, hk⟩ := Int.eq_ofNat_of_zero_le h0
  have hle' : k ≤ s.requestCycle.length := by rw [hk] at hle; exact_mod_cast hle
  constructor
  · have e1 := retryRequest_insert s req k hk hle' hne hlt
    have e2 := selectNext_at ({ s with
        requestCycle := s.requestCycle.take k ++ ([fun _ => retried req] ++ s.requestCycle.drop k),
        logs := s.logs ++ [⟨"Retrying request %s (attempt %d/%d) - will retry on next cycle",
          [LogArg.str req.URL, LogArg.int (req.RetryCount + 1), LogArg.int req.MaxRetries]⟩] }
        : SyncService) k (fun _ => retried req) hk (getElem?_insert_at _ _ k hle')
    exact ⟨_, _, e1, by simp [hk, retried], rfl, e2⟩
  · intro hlast
    have hpos : 0 < s.requestCycle.length := List.length_pos.mpr hne
    have hkl : k = s.requestCycle.length - 1 := by rw [hk] at hlast; omega
    have hlt' : k < s.requestCycle.length := by omega
    have hr : s.requestCycle[k]? = some (s.requestCycle[k]) := List.getElem?_eq_getElem hlt'
    have e1 := selectNext_at s k _ hk hr
    have hwrap : ((k : Int) + 1).tmod (s.requestCycle.length : Int) = 0 := by
      have : (k : Int) + 1 = (s.requestCycle.length : Int) := by omega
      rw [this, Int.tmod_self]
    rw [hwrap] at e1
    refine ⟨_, _, e1, rfl, ?_⟩
    intro hlt2
    have e2 := retryRequest_insert { s with cycleIndex := 0 } (s.requestCycle[k] ()) 0 rfl
      (Nat.zero_le _) hne hlt2
    exact ⟨_, _, e2, by simp [retried], rfl,
      selectNext_at _ 0 (fun _ => retried (s.requestCycle[k] ())) rfl (by simp)⟩

/-- C8 at the bootstrap state with the cursor on the last recipe. -/
theorem C8_retry_at_cursor_witness :
    (0 : Int) ≤ ({ sampleService with cycleIndex := 2 } : SyncService).cycleIndex ∧
    ({ sampleService with cycleIndex := 2 } : SyncService).cycleIndex ≤
      ({ sampleService with cycleIndex := 2 } : SyncService).requestCycle.length ∧
    ({ sampleService with cycleIndex := 2 } : SyncService).requestCycle ≠ [] ∧
    sampleRequest.RetryCount < sampleRequest.MaxRetries ∧
    ∃ s' s'', retryRequest { sampleService with cycleIndex := 2 } sampleRequest =
        Except.ok s' ∧
      s'.requestCycle = sampleService.requestCycle.take 2 ++
        [fun _ => { sampleRequest with RetryCount := sampleRequest.RetryCount + 1 }] ++
        sampleService.requestCycle.drop 2 ∧
      s'.cycleIndex = 2 ∧
      selectNext s' =
        Except.ok (some { sampleRequest with RetryCount := sampleRequest.RetryCount + 1 }, s'') :=
  ⟨by decide, by decide, List.cons_ne_nil _ _, by decide,
    (C8_retry_at_cursor { sampleService with cycleIndex := 2 } sampleRequest (by decide)
      (by decide) (List.cons_ne_nil _ _) (by decide)).1⟩

/-! ### The resource-list reconciler -/

theorem rebuildCount_logf (s : SyncService) (fmt : String) (args : List LogArg) :
    rebuildCount (s.logf fmt args) = rebuildCount s + if fmt = rebuiltFmt then 1 else 0 := by
  simp only [rebuildCount, SyncService.logf, List.countP_append, List.countP_cons,
    List.countP_nil]
  simp

theorem insertServers_frame : ∀ (servers : List Server) (s : SyncService) (ids : List Int),
    (insertServers s servers ids).1.requestCycle = s.requestCycle ∧
    (insertServers s servers ids).1.cycleIndex = s.cycleIndex ∧
    (insertServers s servers ids).1.serverIDs = s.serverIDs ∧
    (insertServers s servers ids).1.managementURL = s.managementURL ∧
    rebuildCount (insertServers s servers ids).1 = rebuildCount s
  | [], s, ids => ⟨rfl, rfl, rfl, rfl, rfl⟩
  | server :: rest, s, ids => by
    simp only [insertServers]
    split
    · obtain ⟨h1, h2, h3, h4, h5⟩ := insertServers_frame rest
        (({ s with db := (s.db.exec (Stmt.insertServer server)).1 } : SyncService).logf
          "Error inserting server %d: %v" [LogArg.int server.ID, LogArg.err]) ids
      refine ⟨h1, h2, h3, h4, ?_⟩
      rw [h5, rebuildCount_logf]
      simp only [rebuildCount]
      rw [if_neg (by decide)]
      rfl
    · split
      · exact insertServers_frame rest _ _
      · exact insertServers_frame rest _ _

theorem rebuildCount_rebuild (s : SyncService) :
    rebuildCount (rebuildRequestCycle s) = rebuildCount s + 1 := by
  simp only [rebuildRequestCycle, rebuildCount_logf]
  simp [rebuildCount, rebuiltFmt]

/-! ### The console-credential parser -/

theorem natDigits_append : ∀ (fuel n : Nat) (acc : Str),
    natDigits fuel n acc = natDigits fuel n [] ++ acc
  | 0, _, acc => by simp [natDigits]
  | fuel + 1, n, acc => by
    simp only [natDigits]
    split
    · simp
    · rw [natDigits_append fuel (n / 10) (digitChar (n % 10) :: acc),
        natDigits_append fuel (n / 10) [digitChar (n % 10)]]
      simp

theorem natDigits_succ (fuel n : Nat) :
    natDigits (fuel + 1) n [] =
      if n < 10 then [digitChar n] else natDigits fuel (n / 10) [] ++ [digitChar (n % 10)] := by
  simp only [natDigits]
  split
  · rfl
  · rw [natDigits_append]

theorem parseDigits_append : ∀ (xs ys : Str) (k : Nat),
    parseDigits (xs ++ ys) k = (parseDigits xs k).bind (parseDigits ys)
  | [], ys, k => by simp [parseDigits]
  | c :: xs, ys, k => by
    simp only [List.cons_append, parseDigits]
    cases digitVal c with
    | none => rfl
    | some d => exact parseDigits_append xs ys _

theorem digitVal_digitChar (d : Nat) (h : d < 10) : digitVal (digitChar d) = some d := by
  interval_cases d <;> rfl

theorem parseDigits_natDigits : ∀ (fuel n : Nat), n < fuel →
    parseDigits (natDigits fuel n []) 0 = some n
  | 0, n, h => by omega
  | fuel + 1, n, h => by
    rw [natDigits_succ]
    split
    · rename_i h10
      simp [parseDigits, digitVal_digitChar n h10]
    · rename_i h10
      rw [parseDigits_append, parseDigits_natDigits fuel (n / 10) (by omega)]
      simp only [Option.bind, parseDigits, digitVal_digitChar (n % 10) (Nat.mod_lt _ (by omega))]
      congr 1
      omega

theorem natDigits_mem : ∀ (fuel n : Nat) (c : Char), c ∈ natDigits fuel n [] →
    ∃ d, d < 10 ∧ c = digitChar d
  | 0, _, c, h => by simp [natDigits] at h
  | fuel + 1, n, c, h => by
    rw [natDigits_succ] at h
    split at h
    · rename_i h10
      exact ⟨n, h10, by simpa using h⟩
    · rcases List.mem_append.mp h with h | h
      · exact natDigits_mem fuel (n / 10) c h
      · exact ⟨n % 10, Nat.mod_lt _ (by omega), by simpa using h⟩

theorem digitChar_not_sep (d : Nat) (h : d < 10) :
    digitChar d ≠ ':' ∧ digitChar d ≠ ',' ∧ digitChar d ≠ '+' ∧ digitChar d ≠ '-' := by
  interval_cases d <;> decide

theorem natToDec_ne_nil (n : Nat) : natToDec n ≠ [] := by
  simp only [natToDec, natDigits_succ]
  split <;> simp

theorem ParseInt_natToDec (n : Nat) (h : n < 2 ^ 63) : ParseInt (natToDec n) = some (n : Int) := by
  have hp : parseDigits (natToDec n) 0 = some n := parseDigits_natDigits (n + 1) n (by omega)
  cases hd : natToDec n with
  | nil => exact absurd hd (natToDec_ne_nil n)
  | cons c rest =>
    have hc : c ∈ natDigits (n + 1) n [] := by
      show c ∈ natToDec n
      rw [hd]; simp
    obtain ⟨d, hd10, rfl⟩ := natDigits_mem _ _ _ hc
    obtain ⟨_, _, h3, h4⟩ := digitChar_not_sep d hd10
    rw [hd] at hp
    have h' : n < 9223372036854775808 := by simpa using h
    simp [ParseInt, h3, h4, hp, h']

theorem Index_skip (c0 : Char) (sep' : Str) : ∀ (a b : Str), (∀ c ∈ a, c ≠ c0) →
    Index (c0 :: sep') (a ++ b) = (Index (c0 :: sep') b).map (· + a.length)
  | [], b, _ => by simp
  | c :: a, b, h => by
    have hc : c ≠ c0 := h c (by simp)
    have ih := Index_skip c0 sep' a b (fun x hx => h x (List.mem_cons_of_mem _ hx))
    have hp : (c0 :: sep').isPrefixOf (c :: (a ++ b)) = false := by
      simp [List.isPrefixOf, hc.symm]
    show (if (c0 :: sep').isPrefixOf (c :: (a ++ b)) = true then some 0
      else (Index (c0 :: sep') (a ++ b)).map (· + 1)) = _
    rw [hp, ih]
    cases Index (c0 :: sep') b <;> simp [Nat.add_assoc]

theorem Index_self (c0 : Char) (sep' b : Str) : Index (c0 :: sep') ((c0 :: sep') ++ b) = some 0 := by
  have : (c0 :: sep').isPrefixOf ((c0 :: sep') ++ b) = true :=
    List.isPrefixOf_iff_prefix.mpr (List.prefix_append _ _)
  simp only [List.cons_append] at this ⊢
  simp only [Index, this, if_true]

theorem Index_concat_none (sep : Str) (x : Char) (hx : x ∉ sep) (hne : sep ≠ []) :
    ∀ (b : Str), Index sep b = none → Index sep (b ++ [x]) = none
  | [], _ => by
    have hp : sep.isPrefixOf [x] = false := by
      rw [Bool.eq_false_iff]
      intro hp
      have := List.isPrefixOf_iff_prefix.mp hp
      rcases List.prefix_cons_iff.mp this with h | ⟨t, rfl, _⟩
      · exact hne h
      · exact hx (by simp)
    simp [Index, hp, hne]
  | c :: b, h => by
    simp only [Index] at h
    split at h
    · simp at h
    · rename_i hnp
      have hb : Index sep b = none := by simpa using h
      have ih := Index_concat_none sep x hx hne b hb
      have hp : sep.isPrefixOf (c :: (b ++ [x])) = false := by
        rw [Bool.eq_false_iff]
        intro hp
        have hpre : sep <+: (c :: b) ++ [x] := List.isPrefixOf_iff_prefix.mp hp
        rcases List.prefix_concat_iff.mp hpre with e | hpre'
        · exact hx (by rw [e]; simp)
        · exact hnp (List.isPrefixOf_iff_prefix.mpr hpre')
      show (if sep.isPrefixOf (c :: (b ++ [x])) = true then some 0
        else (Index sep (b ++ [x])).map (· + 1)) = none
      rw [hp, ih]
      rfl

theorem genSplit_none (sep s : Str) (n : Nat) (h : Index sep s = none) :
    genSplit sep n s = [s] := by
  cases n with
  | zero => rfl
  | succ n => simp [genSplit, h]

theorem TrimSuffix_dot (pw : Str) : TrimSuffix (pw ++ ['.']) ".".toList = pw := by
  have : (".".toList).isSuffixOf (pw ++ ['.']) = true :=
    List.isSuffixOf_iff_suffix.mpr (List.suffix_append _ _)
  simp only [TrimSuffix, this, if_true]
  simp

theorem natToDec_chars (n : Nat) (c : Char) (hc : c ∈ natToDec n) : c ≠ ':' ∧ c ≠ ',' := by
  obtain ⟨d, hd, rfl⟩ := natDigits_mem _ _ _ hc
  exact ⟨(digitChar_not_sep d hd).1, (digitChar_not_sep d hd).2.1⟩

theorem genSplit_cut (c0 : Char) (sep' pre rest : Str) (n : Nat)
    (hpre : ∀ c ∈ pre, c ≠ c0) :
    genSplit (c0 :: sep') (n + 1) (pre ++ ((c0 :: sep') ++ rest)) =
      pre :: genSplit (c0 :: sep') n rest := by
  have hI : Index (c0 :: sep') (pre ++ ((c0 :: sep') ++ rest)) = some pre.length := by
    rw [Index_skip c0 sep' pre _ hpre, Index_self]
    simp
  have htake : (pre ++ ((c0 :: sep') ++ rest)).take pre.length = pre := List.take_left' rfl
  have hdrop : (pre ++ ((c0 :: sep') ++ rest)).drop (pre.length + (c0 :: sep').length) = rest := by
    rw [← List.append_assoc]
    exact List.drop_left' (List.length_append _ _)
  simp only [genSplit, hI, htake, hdrop]

theorem Split_message (p : Nat) (pw : Str) (hsep : Index portSep (passSep ++ pw) = none) :
    Split (consoleMessage p pw) portSep =
      ["Your VM console credentials are".toList, natToDec p ++ passSep ++ pw ++ ['.']] := by
  have hps : portSep = ':' :: " vnc_port: ".toList := rfl
  have hmsg : consoleMessage p pw = "Your VM console credentials are".toList ++
      (portSep ++ (natToDec p ++ passSep ++ pw ++ ['.'])) := by
    simp only [consoleMessage, List.append_assoc]
  have hrest : Index portSep (natToDec p ++ passSep ++ pw ++ ['.']) = none := by
    have h1 : Index portSep ((passSep ++ pw) ++ ['.']) = none :=
      Index_concat_none portSep '.' (by decide) (by decide) _ hsep
    rw [List.append_assoc, List.append_assoc, hps,
      Index_skip ':' _ _ _ (fun c hc => (natToDec_chars p c hc).1), ← hps,
      ← List.append_assoc, h1]
    rfl
  obtain ⟨n, hn⟩ : ∃ n, (consoleMessage p pw).length = n + 1 :=
    ⟨(consoleMessage p pw).length - 1, by
      rw [hmsg, List.length_append]
      have : 0 < ("Your VM console credentials are".toList).length := by decide
      omega⟩
  rw [Split, hn, hmsg, hps, genSplit_cut ':' _ _ _ n (by decide), ← hps,
    genSplit_none _ _ n hrest]

theorem SplitN2_rest (p : Nat) (pw : Str) :
    SplitN2 (natToDec p ++ passSep ++ pw ++ ['.']) passSep = [natToDec p, pw ++ ['.']] := by
  have hps : passSep = ',' :: " vnc_pass: ".toList := rfl
  rw [SplitN2, List.append_assoc, List.append_assoc, hps,
    genSplit_cut ',' _ _ _ 0 (fun c hc => (natToDec_chars p c hc).2)]
  rfl

/-- C9, counterexample: a password that contains the port separator is cut at
it. The message of the fixed shape for port 9063 and password
`ab: vnc_port: cd` parses to the password `ab`. -/
theorem C9_separator_counterexample :
    (parseVncConsoleCredentials sampleService
        (consoleMessage 9063 "ab: vnc_port: cd".toList) 1 >>= fun r => pure r.1) =
      Except.ok ⟨"23.227.199.130".toList, 9063, "ab".toList⟩ ∧
    "ab".toList ≠ "ab: vnc_port: cd".toList :=
  ⟨rfl, by decide⟩

/-- C9, amended: for every port `p` from 1 to 65535 and every non-empty password
`pw` such that the separator `: vnc_port: ` does not occur in
`, vnc_pass: <pw>`, the message of the fixed shape parses to the fixed host,
port `p` and password `pw` (the one trailing period removed), and the parser
changes nothing else: no side request, no credential acquired, nothing logged. -/
theorem C9_parse_inverts_message (s : SyncService) (serverID : Int) (p : Nat) (pw : Str)
    (hp1 : 1 ≤ p) (hp2 : p ≤ 65535) (hpw : pw ≠ [])
    (hsep : Index portSep (passSep ++ pw) = none) :
    parseVncConsoleCredentials s (consoleMessage p pw) serverID =
      Except.ok (⟨"23.227.199.130".toList, (p : Int), pw⟩, s) := by
  have hparts : parseParts serverID
      ["Your VM console credentials are".toList, natToDec p ++ passSep ++ pw ++ ['.']]
      ⟨"23.227.199.130".toList, 0, []⟩ s = (⟨"23.227.199.130".toList, (p : Int), pw⟩, s) := by
    have h0 : SplitN2 "Your VM console credentials are".toList passSep =
        ["Your VM console credentials are".toList] := by decide
    have hint : ParseInt (natToDec p) = some (p : Int) :=
      ParseInt_natToDec p (by
        have : (65535 : Nat) < 2 ^ 63 := by norm_num
        omega)
    simp only [parseParts, h0, SplitN2_rest, hint, TrimSuffix_dot]
  have hport : ((p : Int) = 0) = False := by
    simp only [eq_iff_iff, iff_false]
    omega
  simp only [parseVncConsoleCredentials, Split_message p pw hsep, hparts, hport, hpw,
    or_self, if_false, pure_eq_ok]

/-- C9 (amended) at the message of the specification: port 9063, password
`Nc#mq6Rv`. -/
theorem C9_parse_inverts_message_witness :
    1 ≤ 9063 ∧ 9063 ≤ 65535 ∧ "Nc#mq6Rv".toList ≠ [] ∧
    Index portSep (passSep ++ "Nc#mq6Rv".toList) = none ∧
    consoleMessage 9063 "Nc#mq6Rv".toList =
      "Your VM console credentials are: vnc_port: 9063, vnc_pass: Nc#mq6Rv.".toList ∧
    parseVncConsoleCredentials sampleService (consoleMessage 9063 "Nc#mq6Rv".toList) 0 =
      Except.ok (⟨"23.227.199.130".toList, ((9063 : Nat) : Int), "Nc#mq6Rv".toList⟩,
        sampleService) :=
  ⟨by decide, by decide, by decide, by decide, by decide,
    C9_parse_inverts_message sampleService 0 9063 "Nc#mq6Rv".toList (by decide) (by decide)
      (by decide) (by decide)⟩

/-! ### The Known-Resource Set -/

theorem exec_faults (db : DB) (st : Stmt) : (db.exec st).1.faults = db.faults.tail := by
  unfold DB.exec
  split
  · rename_i h; simp [h]
  · cases st <;> rfl

theorem exec_failed (db : DB) (st : Stmt) :
    (db.exec st).2 = decide (db.faults.head? = some true) := by
  unfold DB.exec
  split
  · rename_i h; simp [h]
  · rename_i h
    have hne : db.faults.head? ≠ some true := by
      intro e
      cases hf : db.faults with
      | nil => rw [hf] at e; simp at e
      | cons b rest =>
        rw [hf] at e
        simp only [List.head?_cons, Option.some.injEq] at e
        exact h rest (by rw [hf, e])
    cases st <;> simp [hne]

theorem insertServers_ids : ∀ (servers : List Server) (s : SyncService) (ids : List Int),
    (insertServers s servers ids).2 = ids ++ keptIDs s.db.faults servers
  | [], s, ids => by simp [insertServers, keptIDs]
  | server :: rest, s, ids => by
    simp only [insertServers, keptIDs, exec_failed]
    by_cases hf : s.db.faults.head? = some true
    · simp only [hf, decide_True, if_true]
      rw [insertServers_ids rest]
      simp [SyncService.logf, exec_faults]
    · simp only [hf, decide_False, if_false, Bool.false_eq_true]
      by_cases ha : server.DomainStatus = "Active".toList ∧ server.Domain ≠ []
      · have ha' : isActive server = true := by simp [isActive, ha]
        rw [if_pos ha, if_pos ha', insertServers_ids rest]
        simp [exec_faults]
      · have ha' : ¬ isActive server = true := by simp [isActive]; simpa using ha
        rw [if_neg ha, if_neg ha', insertServers_ids rest]
        simp [exec_faults]

theorem keptIDs_no_fault : ∀ (servers : List Server) (faults : List Bool),
    (∀ f ∈ faults, f = false) → keptIDs faults servers = activeIDs servers
  | [], _, _ => rfl
  | server :: rest, faults, h => by
    have hh : faults.head? ≠ some true := by
      intro e
      cases faults with
      | nil => simp at e
      | cons b r =>
        simp only [List.head?_cons, Option.some.injEq] at e
        have := h b (by simp)
        rw [e] at this
        exact Bool.noConfusion this
    have ht : ∀ f ∈ faults.tail, f = false := fun f hf => h f (List.mem_of_mem_tail hf)
    simp only [keptIDs, if_neg hh, keptIDs_no_fault rest faults.tail ht, activeIDs,
      List.filter_cons]
    split <;> simp

/-- C11, counterexample: the store accepts the clear and fails the insert of the
only entry, an active one; the Known-Resource Set comes out empty although the
response holds the active identifier 7. -/
theorem C11_failed_insert_counterexample :
    (({ sampleService with db := { sampleService.db with faults := [false, true] } }
        : SyncService).db.exec Stmt.truncateServers).2 = false ∧
    (processServersResponse
      { sampleService with db := { sampleService.db with faults := [false, true] } }
      (some [activeServer 7])).serverIDs = [] ∧
    activeIDs [activeServer 7] = [7] := by
  decide

/-- C11, amended: when the cache clear succeeds, the Known-Resource Set after
`processServersResponse` is the list, in response order, of the identifiers of
the entries whose insert the store accepted and that are active with a
non-empty domain, whatever the set was before; when the store fails no
statement it is the list of all active entries. -/
theorem C11_known_set (s : SyncService) (servers : List Server)
    (hclear : (s.db.exec Stmt.truncateServers).2 = false) :
    (processServersResponse s (some servers)).serverIDs = keptIDs s.db.faults.tail servers ∧
    ((∀ f ∈ s.db.faults, f = false) →
      (processServersResponse s (some servers)).serverIDs = activeIDs servers) := by
  have hids := insertServers_ids servers
    ({ s with db := (s.db.exec Stmt.truncateServers).1 } : SyncService) []
  have e : (processServersResponse s (some servers)).serverIDs =
      keptIDs s.db.faults.tail servers := by
    generalize hr : insertServers
      ({ s with db := (s.db.exec Stmt.truncateServers).1 } : SyncService) servers [] = r
      at hids
    obtain ⟨s1, ids⟩ := r
    simp only [List.nil_append, exec_faults] at hids
    simp only [processServersResponse, hclear, hr, Bool.false_eq_true, if_false]
    rw [← hids]
    split <;> rfl
  refine ⟨e, fun h => ?_⟩
  rw [e, keptIDs_no_fault servers _ (fun f hf => h f (List.mem_of_mem_tail hf))]

/-- C11 (amended) at the bootstrap state and a response with an active, an
inactive and a nameless entry. -/
theorem C11_known_set_witness :
    (sampleService.db.exec Stmt.truncateServers).2 = false ∧
    (∀ f ∈ sampleService.db.faults, f = false) ∧
    (processServersResponse sampleService
      (some [activeServer 7, ⟨8, "vm8".toList, [], [], [], "Suspended".toList⟩,
        ⟨9, [], [], [], [], "Active".toList⟩])).serverIDs = [7] :=
  ⟨rfl, by decide,
    ((C11_known_set sampleService
      [activeServer 7, ⟨8, "vm8".toList, [], [], [], "Suspended".toList⟩,
        ⟨9, [], [], [], [], "Active".toList⟩] rfl).2 (by decide)).trans (by decide)⟩

theorem targets_append (u : Str) : ∀ (ids : List Int) (cycle : List (Unit → SyncRequest)),
    ((appendServerRecipes u cycle ids).map fun recipe => recipe ()) =
      (cycle.map fun recipe => recipe ()) ++
        ids.flatMap fun id => [serverDetailRecipe u id (), rootPasswordRecipe u id (),
          consoleCredentialsRecipe u id ()]
  | [], cycle => by simp [appendServerRecipes]
  | id :: ids, cycle => by
    simp only [appendServerRecipes, targets_append u ids, List.map_append, List.map_cons,
      List.map_nil, List.flatMap_cons, List.append_assoc]

/-- Right after a rebuild the per-resource recipes target exactly the known
resources, three recipes for each, in the order of the set. -/
theorem targets_rebuild (s : SyncService) :
    (rebuildRequestCycle s).targets = s.serverIDs.flatMap fun id => [id, id, id] := by
  have h : (rebuildRequestCycle s).requests =
      [serversRecipe s.managementURL (), osTypesRecipe s.managementURL ()] ++
        s.serverIDs.flatMap fun id => [serverDetailRecipe s.managementURL id (),
          rootPasswordRecipe s.managementURL id (),
          consoleCredentialsRecipe s.managementURL id ()] := by
    simp only [SyncService.requests, rebuildRequestCycle, SyncService.logf, targets_append]
    rfl
  simp only [SyncService.targets, h, List.filter_append, List.map_append]
  have h0 : ([serversRecipe s.managementURL (), osTypesRecipe s.managementURL ()].filter
      perResource) = [] := by
    simp [serversRecipe, osTypesRecipe, perResource]
  rw [h0]
  simp only [List.map_nil, List.nil_append]
  induction s.serverIDs with
  | nil => rfl
  | cons id ids ih =>
    simp only [List.flatMap_cons, List.filter_append, List.map_append, ih]
    congr 1

/-- C12, failing input: a response that lists the active resource 1 is
processed (the cycle is rebuilt for it), then a response that lists the active
resource 2 instead. The count is 1 both times, so nothing is rebuilt: the
Known-Resource Set is `[2]` while the three per-resource recipes of the cycle
still target 1. -/
theorem C12_same_count_stale_cycle :
    (processServersResponse sampleService (some [activeServer 1])).serverIDs = [1] ∧
    (processServersResponse sampleService (some [activeServer 1])).targets = [1, 1, 1] ∧
    (processServersResponse (processServersResponse sampleService (some [activeServer 1]))
      (some [activeServer 2])).serverIDs = [2] ∧
    (processServersResponse (processServersResponse sampleService (some [activeServer 1]))
      (some [activeServer 2])).targets = [1, 1, 1] := by
  decide

/-! ### The ticker period -/

/-- The whole seconds between two ticks for a pool of `N ≥ 1` credentials:
`60 / N` rounded down, so that `N` ticks take `60 - 60 mod N` seconds. -/
theorem tickSeconds_of_capacity (s : SyncService) (lru : LRUAPIKeyManager) (N : Nat)
    (h : s.lruKeyManager = some lru) (hc : lru.capacity = (N : Int)) (hN : 1 ≤ N) :
    tickSeconds s = Except.ok ((60 / N : Nat) : Int) ∧ N * (60 / N) = 60 - 60 % N := by
  constructor
  · have hne : (N : Int) ≠ 0 := by omega
    simp only [tickSeconds, h, hc, if_neg hne, pure_eq_ok]
    rfl
  · have := Nat.div_add_mod 60 N
    omega

/-- C19, failing input: a pool of seven credentials. The period is
`60 / 7 = 8` seconds, so the seven credentials are each used every 56 seconds,
more than once per minute. -/
theorem C19_seven_credentials_period :
    (NewLRUAPIKeyManager sevenKeys 0 >>= fun m =>
      tickSeconds { sampleService with lruKeyManager := m }) = Except.ok 8 ∧
    (7 : Int) * 8 < 60 :=
  ⟨rfl, by decide⟩

/-! ### The credentials cache -/

/-- When the store fails no statement, `processRootPasswordResponse` leaves for
the server one row that holds the new root password and empty console fields,
whatever the cache held for it before. -/
theorem rootPassword_row (s : SyncService) (rootPass : RootPasswordResponse) (serverID : Int)
    (hf : s.db.faults = []) :
    (processRootPasswordResponse s (some rootPass) serverID).db.server_credentials_cache =
      (s.db.server_credentials_cache.filter fun r => r.server_id ≠ serverID) ++
        [⟨serverID, rootPass.Password, [], 0, []⟩] := by
  simp [processRootPasswordResponse, DB.exec, hf, SyncService.logf]

/-- C20, failing input: the cache holds for server 7 the row (old-root,
23.227.199.130, 9063, Nc#mq6Rv) and a root-password response with `new-root`
is processed. Afterwards the row of server 7 has the new root password, and
its console host, port and password are empty, 0 and empty. -/
theorem C20_root_password_wipes_console :
    cachedService.db.server_credentials_cache =
      [⟨7, "old-root".toList, "23.227.199.130".toList, 9063, "Nc#mq6Rv".toList⟩] ∧
    (processRootPasswordResponse cachedService (some ⟨"new-root".toList⟩)
      7).db.server_credentials_cache = [⟨7, "new-root".toList, [], 0, []⟩] := by
  decide

/-! ### What the reconcilers leave alone -/

theorem trace_logf (s : SyncService) (fmt : String) (args : List LogArg) :
    (s.logf fmt args).trace =
      s.trace ++ if tracked ⟨fmt, args⟩ = true then [⟨fmt, args⟩] else [] := by
  simp only [SyncService.trace, SyncService.logf, List.filter_append, List.filter_cons,
    List.filter_nil]

theorem Quiet.refl (s : SyncService) : Quiet s s := ⟨rfl, rfl, rfl, rfl, rfl, rfl, rfl, rfl⟩

theorem Quiet.trans {s s1 s2 : SyncService} (h1 : Quiet s s1) (h2 : Quiet s1 s2) :
    Quiet s s2 :=
  ⟨h2.1.trans h1.1, h2.2.1.trans h1.2.1, h2.2.2.1.trans h1.2.2.1,
    h2.2.2.2.1.trans h1.2.2.2.1, h2.2.2.2.2.1.trans h1.2.2.2.2.1,
    h2.2.2.2.2.2.1.trans h1.2.2.2.2.2.1, h2.2.2.2.2.2.2.1.trans h1.2.2.2.2.2.2.1,
    h2.2.2.2.2.2.2.2.trans h1.2.2.2.2.2.2.2⟩

theorem quiet_logf (s : SyncService) (fmt : String) (args : List LogArg)
    (h : tracked ⟨fmt, []⟩ = false) : Quiet s (s.logf fmt args) := by
  refine ⟨rfl, rfl, rfl, rfl, rfl, rfl, rfl, ?_⟩
  have h' : tracked ⟨fmt, args⟩ = false := h
  rw [trace_logf, h']
  simp

theorem quiet_ite (s a b : SyncService) (c : Prop) [Decidable c] (ha : Quiet s a)
    (hb : Quiet s b) : Quiet s (if c then a else b) := by
  split
  · exact ha
  · exact hb

theorem quiet_db (s : SyncService) (db : DB) : Quiet s { s with db := db } :=
  ⟨rfl, rfl, rfl, rfl, rfl, rfl, rfl, rfl⟩

theorem quiet_clientDo (s : SyncService) (req : HttpRequest) : Quiet s (s.clientDo req).2 :=
  ⟨rfl, rfl, rfl, rfl, rfl, rfl, rfl, rfl⟩

theorem acquire_logs_untracked (lru : Option LRUAPIKeyManager) (now : Nat) (r : Acquired)
    (h : GetLeastRecentlyUsedKey lru now = Except.ok r) : r.logs.filter tracked = [] := by
  cases lru with
  | none =>
    simp only [GetLeastRecentlyUsedKey, pure_eq_ok, Except.ok.injEq] at h
    rw [← h]; rfl
  | some m =>
    simp only [GetLeastRecentlyUsedKey] at h
    cases ht : deref m.tail with
    | error e => rw [ht] at h; simp at h
    | ok t =>
      rw [ht] at h
      simp only [ok_bind] at h
      split at h
      · simp only [pure_eq_ok, Except.ok.injEq] at h
        rw [← h]; rfl
      · cases hm : m.moveToHead (m.node t).prev with
        | error e => rw [hm] at h; simp at h
        | ok m1 =>
          rw [hm] at h
          simp only [ok_bind] at h
          cases hd : deref (m.node t).prev with
          | error e => rw [hd] at h; simp at h
          | ok n =>
            rw [hd] at h
            simp only [ok_bind] at h
            cases hl : lastEight ((m1.setLastUsed n now).node n).key with
            | error e => rw [hl] at h; simp at h
            | ok suffix =>
              rw [hl] at h
              simp only [ok_bind, pure_eq_ok, Except.ok.injEq] at h
              rw [← h]
              rfl

theorem quiet_acquired (s : SyncService) (r : Acquired) (h : r.logs.filter tracked = []) :
    Quiet s { s with lruKeyManager := r.lru, logs := s.logs ++ r.logs } := by
  refine ⟨rfl, rfl, rfl, rfl, rfl, rfl, rfl, ?_⟩
  simp only [SyncService.trace, List.filter_append, h, List.append_nil]

theorem insertOsTypes_quiet : ∀ (rows : List OsType) (s : SyncService),
    Quiet s (insertOsTypes s rows)
  | [], s => Quiet.refl s
  | row :: rest, s => by
    simp only [insertOsTypes]
    split
    · exact ((quiet_db s _).trans (quiet_logf _ _ _ (by decide))).trans
        (insertOsTypes_quiet rest _)
    · exact (quiet_db s _).trans (insertOsTypes_quiet rest _)

theorem processOSTypesResponse_quiet (s : SyncService) (decoded : Option (List OsType)) :
    Quiet s (processOSTypesResponse s decoded) := by
  cases decoded with
  | none => exact quiet_logf _ _ _ (by decide)
  | some rows =>
    simp only [processOSTypesResponse]
    split
    · exact (quiet_db s _).trans (quiet_logf _ _ _ (by decide))
    · exact ((quiet_db s _).trans (insertOsTypes_quiet rows _)).trans
        (quiet_logf _ _ _ (by decide))

theorem insertApps_quiet : ∀ (rows : List AppType) (s : SyncService),
    Quiet s (insertApps s rows)
  | [], s => Quiet.refl s
  | row :: rest, s => by
    simp only [insertApps]
    split
    · exact ((quiet_db s _).trans (quiet_logf _ _ _ (by decide))).trans
        (insertApps_quiet rest _)
    · exact (quiet_db s _).trans (insertApps_quiet rest _)

theorem processAppsResponse_quiet (s : SyncService) (decoded : Option (List AppType)) :
    Quiet s (processAppsResponse s decoded) := by
  cases decoded with
  | none => exact quiet_logf _ _ _ (by decide)
  | some rows =>
    simp only [processAppsResponse]
    split
    · exact (quiet_db s _).trans (quiet_logf _ _ _ (by decide))
    · exact ((quiet_db s _).trans (insertApps_quiet rows _)).trans
        (quiet_logf _ _ _ (by decide))

theorem processServerDetailResponse_quiet (s : SyncService) (decoded : Option ServerDetail)
    (serverID : Int) : Quiet s (processServerDetailResponse s decoded serverID) := by
  cases decoded with
  | none => exact quiet_logf _ _ _ (by decide)
  | some row =>
    simp only [processServerDetailResponse]
    split
    · exact (quiet_db s _).trans (quiet_logf _ _ _ (by decide))
    · split
      · exact ((quiet_db s _).trans (quiet_db _ _)).trans (quiet_logf _ _ _ (by decide))
      · exact ((quiet_db s _).trans (quiet_db _ _)).trans (quiet_logf _ _ _ (by decide))

theorem insertSnapshots_quiet (serverID : Int) : ∀ (rows : List ServerSnapshot)
    (s : SyncService), Quiet s (insertSnapshots serverID s rows)
  | [], s => Quiet.refl s
  | row :: rest, s => by
    simp only [insertSnapshots]
    split
    · exact ((quiet_db s _).trans (quiet_logf _ _ _ (by decide))).trans
        (insertSnapshots_quiet serverID rest _)
    · exact (quiet_db s _).trans (insertSnapshots_quiet serverID rest _)

theorem processSnapshotsResponse_quiet (s : SyncService)
    (decoded : Option (List ServerSnapshot)) (serverID : Int) :
    Quiet s (processSnapshotsResponse s decoded serverID) := by
  cases decoded with
  | none => exact quiet_logf _ _ _ (by decide)
  | some rows =>
    simp only [processSnapshotsResponse]
    split
    · exact (quiet_db s _).trans (quiet_logf _ _ _ (by decide))
    · exact ((quiet_db s _).trans (insertSnapshots_quiet serverID rows _)).trans
        (quiet_logf _ _ _ (by decide))

theorem processRootPasswordResponse_quiet (s : SyncService)
    (decoded : Option RootPasswordResponse) (serverID : Int) :
    Quiet s (processRootPasswordResponse s decoded serverID) := by
  cases decoded with
  | none => exact quiet_logf _ _ _ (by decide)
  | some row =>
    simp only [processRootPasswordResponse]
    have h1 : Quiet s
        (if (s.db.exec (Stmt.deleteCredentials serverID)).2 = true then
          ({ s with db := (s.db.exec (Stmt.deleteCredentials serverID)).1 } : SyncService).logf
            "Error deleting existing credentials for server %d: %v"
            [LogArg.int serverID, LogArg.err]
        else { s with db := (s.db.exec (Stmt.deleteCredentials serverID)).1 }) := by
      split
      · exact (quiet_db s _).trans (quiet_logf _ _ _ (by decide))
      · exact quiet_db s _
    exact quiet_ite _ _ _ _ (h1.trans ((quiet_db _ _).trans (quiet_logf _ _ _ (by decide))))
      (h1.trans ((quiet_db _ _).trans (quiet_logf _ _ _ (by decide))))

theorem consoleOutcome_quiet (s : SyncService) (failed : Bool) (serverID : Int) :
    Quiet s (consoleOutcome s failed serverID) := by
  simp only [consoleOutcome]
  split
  · exact quiet_logf _ _ _ (by decide)
  · exact quiet_logf _ _ _ (by decide)

theorem parseParts_quiet (serverID : Int) : ∀ (parts : List Str)
    (creds : VncConsoleCredentials) (s : SyncService),
    Quiet s (parseParts serverID parts creds s).2
  | [], _, s => Quiet.refl s
  | part :: rest, creds, s => by
    simp only [parseParts]
    split
    · split
      · exact (quiet_logf _ _ _ (by decide)).trans (parseParts_quiet serverID rest _ _)
      · exact Quiet.refl s
    · exact parseParts_quiet serverID rest _ _

theorem parseVnc_quiet (s : SyncService) (msg : Str) (serverID : Int)
    (c : VncConsoleCredentials) (s' : SyncService)
    (h : parseVncConsoleCredentials s msg serverID = Except.ok (c, s')) : Quiet s s' := by
  have hp := parseParts_quiet serverID (Split msg portSep) ⟨"23.227.199.130".toList, 0, []⟩ s
  generalize hr : parseParts serverID (Split msg portSep) ⟨"23.227.199.130".toList, 0, []⟩ s
    = r at hp
  obtain ⟨creds, s1⟩ := r
  simp only [parseVncConsoleCredentials, hr] at h
  simp only at hp
  split at h
  · have h2 : Quiet s (s1.logf
        "Incomplete VNC credentials parsed for server %d: port=%d, password=%s, reenabling console server"
        [LogArg.int serverID, LogArg.int creds.Port, LogArg.str creds.Password]) :=
      hp.trans (quiet_logf _ _ _ (by decide))
    split at h
    · simp only [pure_eq_ok, Except.ok.injEq, Prod.mk.injEq] at h
      rw [← h.2]
      exact h2.trans (quiet_logf _ _ _ (by decide))
    · cases hk : GetLeastRecentlyUsedKey s1.lruKeyManager s1.clock with
      | error e =>
        simp only [SyncService.logf] at h
        rw [hk] at h
        simp at h
      | ok r =>
        have hq := quiet_acquired (s1.logf
          "Incomplete VNC credentials parsed for server %d: port=%d, password=%s, reenabling console server"
          [LogArg.int serverID, LogArg.int creds.Port, LogArg.str creds.Password]) r
          (acquire_logs_untracked _ _ r hk)
        simp only [SyncService.logf] at h hq h2
        rw [hk] at h
        simp only [ok_bind] at h
        split at h
        · simp only [pure_eq_ok, Except.ok.injEq, Prod.mk.injEq] at h
          rw [← h.2]
          exact (h2.trans hq).trans (quiet_logf _ _ _ (by decide))
        · split at h
          · simp only [pure_eq_ok, Except.ok.injEq, Prod.mk.injEq] at h
            rw [← h.2]
            exact ((h2.trans hq).trans (quiet_clientDo _ _)).trans
              (quiet_logf _ _ _ (by decide))
          · split at h
            · simp only [pure_eq_ok, Except.ok.injEq, Prod.mk.injEq] at h
              rw [← h.2]
              exact ((h2.trans hq).trans (quiet_clientDo _ _)).trans
                (quiet_logf _ _ _ (by decide))
            · simp only [pure_eq_ok, Except.ok.injEq, Prod.mk.injEq] at h
              rw [← h.2]
              exact ((h2.trans hq).trans (quiet_clientDo _ _)).trans
                (quiet_logf _ _ _ (by decide))
  · simp only [pure_eq_ok, Except.ok.injEq, Prod.mk.injEq] at h
    rw [← h.2]
    exact hp

theorem processConsoleCredentialsResponse_quiet (s : SyncService)
    (decoded : Option StatusMessage) (serverID : Int) (s' : SyncService)
    (h : processConsoleCredentialsResponse s decoded serverID = Except.ok s') : Quiet s s' := by
  cases decoded with
  | none =>
    simp only [processConsoleCredentialsResponse, pure_eq_ok, Except.ok.injEq] at h
    rw [← h]
    exact quiet_logf _ _ _ (by decide)
  | some creds =>
    simp only [processConsoleCredentialsResponse] at h
    cases hp : parseVncConsoleCredentials s creds.Message serverID with
    | error e => rw [hp] at h; simp at h
    | ok r =>
      obtain ⟨credsData, s1⟩ := r
      have hq := parseVnc_quiet s creds.Message serverID credsData s1 hp
      rw [hp] at h
      simp only [ok_bind] at h
      split at h
      · simp only [pure_eq_ok, Except.ok.injEq] at h
        rw [← h]
        exact (hq.trans (quiet_db _ _)).trans (consoleOutcome_quiet _ _ _)
      · split at h
        · simp only [pure_eq_ok, Except.ok.injEq] at h
          rw [← h]
          exact (hq.trans (quiet_db _ _)).trans (consoleOutcome_quiet _ _ _)
        · simp only [pure_eq_ok, Except.ok.injEq] at h
          rw [← h]
          exact (hq.trans (quiet_db _ _)).trans (consoleOutcome_quiet _ _ _)
      · simp only [pure_eq_ok, Except.ok.injEq] at h
        rw [← h]
        exact (hq.trans (quiet_db _ _)).trans (consoleOutcome_quiet _ _ _)

theorem insertServers_quiet : ∀ (servers : List Server) (s : SyncService) (ids : List Int),
    Quiet s (insertServers s servers ids).1
  | [], s, _ => Quiet.refl s
  | server :: rest, s, ids => by
    simp only [insertServers]
    split
    · exact ((quiet_db s _).trans (quiet_logf _ _ _ (by decide))).trans
        (insertServers_quiet rest _ _)
    · split
      · exact (quiet_db s _).trans (insertServers_quiet rest _ _)
      · exact (quiet_db s _).trans (insertServers_quiet rest _ _)

theorem settled_of_quiet {s s' : SyncService} (h : Quiet s s') : Settled s s' :=
  ⟨h.2.2.2.1, h.2.2.2.2.1, h.2.2.2.2.2.1, h.2.2.2.2.2.2.1,
    Or.inl ⟨h.2.2.2.2.2.2.2, h.1, h.2.1⟩⟩

theorem quiet_settled {s s1 s2 : SyncService} (h1 : Quiet s s1) (h2 : Settled s1 s2) :
    Settled s s2 := by
  obtain ⟨c1, c2, c3, q1, q2, q3, q4, q5⟩ := h1
  obtain ⟨a1, a2, a3, a4, hcases⟩ := h2
  refine ⟨a1.trans q1, a2.trans q2, a3.trans q3, a4.trans q4, ?_⟩
  rcases hcases with ⟨t, c, i⟩ | ⟨line, t, hf, i, sv⟩ | ⟨line, t, hf, i⟩
  · exact Or.inl ⟨t.trans q5, c.trans c1, i.trans c2⟩
  · exact Or.inr (Or.inl ⟨line, by rw [t, q5], hf, i.trans c2, sv.trans c3⟩)
  · exact Or.inr (Or.inr ⟨line, by rw [t, q5], hf, i⟩)

theorem retryRequest_settled (s : SyncService) (req : SyncRequest) (s' : SyncService)
    (h : retryRequest s req = Except.ok s') : Settled s s' := by
  by_cases hlt : req.RetryCount < req.MaxRetries
  · simp only [retryRequest, hlt, if_true, ok_bind] at h
    split at h
    · cases h1 : sliceTo s.requestCycle s.cycleIndex with
      | error e =>
        simp only [SyncService.logf] at h
        rw [h1] at h
        simp at h
      | ok front =>
        cases h2 : sliceFrom s.requestCycle s.cycleIndex with
        | error e =>
          simp only [SyncService.logf] at h
          rw [h1, h2] at h
          simp at h
        | ok back =>
          simp only [SyncService.logf] at h
          rw [h1, h2] at h
          simp only [ok_bind, pure_eq_ok, Except.ok.injEq] at h
          rw [← h]
          exact ⟨rfl, rfl, rfl, rfl, Or.inr (Or.inl
            ⟨⟨retryingFmt, _⟩, trace_logf s _ _, Or.inl rfl, rfl, rfl⟩)⟩
    · simp only [pure_eq_ok, Except.ok.injEq] at h
      rw [← h]
      exact ⟨rfl, rfl, rfl, rfl, Or.inr (Or.inl
        ⟨⟨retryingFmt, _⟩, trace_logf s _ _, Or.inl rfl, rfl, rfl⟩)⟩
  · rw [retryRequest_exhausted s req (Int.not_lt.mp hlt)] at h
    simp only [Except.ok.injEq] at h
    rw [← h]
    exact ⟨rfl, rfl, rfl, rfl, Or.inr (Or.inl
      ⟨⟨exhaustedFmt, _⟩, trace_logf s _ _, Or.inr rfl, rfl, rfl⟩)⟩

theorem trace_rebuild (s : SyncService) :
    (rebuildRequestCycle s).trace = s.trace ++
      [⟨rebuiltFmt, [LogArg.int (rebuildRequestCycle s).requestCycle.length,
        LogArg.int (s.serverIDs.length * 4)]⟩] :=
  trace_logf _ _ _

theorem reconciled_of_quiet {s s' : SyncService} (h : Quiet s s') : Reconciled s s' :=
  ⟨h.2.2.2.1, h.2.2.2.2.1, h.2.2.2.2.2.1, h.2.2.2.2.2.2.1,
    Or.inl ⟨h.2.2.2.2.2.2.2, h.1, h.2.1⟩⟩

theorem settled_of_reconciled {s s' : SyncService} (h : Reconciled s s') : Settled s s' := by
  obtain ⟨a1, a2, a3, a4, hc⟩ := h
  refine ⟨a1, a2, a3, a4, ?_⟩
  rcases hc with hc | hc
  · exact Or.inl hc
  · exact Or.inr (Or.inr hc)

theorem processServersResponse_reconciled (s : SyncService)
    (decoded : Option (List Server)) : Reconciled s (processServersResponse s decoded) := by
  cases decoded with
  | none => exact reconciled_of_quiet (quiet_logf _ _ _ (by decide))
  | some servers =>
    simp only [processServersResponse]
    split
    · exact reconciled_of_quiet ((quiet_db s _).trans (quiet_logf _ _ _ (by decide)))
    · have hq := insertServers_quiet servers
        ({ s with db := (s.db.exec Stmt.truncateServers).1 } : SyncService) []
      generalize insertServers
        ({ s with db := (s.db.exec Stmt.truncateServers).1 } : SyncService) servers [] = r
        at hq
      obtain ⟨s1, ids⟩ := r
      simp only at hq ⊢
      have hq1 : Quiet s s1 := (quiet_db s _).trans hq
      obtain ⟨c1, c2, c3, q1, q2, q3, q4, q5⟩ := hq1
      have hq2 : ∀ (fmt : String) (args : List LogArg), tracked ⟨fmt, []⟩ = false →
          (({ s1 with serverIDs := ids } : SyncService).logf fmt args).trace = s.trace := by
        intro fmt args hf
        rw [(quiet_logf _ fmt args hf).2.2.2.2.2.2.2]
        exact q5
      split
      · have ht := trace_rebuild (({ s1 with serverIDs := ids } : SyncService).logf
          "Server count changed from %d to %d, rebuilding request cycle"
          [LogArg.int s1.serverIDs.length, LogArg.int ids.length])
        rw [hq2 _ _ (by decide)] at ht
        have ht2 := (quiet_logf (rebuildRequestCycle
          (({ s1 with serverIDs := ids } : SyncService).logf
            "Server count changed from %d to %d, rebuilding request cycle"
            [LogArg.int s1.serverIDs.length, LogArg.int ids.length]))
          "Updated servers cache with %d servers" [LogArg.int servers.length]
          (by decide)).2.2.2.2.2.2.2
        rw [ht] at ht2
        exact ⟨q1, q2, q3, q4, Or.inr ⟨_, ht2, rfl, rfl⟩⟩
      · refine ⟨q1, q2, q3, q4, Or.inl ⟨?_, c1, c2⟩⟩
        exact hq2 _ _ (by decide)

theorem dispatch_reconciled (s : SyncService) (req : SyncRequest) (resp : HttpResponse)
    (s' : SyncService) (h : dispatch s req resp = Except.ok s') : Reconciled s s' := by
  simp only [dispatch] at h
  split at h
  · simp only [pure_eq_ok, Except.ok.injEq] at h
    rw [← h]; exact processServersResponse_reconciled _ _
  split at h
  · simp only [pure_eq_ok, Except.ok.injEq] at h
    rw [← h]; exact reconciled_of_quiet (processOSTypesResponse_quiet _ _)
  split at h
  · simp only [pure_eq_ok, Except.ok.injEq] at h
    rw [← h]; exact reconciled_of_quiet (processAppsResponse_quiet _ _)
  split at h
  · simp only [pure_eq_ok, Except.ok.injEq] at h
    rw [← h]; exact reconciled_of_quiet (processServerDetailResponse_quiet _ _ _)
  split at h
  · simp only [pure_eq_ok, Except.ok.injEq] at h
    rw [← h]; exact reconciled_of_quiet (processSnapshotsResponse_quiet _ _ _)
  split at h
  · simp only [pure_eq_ok, Except.ok.injEq] at h
    rw [← h]; exact reconciled_of_quiet (processRootPasswordResponse_quiet _ _ _)
  split at h
  · exact reconciled_of_quiet (processConsoleCredentialsResponse_quiet _ _ _ _ h)
  · simp only [pure_eq_ok, Except.ok.injEq] at h
    rw [← h]; exact reconciled_of_quiet (quiet_logf _ _ _ (by decide))

theorem dispatch_settled (s : SyncService) (req : SyncRequest) (resp : HttpResponse)
    (s' : SyncService) (h : dispatch s req resp = Except.ok s') : Settled s s' :=
  settled_of_reconciled (dispatch_reconciled s req resp s' h)

/-- Every call of `processRequest` that returns logs its `Processing` line and
then ends in one of the three ways of `Settled`. -/
theorem processRequest_settled (s : SyncService) (req : SyncRequest) (s' : SyncService)
    (h : processRequest s req = Except.ok s') :
    Settled (s.logf processingFmt [LogArg.str req.URL, LogArg.str req.ReqType]) s' := by
  simp only [processRequest] at h
  split at h
  · exact quiet_settled (quiet_logf _ _ _ (by decide)) (retryRequest_settled _ _ _ h)
  · cases hk : GetLeastRecentlyUsedKey
        (s.logf "Processing: %s (%s)" [LogArg.str req.URL, LogArg.str req.ReqType]).lruKeyManager
        (s.logf "Processing: %s (%s)" [LogArg.str req.URL, LogArg.str req.ReqType]).clock with
    | error e => rw [hk] at h; simp at h
    | ok r =>
      rw [hk] at h
      simp only [ok_bind] at h
      have hq := quiet_acquired
        (s.logf "Processing: %s (%s)" [LogArg.str req.URL, LogArg.str req.ReqType]) r
        (acquire_logs_untracked _ _ r hk)
      split at h
      · exact quiet_settled (hq.trans (quiet_logf _ _ _ (by decide)))
          (retryRequest_settled _ _ _ h)
      · split at h
        · exact quiet_settled ((hq.trans (quiet_clientDo _ _)).trans
            (quiet_logf _ _ _ (by decide))) (retryRequest_settled _ _ _ h)
        · split at h
          · split at h
            · simp only [pure_eq_ok, Except.ok.injEq] at h
              rw [← h]
              exact settled_of_quiet ((hq.trans (quiet_clientDo _ _)).trans
                (quiet_logf _ _ _ (by decide)))
            · exact quiet_settled ((hq.trans (quiet_clientDo _ _)).trans
                (quiet_logf _ _ _ (by decide))) (retryRequest_settled _ _ _ h)
          · exact quiet_settled (hq.trans (quiet_clientDo _ _)) (dispatch_settled _ _ _ _ h)

/-! ### Counting on the tracked log -/

theorem processed_eq_trace (s : SyncService) :
    s.processed = (s.trace.filter fun line => line.fmt = processingFmt).map
      fun line => line.args := by
  simp only [SyncService.processed, SyncService.trace, List.filter_filter]
  congr 1
  apply List.filter_congr
  intro line _
  simp only [tracked]
  cases decide (line.fmt = processingFmt) <;> simp

theorem rebuildCount_eq_trace (s : SyncService) :
    rebuildCount s = s.trace.countP fun line => line.fmt = rebuiltFmt := by
  simp only [rebuildCount, SyncService.trace, List.countP_filter]
  apply List.countP_congr
  intro line _
  simp only [tracked]
  cases decide (line.fmt = rebuiltFmt) <;> simp

theorem retryCalls_eq_trace (s : SyncService) :
    retryCalls s = s.trace.countP
      fun line => line.fmt = retryingFmt || line.fmt = exhaustedFmt := by
  simp only [retryCalls, SyncService.trace, List.countP_filter]
  apply List.countP_congr
  intro line _
  simp only [tracked]
  cases decide (line.fmt = retryingFmt) <;> cases decide (line.fmt = exhaustedFmt) <;> simp

/-- What one returning call of `processRequest` adds to the observations: one
processed request; at most one retry; and either no rebuild, with the cursor
where it was, or one rebuild, with the cursor at 0. -/
theorem processRequest_summary (s : SyncService) (req : SyncRequest) (s' : SyncService)
    (h : processRequest s req = Except.ok s') :
    s'.processed = s.processed ++ [[LogArg.str req.URL, LogArg.str req.ReqType]] ∧
    ((rebuildCount s' = rebuildCount s ∧ s'.cycleIndex = s.cycleIndex) ∨
      (rebuildCount s' = rebuildCount s + 1 ∧ s'.cycleIndex = 0)) ∧
    retryCalls s' ≤ retryCalls s + 1 := by
  obtain ⟨_, _, _, _, hc⟩ := processRequest_settled s req s' h
  have ht0 : (s.logf processingFmt [LogArg.str req.URL, LogArg.str req.ReqType]).trace =
      s.trace ++ [⟨processingFmt, [LogArg.str req.URL, LogArg.str req.ReqType]⟩] :=
    trace_logf s _ _
  rw [processed_eq_trace s', processed_eq_trace s, rebuildCount_eq_trace s',
    rebuildCount_eq_trace s, retryCalls_eq_trace s', retryCalls_eq_trace s]
  rcases hc with ⟨t, _, i⟩ | ⟨line, t, hf, i, _⟩ | ⟨line, t, hf, i⟩
  · rw [t, ht0]
    refine ⟨?_, Or.inl ⟨?_, i⟩, ?_⟩
    · simp [processingFmt]
    · simp [List.countP_append, processingFmt, rebuiltFmt]
    · simp [List.countP_append, processingFmt, retryingFmt, exhaustedFmt]
  · rw [t, ht0]
    have hnp : line.fmt ≠ processingFmt := by
      rcases hf with hf | hf <;> rw [hf] <;> decide
    have hnr : line.fmt ≠ rebuiltFmt := by
      rcases hf with hf | hf <;> rw [hf] <;> decide
    refine ⟨?_, Or.inl ⟨?_, i⟩, ?_⟩
    · simp [List.filter_append, List.filter_cons, hnp]
    · simp [List.countP_append, List.countP_cons, hnr]
      simp [processingFmt, rebuiltFmt]
    · simp only [List.countP_append, List.countP_cons, List.countP_nil]
      have : (if (decide (processingFmt = retryingFmt) || decide (processingFmt = exhaustedFmt))
          = true then 1 else 0) = 0 := by decide
      simp only [this]
      split <;> omega
  · rw [t, ht0]
    have hnp : line.fmt ≠ processingFmt := by rw [hf]; decide
    have hn1 : line.fmt ≠ retryingFmt := by rw [hf]; decide
    have hn2 : line.fmt ≠ exhaustedFmt := by rw [hf]; decide
    refine ⟨?_, Or.inr ⟨?_, i⟩, ?_⟩
    · simp [List.filter_append, List.filter_cons, hnp]
    · simp [List.countP_append, List.countP_cons, hf]
      simp [processingFmt, rebuiltFmt]
    · simp [List.countP_append, List.countP_cons, hn1, hn2]
      simp [processingFmt, retryingFmt, exhaustedFmt]

/-! ### The manual trigger -/

theorem processAll_summary : ∀ (reqs : List SyncRequest) (s s' : SyncService),
    processAll s reqs = Except.ok s' →
    s'.processed =
      s.processed ++ reqs.map (fun req => [LogArg.str req.URL, LogArg.str req.ReqType]) ∧
    ((rebuildCount s' = rebuildCount s ∧ s'.cycleIndex = s.cycleIndex) ∨
      (rebuildCount s < rebuildCount s' ∧ s'.cycleIndex = 0))
  | [], s, s', h => by
    simp only [processAll, pure_eq_ok, Except.ok.injEq] at h
    rw [← h]
    exact ⟨by simp, Or.inl ⟨rfl, rfl⟩⟩
  | req :: rest, s, s', h => by
    simp only [processAll] at h
    cases h1 : processRequest s req with
    | error e => rw [h1] at h; simp at h
    | ok s1 =>
      rw [h1] at h
      simp only [ok_bind] at h
      obtain ⟨p1, c1, _⟩ := processRequest_summary s req s1 h1
      obtain ⟨p2, c2⟩ := processAll_summary rest s1 s' h
      refine ⟨by rw [p2, p1]; simp, ?_⟩
      rcases c1 with ⟨r1, i1⟩ | ⟨r1, i1⟩ <;> rcases c2 with ⟨r2, i2⟩ | ⟨r2, i2⟩
      · exact Or.inl ⟨r2.trans r1, i2.trans i1⟩
      · exact Or.inr ⟨by omega, i2⟩
      · exact Or.inr ⟨by omega, i2.trans i1⟩
      · exact Or.inr ⟨by omega, i2⟩

theorem ManualSync_unfold (s : SyncService) :
    ManualSync s = (processAll (s.logf "Manual sync triggered" []) s.requests >>= fun s1 =>
      Except.ok (s1.logf "Manual sync completed: processed %d requests"
        [LogArg.int s.requests.length], none)) := by
  simp only [ManualSync, SyncService.requests, SyncService.logf, List.length_map]
  rfl

theorem ManualSync_summary (s s' : SyncService) (e : Option Str)
    (h : ManualSync s = Except.ok (s', e)) :
    e = none ∧
    s'.processed =
      s.processed ++ s.requests.map (fun req => [LogArg.str req.URL, LogArg.str req.ReqType]) ∧
    ((rebuildCount s' = rebuildCount s ∧ s'.cycleIndex = s.cycleIndex) ∨
      (rebuildCount s < rebuildCount s' ∧ s'.cycleIndex = 0)) := by
  rw [ManualSync_unfold] at h
  cases h1 : processAll (s.logf "Manual sync triggered" []) s.requests with
  | error err => rw [h1] at h; simp at h
  | ok s1 =>
    rw [h1] at h
    simp only [ok_bind, Except.ok.injEq, Prod.mk.injEq] at h
    obtain ⟨p, c⟩ := processAll_summary s.requests _ s1 h1
    have q0 := quiet_logf s "Manual sync triggered" [] (by decide)
    have q1 := quiet_logf s1 "Manual sync completed: processed %d requests"
      [LogArg.int s.requests.length] (by decide)
    rw [h.1] at q1
    have t0 := q0.2.2.2.2.2.2.2
    have t1 := q1.2.2.2.2.2.2.2
    have hp0 : (s.logf "Manual sync triggered" []).processed = s.processed := by
      rw [processed_eq_trace, processed_eq_trace s, t0]
    have hp1 : s'.processed = s1.processed := by
      rw [processed_eq_trace, processed_eq_trace s1, t1]
    have hr0 : rebuildCount (s.logf "Manual sync triggered" []) = rebuildCount s := by
      rw [rebuildCount_eq_trace, rebuildCount_eq_trace s, t0]
    have hr1 : rebuildCount s' = rebuildCount s1 := by
      rw [rebuildCount_eq_trace, rebuildCount_eq_trace s1, t1]
    refine ⟨h.2.symm, by rw [hp1, p, hp0], ?_⟩
    rw [hr1, q1.2.1]
    rw [hr0] at c
    exact c

/-- C16: `ManualSync` drains the snapshot it takes on entry. It is the drain
loop run on the requests that the recipes of the cycle produce at invocation,
in cycle order; and when it returns, the calls of `processRequest` it made are
exactly these requests, one call each, in this order, whatever retries or
rebuilds added to the cycle meanwhile. -/
theorem C16_manual_sync_drains_snapshot (s s' : SyncService) (e : Option Str)
    (h : ManualSync s = Except.ok (s', e)) :
    ManualSync s = (processAll (s.logf "Manual sync triggered" []) s.requests >>= fun s1 =>
      Except.ok (s1.logf "Manual sync completed: processed %d requests"
        [LogArg.int s.requests.length], none)) ∧
    s'.processed =
      s.processed ++
        s.requests.map (fun req => [LogArg.str req.URL, LogArg.str req.ReqType]) :=
  ⟨ManualSync_unfold s, (ManualSync_summary s s' e h).2.1⟩

/-- C16 at the bootstrap state without credentials: every request fails and is
reinserted, so the cycle grows from 3 to 6 recipes during the drain, and the
drain still processes the 3 requests of the snapshot. -/
theorem C16_manual_sync_drains_snapshot_witness :
    ∃ s' e, ManualSync sampleService = Except.ok (s', e) ∧
      sampleService.requestCycle.length = 3 ∧ s'.requestCycle.length = 6 ∧
      s'.processed = sampleService.processed ++
        sampleService.requests.map
          (fun req => [LogArg.str req.URL, LogArg.str req.ReqType]) :=
  ⟨_, _, rfl, rfl, rfl, (C16_manual_sync_drains_snapshot sampleService _ _ rfl).2⟩

/-- C17, counterexample: the cursor stands at 1, and the resource-list request
that `ManualSync` processes is answered with one active resource where none
was known. The rebuild this triggers resets the cursor: it is 0 when
`ManualSync` returns. -/
theorem C17_rebuild_resets_cursor_counterexample :
    listingService.cycleIndex = 1 ∧
    (ManualSync listingService >>= fun r => pure r.1.cycleIndex) = Except.ok 0 ∧
    (ManualSync listingService >>= fun r => pure (rebuildCount r.1)) =
      Except.ok (rebuildCount listingService + 1) :=
  ⟨rfl, rfl, rfl⟩

/-- C17, amended: `ManualSync` itself never moves the cursor. When it returns
and no request it processed has triggered a rebuild, `cycleIndex` is what it
was before the call; when a rebuild was triggered, the rebuild has set
`cycleIndex` to 0. -/
theorem C17_manual_sync_cursor (s s' : SyncService) (e : Option Str)
    (h : ManualSync s = Except.ok (s', e)) :
    (rebuildCount s' = rebuildCount s → s'.cycleIndex = s.cycleIndex) ∧
    (rebuildCount s' ≠ rebuildCount s → s'.cycleIndex = 0) := by
  rcases (ManualSync_summary s s' e h).2.2 with ⟨r, i⟩ | ⟨r, i⟩
  · exact ⟨fun _ => i, fun hne => absurd r hne⟩
  · exact ⟨fun heq => by omega, fun _ => i⟩

/-- C17 (amended) at the bootstrap state with the cursor on the last recipe and
no credential configured: three failures, three reinsertions, no rebuild, and
the cursor is still 2. -/
theorem C17_manual_sync_cursor_witness :
    ∃ s' e, ManualSync { sampleService with cycleIndex := 2 } = Except.ok (s', e) ∧
      rebuildCount s' = rebuildCount ({ sampleService with cycleIndex := 2 } : SyncService) ∧
      s'.cycleIndex = 2 :=
  ⟨_, _, rfl, rfl,
    (C17_manual_sync_cursor { sampleService with cycleIndex := 2 } _ _ rfl).1 rfl⟩

/-- C18, counterexample: no credential is configured, so each of the three
requests `ManualSync` processes fails before any network call and goes to
`retryRequest`; `ManualSync` still returns `nil`. -/
theorem C18_failures_not_reported_counterexample :
    (ManualSync sampleService >>= fun r =>
      pure (r.2, retryCalls r.1, r.1.net.sent.length, r.1.processed.length)) =
      Except.ok (none, 3, 0, 3) :=
  rfl

/-- C18, amended: whenever `ManualSync` returns, the error it returns is `nil`,
whatever happened to the requests it processed. -/
theorem C18_manual_sync_returns_nil (s s' : SyncService) (e : Option Str)
    (h : ManualSync s = Except.ok (s', e)) : e = none :=
  (ManualSync_summary s s' e h).1

/-- C18 (amended) at the state in which the upstream answers the resource list
and fails the other two requests. -/
theorem C18_manual_sync_returns_nil_witness :
    ∃ s' e, ManualSync listingService = Except.ok (s', e) ∧ retryCalls s' = 2 ∧ e = none :=
  ⟨_, _, rfl, rfl, C18_manual_sync_returns_nil listingService _ _ rfl⟩

/-! ### The request executor -/

theorem processRequest_unbuilt (s : SyncService) (req : SyncRequest)
    (hreq : s.requestOk req.Method req.URL = false) :
    processRequest s req =
      retryRequest ((began s req).logf "Error creating request for %s: %v"
        [LogArg.str req.URL, LogArg.err]) req := by
  simp [processRequest, began, SyncService.logf, hreq]

theorem processRequest_nokey (s : SyncService) (req : SyncRequest) (r : Acquired)
    (hreq : s.requestOk req.Method req.URL = true)
    (hkey : GetLeastRecentlyUsedKey s.lruKeyManager s.clock = Except.ok r)
    (hnone : r.key = []) :
    processRequest s req =
      retryRequest ((keyed s req r).logf "No API key available for request %s"
        [LogArg.str req.URL]) req := by
  simp [processRequest, keyed, began, SyncService.logf, hreq, hkey, hnone]

theorem processRequest_transport (s : SyncService) (req : SyncRequest) (r : Acquired)
    (hreq : s.requestOk req.Method req.URL = true)
    (hkey : GetLeastRecentlyUsedKey s.lruKeyManager s.clock = Except.ok r)
    (hne : r.key ≠ []) (hreply : s.net.replies.head?.join = none) :
    processRequest s req =
      retryRequest ((called s req r).logf "Error making request to %s: %v"
        [LogArg.str req.URL, LogArg.err]) req := by
  have hreply' : (s.net.replies.head?.bind fun a => a) = none := hreply
  simp [processRequest, called, theCall, keyed, began, SyncService.logf, SyncService.clientDo,
    hreq, hkey, hne, hreply']

theorem processRequest_answered (s : SyncService) (req : SyncRequest) (r : Acquired)
    (resp : HttpResponse) (hreq : s.requestOk req.Method req.URL = true)
    (hkey : GetLeastRecentlyUsedKey s.lruKeyManager s.clock = Except.ok r)
    (hne : r.key ≠ []) (hreply : s.net.replies.head?.join = some resp) :
    processRequest s req =
      if resp.StatusCode ≠ 200 then
        if resp.StatusCode = 401 ∨ resp.StatusCode = 404 then
          Except.ok ((called s req r).logf
            "API returned permanent error %s for %s - skipping retries"
            [LogArg.str resp.Status, LogArg.str req.URL])
        else
          retryRequest ((called s req r).logf "API returned status %s for %s"
            [LogArg.str resp.Status, LogArg.str req.URL]) req
      else dispatch (called s req r) req resp := by
  have hreply' : s.net.replies.head?.bind id = some resp := hreply
  simp only [processRequest, called, theCall, keyed, began, SyncService.logf,
    SyncService.clientDo, hreq, hkey, hne, Option.join, hreply', ok_bind, if_false,
    Bool.true_eq_false]
  rfl

theorem began_quiet_counts (s : SyncService) (req : SyncRequest) :
    retryCalls (began s req) = retryCalls s ∧ rebuildCount (began s req) = rebuildCount s := by
  simp [retryCalls, rebuildCount, began, SyncService.logf, List.countP_append,
    retryingFmt, exhaustedFmt, rebuiltFmt]

theorem quiet_counts {s s' : SyncService} (h : Quiet s s') :
    retryCalls s' = retryCalls s ∧ rebuildCount s' = rebuildCount s ∧
      s'.processed = s.processed := by
  have t := h.2.2.2.2.2.2.2
  exact ⟨by rw [retryCalls_eq_trace, retryCalls_eq_trace s, t],
    by rw [rebuildCount_eq_trace, rebuildCount_eq_trace s, t],
    by rw [processed_eq_trace, processed_eq_trace s, t]⟩

theorem keyed_quiet (s : SyncService) (req : SyncRequest) (r : Acquired)
    (hkey : GetLeastRecentlyUsedKey s.lruKeyManager s.clock = Except.ok r) :
    Quiet (began s req) (keyed s req r) :=
  quiet_acquired (began s req) r (acquire_logs_untracked _ _ r hkey)

theorem called_quiet (s : SyncService) (req : SyncRequest) (r : Acquired)
    (hkey : GetLeastRecentlyUsedKey s.lruKeyManager s.clock = Except.ok r) :
    Quiet (began s req) (called s req r) :=
  (keyed_quiet s req r hkey).trans (quiet_clientDo _ _)

/-- A returning call of `retryRequest` changes the cycle and appends its one
log line, nothing else. -/
theorem retryRequest_shape (t : SyncService) (req : SyncRequest) (t' : SyncService)
    (h : retryRequest t req = Except.ok t') :
    ∃ cycle line, t' = { t with requestCycle := cycle, logs := t.logs ++ [line] } ∧
      (line.fmt = retryingFmt ∨ line.fmt = exhaustedFmt) := by
  by_cases hlt : req.RetryCount < req.MaxRetries
  · simp only [retryRequest, hlt, if_true, ok_bind] at h
    split at h
    · cases h1 : sliceTo t.requestCycle t.cycleIndex with
      | error e =>
        simp only [SyncService.logf] at h
        rw [h1] at h
        simp at h
      | ok front =>
        cases h2 : sliceFrom t.requestCycle t.cycleIndex with
        | error e =>
          simp only [SyncService.logf] at h
          rw [h1, h2] at h
          simp at h
        | ok back =>
          simp only [SyncService.logf] at h
          rw [h1, h2] at h
          simp only [ok_bind, pure_eq_ok, Except.ok.injEq] at h
          exact ⟨_, ⟨retryingFmt, _⟩, h.symm, Or.inl rfl⟩
    · simp only [pure_eq_ok, Except.ok.injEq] at h
      exact ⟨t.requestCycle, ⟨retryingFmt, _⟩, h.symm, Or.inl rfl⟩
  · rw [retryRequest_exhausted t req (Int.not_lt.mp hlt)] at h
    simp only [Except.ok.injEq] at h
    exact ⟨t.requestCycle, ⟨exhaustedFmt, _⟩, h.symm, Or.inr rfl⟩

theorem retryRequest_counts (t : SyncService) (req : SyncRequest) (t' : SyncService)
    (h : retryRequest t req = Except.ok t') :
    retryCalls t' = retryCalls t + 1 ∧ rebuildCount t' = rebuildCount t ∧
    t'.processed = t.processed ∧ t'.db = t.db ∧ t'.serverIDs = t.serverIDs ∧
    t'.net = t.net ∧ t'.lruKeyManager = t.lruKeyManager ∧ t'.cycleIndex = t.cycleIndex := by
  obtain ⟨cycle, line, rfl, hf⟩ := retryRequest_shape t req t' h
  have h1 : (decide (line.fmt = retryingFmt) || decide (line.fmt = exhaustedFmt)) = true := by
    rcases hf with hf | hf <;> simp [hf]
  have h2 : line.fmt ≠ rebuiltFmt := by
    rcases hf with hf | hf <;> rw [hf] <;> decide
  have h3 : line.fmt ≠ processingFmt := by
    rcases hf with hf | hf <;> rw [hf] <;> decide
  refine ⟨?_, ?_, ?_, rfl, rfl, rfl, rfl, rfl⟩
  · simp only [retryCalls, List.countP_append, List.countP_cons, List.countP_nil, h1, if_true]
  · simp [rebuildCount, List.countP_append, h2]
  · simp [SyncService.processed, List.filter_append, h3]

/-- When `processRequest` hands the item to `retryRequest` from a state that
differs from the initial one by untracked log lines, rotator and network only,
a returning call has made exactly one retry call and no reconciler has run:
no rebuild, and store and Known-Resource Set are untouched. -/
theorem retry_route (s t : SyncService) (req : SyncRequest) (hq : Quiet (began s req) t)
    (hdb : t.db = s.db) (he : processRequest s req = retryRequest t req) (s' : SyncService)
    (h : processRequest s req = Except.ok s') :
    retryCalls s' = retryCalls s + 1 ∧ rebuildCount s' = rebuildCount s ∧ s'.db = s.db ∧
    s'.serverIDs = s.serverIDs ∧ s'.cycleIndex = s.cycleIndex := by
  rw [he] at h
  obtain ⟨c1, c2, _, c4, c5, _, _, c8⟩ := retryRequest_counts t req s' h
  obtain ⟨q1, q2, _⟩ := quiet_counts hq
  obtain ⟨b1, b2⟩ := began_quiet_counts s req
  exact ⟨by rw [c1, q1, b1], by rw [c2, q2, b2], c4.trans hdb, c5.trans hq.2.2.1,
    c8.trans hq.2.1⟩

/-! ### Permanent rejections -/

/-- C13: when the request has been built, the rotator has handed out a
credential and the upstream answers with status 401 or 404, `processRequest`
returns after logging the rejection: `retryRequest` is not called, the cycle
and the cursor are unchanged, and no reconciler runs (no rebuild, store and
Known-Resource Set untouched, the one call sent is the item itself), whatever
the `RetryCount` and `MaxRetries` of the item. -/
theorem C13_permanent_rejection_no_retry (s : SyncService) (req : SyncRequest) (r : Acquired)
    (resp : HttpResponse) (hreq : s.requestOk req.Method req.URL = true)
    (hkey : GetLeastRecentlyUsedKey s.lruKeyManager s.clock = Except.ok r)
    (hne : r.key ≠ []) (hreply : s.net.replies.head?.join = some resp)
    (hcode : resp.StatusCode = 401 ∨ resp.StatusCode = 404) :
    ∃ s', processRequest s req = Except.ok s' ∧
      retryCalls s' = retryCalls s ∧
      s'.requestCycle = s.requestCycle ∧ s'.requestCycle.length = s.requestCycle.length ∧
      s'.cycleIndex = s.cycleIndex ∧
      rebuildCount s' = rebuildCount s ∧ s'.db = s.db ∧ s'.serverIDs = s.serverIDs ∧
      s'.net.sent = s.net.sent ++ [theCall req r] ∧
      s'.logs = s.logs ++ [⟨"Processing: %s (%s)", [LogArg.str req.URL, LogArg.str req.ReqType]⟩]
        ++ r.logs ++ [⟨"API returned permanent error %s for %s - skipping retries",
          [LogArg.str resp.Status, LogArg.str req.URL]⟩] := by
  have he := processRequest_answered s req r resp hreq hkey hne hreply
  have hcode' : resp.StatusCode ≠ 200 := by
    rcases hcode with h | h <;> rw [h] <;> decide
  rw [if_pos hcode', if_pos hcode] at he
  have hq : Quiet (began s req)
      ((called s req r).logf "API returned permanent error %s for %s - skipping retries"
        [LogArg.str resp.Status, LogArg.str req.URL]) :=
    (called_quiet s req r hkey).trans (quiet_logf _ _ _ (by decide))
  obtain ⟨q1, q2, _⟩ := quiet_counts hq
  obtain ⟨b1, b2⟩ := began_quiet_counts s req
  refine ⟨_, he, by rw [q1, b1], rfl, rfl, rfl, by rw [q2, b2], rfl, rfl, rfl, rfl⟩

/-- C13 at the keyed bootstrap state with a 404 answer to the resource-list
request. -/
theorem C13_permanent_rejection_no_retry_witness :
    ∃ r, GetLeastRecentlyUsedKey rejectingService.lruKeyManager rejectingService.clock
        = Except.ok r ∧ r.key ≠ [] ∧
      ∃ s', processRequest rejectingService sampleRequest = Except.ok s' ∧
        retryCalls s' = retryCalls rejectingService ∧
        s'.requestCycle = rejectingService.requestCycle ∧
        s'.requestCycle.length = rejectingService.requestCycle.length ∧
        s'.cycleIndex = rejectingService.cycleIndex ∧
        rebuildCount s' = rebuildCount rejectingService ∧ s'.db = rejectingService.db ∧
        s'.serverIDs = rejectingService.serverIDs ∧
        s'.net.sent = rejectingService.net.sent ++ [theCall sampleRequest r] ∧
        s'.logs = rejectingService.logs
          ++ [⟨"Processing: %s (%s)",
            [LogArg.str sampleRequest.URL, LogArg.str sampleRequest.ReqType]⟩]
          ++ r.logs ++ [⟨"API returned permanent error %s for %s - skipping retries",
            [LogArg.str "404 Not Found".toList, LogArg.str sampleRequest.URL]⟩] :=
  ⟨_, rfl, List.cons_ne_nil _ _,
    C13_permanent_rejection_no_retry rejectingService sampleRequest _
      ⟨404, "404 Not Found".toList, []⟩ rfl rfl (List.cons_ne_nil _ _) rfl (Or.inr rfl)⟩

/-! ### Routing to the retry policy -/

theorem processRequest_keyfault (s : SyncService) (req : SyncRequest) (e : Fault)
    (hreq : s.requestOk req.Method req.URL = true)
    (hkey : GetLeastRecentlyUsedKey s.lruKeyManager s.clock = Except.error e) :
    processRequest s req = Except.error e := by
  simp only [processRequest, SyncService.logf, hreq, hkey, Bool.true_eq_false, if_false]
  rfl

theorem reconciled_retryCalls {s s' : SyncService} (h : Reconciled s s') :
    retryCalls s' = retryCalls s := by
  obtain ⟨_, _, _, _, hc⟩ := h
  rw [retryCalls_eq_trace s', retryCalls_eq_trace s]
  rcases hc with ⟨t, _, _⟩ | ⟨line, t, hf, _⟩
  · rw [t]
  · rw [t, List.countP_append]
    simp [hf, rebuiltFmt, retryingFmt, exhaustedFmt]

theorem routed (s t : SyncService) (req : SyncRequest) (hq : Quiet (began s req) t)
    (hdb : t.db = s.db) (he : processRequest s req = retryRequest t req) (s' : SyncService)
    (h : processRequest s req = Except.ok s') : RoutedToRetry s req t s' := by
  obtain ⟨a, b, c, d, _⟩ := retry_route s t req hq hdb he s' h
  exact ⟨he ▸ h, a, b, c, d⟩

/-- C15 (counterexample): a retry outside the three listed cases. The
management URL holds an invalid escape, so the request cannot be built; a
credential is available and the upstream would answer 200, yet the item is
routed to `retryRequest` once, with no network call and the rotator left
alone. -/
theorem C15_unbuildable_request_counterexample :
    (GetLeastRecentlyUsedKey brokenURLService.lruKeyManager brokenURLService.clock >>=
        fun r => pure r.key) = Except.ok "key1_12345678".toList ∧
    brokenURLService.net.replies.head?.join = some ⟨200, "200 OK".toList, []⟩ ∧
    ∃ s', processRequest brokenURLService (serversRecipe brokenURLService.managementURL ())
        = Except.ok s' ∧
      retryCalls brokenURLService = 0 ∧ retryCalls s' = 1 ∧
      s'.net = brokenURLService.net ∧
      s'.lruKeyManager = brokenURLService.lruKeyManager ∧
      s'.logs.map (fun line => line.fmt) =
        ["Processing: %s (%s)", "Error creating request for %s: %v",
         "Retrying request %s (attempt %d/%d) - will retry on next cycle"] :=
  ⟨rfl, rfl, _, rfl, by decide, by decide, rfl, rfl, by decide⟩

/-- C15 (amended): a returning call of `processRequest` falls in exactly one
of six cases, told apart by whether the request could be built, what the
rotator handed out and what the upstream answered. In four of them the item is
routed to `retryRequest` exactly once and no reconciler runs: the request
cannot be built (no rotator call, no network call), no credential is available
(no network call), the network call fails at transport level, or the status is
none of 200, 401 and 404. On 401 or 404 there is no call of `retryRequest`. On
200 the result is that of the `switch` on the item's type, and `retryRequest`
is not called. -/
theorem C15_retry_routing (s : SyncService) (req : SyncRequest) (s' : SyncService)
    (h : processRequest s req = Except.ok s') :
    (s.requestOk req.Method req.URL = false ∧ s'.net = s.net ∧
        s'.lruKeyManager = s.lruKeyManager ∧
        RoutedToRetry s req ((began s req).logf "Error creating request for %s: %v"
          [LogArg.str req.URL, LogArg.err]) s') ∨
    (s.requestOk req.Method req.URL = true ∧
      ∃ r, GetLeastRecentlyUsedKey s.lruKeyManager s.clock = Except.ok r ∧
        ((r.key = [] ∧ s'.net = s.net ∧
            RoutedToRetry s req ((keyed s req r).logf "No API key available for request %s"
              [LogArg.str req.URL]) s') ∨
         (r.key ≠ [] ∧ s.net.replies.head?.join = none ∧
            s'.net.sent = s.net.sent ++ [theCall req r] ∧
            RoutedToRetry s req ((called s req r).logf "Error making request to %s: %v"
              [LogArg.str req.URL, LogArg.err]) s') ∨
         (r.key ≠ [] ∧ ∃ resp, s.net.replies.head?.join = some resp ∧
            ((resp.StatusCode ≠ 200 ∧ resp.StatusCode ≠ 401 ∧ resp.StatusCode ≠ 404 ∧
                s'.net.sent = s.net.sent ++ [theCall req r] ∧
                RoutedToRetry s req ((called s req r).logf "API returned status %s for %s"
                  [LogArg.str resp.Status, LogArg.str req.URL]) s') ∨
             ((resp.StatusCode = 401 ∨ resp.StatusCode = 404) ∧
                retryCalls s' = retryCalls s ∧
                s' = (called s req r).logf
                  "API returned permanent error %s for %s - skipping retries"
                  [LogArg.str resp.Status, LogArg.str req.URL]) ∨
             (resp.StatusCode = 200 ∧
                dispatch (called s req r) req resp = Except.ok s' ∧
                retryCalls s' = retryCalls s))))) := by
  cases hreq : s.requestOk req.Method req.URL with
  | false =>
    left
    have he := processRequest_unbuilt s req hreq
    have hr := routed s _ req (quiet_logf (began s req) _ _ (by decide)) rfl he s' h
    obtain ⟨_, _, _, _, _, n, l, _⟩ := retryRequest_counts _ req s' hr.1
    exact ⟨rfl, n, l, hr⟩
  | true =>
    right
    refine ⟨rfl, ?_⟩
    cases hkey : GetLeastRecentlyUsedKey s.lruKeyManager s.clock with
    | error e =>
      rw [processRequest_keyfault s req e hreq hkey] at h
      cases h
    | ok r =>
      refine ⟨r, rfl, ?_⟩
      by_cases hnone : r.key = []
      · left
        have he := processRequest_nokey s req r hreq hkey hnone
        have hr := routed s _ req
          ((keyed_quiet s req r hkey).trans (quiet_logf _ _ _ (by decide))) rfl he s' h
        obtain ⟨_, _, _, _, _, n, _, _⟩ := retryRequest_counts _ req s' hr.1
        exact ⟨hnone, n, hr⟩
      · right
        cases hreply : s.net.replies.head?.join with
        | none =>
          left
          have he := processRequest_transport s req r hreq hkey hnone hreply
          have hr := routed s _ req
            ((called_quiet s req r hkey).trans (quiet_logf _ _ _ (by decide))) rfl he s' h
          obtain ⟨_, _, _, _, _, n, _, _⟩ := retryRequest_counts _ req s' hr.1
          exact ⟨hnone, rfl, by rw [n]; rfl, hr⟩
        | some resp =>
          right
          refine ⟨hnone, resp, rfl, ?_⟩
          have he := processRequest_answered s req r resp hreq hkey hnone hreply
          by_cases h200 : resp.StatusCode = 200
          · rw [if_neg (not_not.mpr h200)] at he
            have hd : dispatch (called s req r) req resp = Except.ok s' := he ▸ h
            have hrec := dispatch_reconciled _ req resp s' hd
            have hq := called_quiet s req r hkey
            have hc : retryCalls s' = retryCalls s := by
              rw [reconciled_retryCalls hrec, (quiet_counts hq).1, (began_quiet_counts s req).1]
            exact Or.inr (Or.inr ⟨h200, hd, hc⟩)
          · rw [if_pos h200] at he
            by_cases hperm : resp.StatusCode = 401 ∨ resp.StatusCode = 404
            · rw [if_pos hperm] at he
              have hs : s' = (called s req r).logf
                  "API returned permanent error %s for %s - skipping retries"
                  [LogArg.str resp.Status, LogArg.str req.URL] := by
                rw [he] at h
                exact (Except.ok.inj h).symm
              have hq : Quiet (began s req) s' := by
                rw [hs]
                exact (called_quiet s req r hkey).trans (quiet_logf _ _ _ (by decide))
              have hc : retryCalls s' = retryCalls s := by
                rw [(quiet_counts hq).1, (began_quiet_counts s req).1]
              exact Or.inr (Or.inl ⟨hperm, hc, hs⟩)
            · rw [if_neg hperm] at he
              have hr := routed s _ req
                ((called_quiet s req r hkey).trans (quiet_logf _ _ _ (by decide))) rfl he s' h
              obtain ⟨_, _, _, _, _, n, _, _⟩ := retryRequest_counts _ req s' hr.1
              exact Or.inl ⟨h200, fun c => hperm (Or.inl c), fun c => hperm (Or.inr c),
                by rw [n]; rfl, hr⟩

/-- C15 (amended) at the keyed bootstrap state with no answer from the
upstream: the call returns, and it is classified. -/
theorem C15_retry_routing_witness :
    ∃ s', processRequest keyedService sampleRequest = Except.ok s' ∧
    ((keyedService.requestOk sampleRequest.Method sampleRequest.URL = false ∧
        s'.net = keyedService.net ∧ s'.lruKeyManager = keyedService.lruKeyManager ∧
        RoutedToRetry keyedService sampleRequest
          ((began keyedService sampleRequest).logf "Error creating request for %s: %v"
            [LogArg.str sampleRequest.URL, LogArg.err]) s') ∨
    (keyedService.requestOk sampleRequest.Method sampleRequest.URL = true ∧
      ∃ r, GetLeastRecentlyUsedKey keyedService.lruKeyManager keyedService.clock
          = Except.ok r ∧
        ((r.key = [] ∧ s'.net = keyedService.net ∧
            RoutedToRetry keyedService sampleRequest
              ((keyed keyedService sampleRequest r).logf
                "No API key available for request %s" [LogArg.str sampleRequest.URL]) s') ∨
         (r.key ≠ [] ∧ keyedService.net.replies.head?.join = none ∧
            s'.net.sent = keyedService.net.sent ++ [theCall sampleRequest r] ∧
            RoutedToRetry keyedService sampleRequest
              ((called keyedService sampleRequest r).logf "Error making request to %s: %v"
                [LogArg.str sampleRequest.URL, LogArg.err]) s') ∨
         (r.key ≠ [] ∧ ∃ resp, keyedService.net.replies.head?.join = some resp ∧
            ((resp.StatusCode ≠ 200 ∧ resp.StatusCode ≠ 401 ∧ resp.StatusCode ≠ 404 ∧
                s'.net.sent = keyedService.net.sent ++ [theCall sampleRequest r] ∧
                RoutedToRetry keyedService sampleRequest
                  ((called keyedService sampleRequest r).logf
                    "API returned status %s for %s"
                    [LogArg.str resp.Status, LogArg.str sampleRequest.URL]) s') ∨
             ((resp.StatusCode = 401 ∨ resp.StatusCode = 404) ∧
                retryCalls s' = retryCalls keyedService ∧
                s' = (called keyedService sampleRequest r).logf
                  "API returned permanent error %s for %s - skipping retries"
                  [LogArg.str resp.Status, LogArg.str sampleRequest.URL]) ∨
             (resp.StatusCode = 200 ∧
                dispatch (called keyedService sampleRequest r) sampleRequest resp
                  = Except.ok s' ∧
                retryCalls s' = retryCalls keyedService)))))) :=
  ⟨_, rfl, C15_retry_routing keyedService sampleRequest _ rfl⟩

/-! ### A rejected item stays in the cycle -/

/-- What a selection that returns an item has done. -/
theorem selectNext_some (s : SyncService) (req : SyncRequest) (s1 : SyncService)
    (h : selectNext s = Except.ok (some req, s1)) :
    ∃ recipe, 0 ≤ s.cycleIndex ∧ s.requestCycle[s.cycleIndex.toNat]? = some recipe ∧
      recipe () = req ∧
      s1 = { s with cycleIndex := (s.cycleIndex + 1).tmod (s.requestCycle.length : Int) } := by
  simp only [selectNext] at h
  split at h
  · simp only [pure_eq_ok, Except.ok.injEq, Prod.mk.injEq] at h
    exact absurd h.1 (by simp)
  · by_cases h0 : 0 ≤ s.cycleIndex
    · cases hr : s.requestCycle[s.cycleIndex.toNat]? with
      | none =>
        simp [indexAt, h0, hr] at h
      | some recipe =>
        simp only [indexAt, h0, hr, if_true, pure_eq_ok, ok_bind, Except.ok.injEq,
          Prod.mk.injEq, Option.some.injEq] at h
        exact ⟨recipe, h0, rfl, h.1, h.2.symm⟩
    · simp [indexAt, h0] at h

/-- The state after a 401 or 404 answer. -/
theorem processRequest_rejected (s : SyncService) (req : SyncRequest) (r : Acquired)
    (resp : HttpResponse) (hreq : s.requestOk req.Method req.URL = true)
    (hkey : GetLeastRecentlyUsedKey s.lruKeyManager s.clock = Except.ok r)
    (hne : r.key ≠ []) (hreply : s.net.replies.head?.join = some resp)
    (hcode : resp.StatusCode = 401 ∨ resp.StatusCode = 404) :
    ∃ s', processRequest s req = Except.ok s' ∧ retryCalls s' = retryCalls s ∧
      rebuildCount s' = rebuildCount s ∧ s'.requestCycle = s.requestCycle ∧
      s'.cycleIndex = s.cycleIndex := by
  have he := processRequest_answered s req r resp hreq hkey hne hreply
  have hcode' : resp.StatusCode ≠ 200 := by
    rcases hcode with h | h <;> rw [h] <;> decide
  rw [if_pos hcode', if_pos hcode] at he
  have hq : Quiet (began s req)
      ((called s req r).logf "API returned permanent error %s for %s - skipping retries"
        [LogArg.str resp.Status, LogArg.str req.URL]) :=
    (called_quiet s req r hkey).trans (quiet_logf _ _ _ (by decide))
  obtain ⟨q1, q2, _⟩ := quiet_counts hq
  obtain ⟨b1, b2⟩ := began_quiet_counts s req
  exact ⟨_, he, by rw [q1, b1], by rw [q2, b2], rfl, rfl⟩

/-- C14 (counterexample): four ticks from the keyed bootstrap state, each
answered with 404. The fourth tick dispatches the resource-list request that
the first tick had dispatched and that had been rejected, and no rebuild and no
retry has happened in between. -/
theorem C14_rejected_item_dispatched_again_counterexample :
    (ticks 4 refusingService >>= fun s' =>
      pure (s'.net.sent.map (fun call => call.url), rebuildCount s', retryCalls s',
        decide (s'.requests = refusingService.requests), s'.cycleIndex)) =
      Except.ok
        (["https://upstream.example/api/servers".toList,
          "https://upstream.example/api/operating-systems".toList,
          "https://upstream.example/api/apps".toList,
          "https://upstream.example/api/servers".toList], 0, 0, true, 1) ∧
    rebuildCount refusingService = 0 :=
  ⟨rfl, rfl⟩

/-- C14 (amended): a tick whose item is answered with 401 or 404 leaves the
cycle as it was, without rebuild and without retry: the recipe that produced
the item is still at the position the cursor had, and every later selection
that finds the cursor at that position on the unchanged cycle dispatches the
item again. -/
theorem C14_rejected_recipe_stays (s s1 : SyncService) (req : SyncRequest) (r : Acquired)
    (resp : HttpResponse) (hsel : selectNext s = Except.ok (some req, s1))
    (hreq : s1.requestOk req.Method req.URL = true)
    (hkey : GetLeastRecentlyUsedKey s1.lruKeyManager s1.clock = Except.ok r)
    (hne : r.key ≠ []) (hreply : s1.net.replies.head?.join = some resp)
    (hcode : resp.StatusCode = 401 ∨ resp.StatusCode = 404) :
    ∃ s2, tick s = Except.ok s2 ∧ s2.requestCycle = s.requestCycle ∧
      rebuildCount s2 = rebuildCount s ∧ retryCalls s2 = retryCalls s ∧
      s2.cycleIndex = (s.cycleIndex + 1).tmod (s.requestCycle.length : Int) ∧
      (∃ recipe, s2.requestCycle[s.cycleIndex.toNat]? = some recipe ∧ recipe () = req) ∧
      ∀ u : SyncService, u.requestCycle = s2.requestCycle → u.cycleIndex = s.cycleIndex →
        ∃ u', selectNext u = Except.ok (some req, u') := by
  obtain ⟨recipe, h0, hr, hrq, hs1⟩ := selectNext_some s req s1 hsel
  obtain ⟨s2, hp, c1, c2, c3, c4⟩ :=
    processRequest_rejected s1 req r resp hreq hkey hne hreply hcode
  have ht : tick s = Except.ok s2 := by
    simp only [tick, hsel, ok_bind]
    exact hp
  subst hs1
  have c3' : s2.requestCycle = s.requestCycle := c3
  refine ⟨s2, ht, c3', c2, c1, c4, ⟨recipe, by rw [c3']; exact hr, hrq⟩, ?_⟩
  intro u hu hc
  have hk : u.cycleIndex = ((s.cycleIndex.toNat : Nat) : Int) := by
    rw [hc, Int.toNat_of_nonneg h0]
  have hr' : u.requestCycle[s.cycleIndex.toNat]? = some recipe := by
    rw [hu, c3']; exact hr
  exact ⟨_, hrq ▸ selectNext_at u s.cycleIndex.toNat recipe hk hr'⟩

/-- C14 (amended) at the keyed bootstrap state with a 404 answer to the
resource-list request. -/
theorem C14_rejected_recipe_stays_witness :
    ∃ s1 r, selectNext rejectingService = Except.ok (some sampleRequest, s1) ∧
      GetLeastRecentlyUsedKey s1.lruKeyManager s1.clock = Except.ok r ∧ r.key ≠ [] ∧
      ∃ s2, tick rejectingService = Except.ok s2 ∧
        s2.requestCycle = rejectingService.requestCycle ∧
        rebuildCount s2 = rebuildCount rejectingService ∧
        retryCalls s2 = retryCalls rejectingService ∧
        s2.cycleIndex = (rejectingService.cycleIndex + 1).tmod
          (rejectingService.requestCycle.length : Int) ∧
        (∃ recipe, s2.requestCycle[rejectingService.cycleIndex.toNat]? = some recipe ∧
          recipe () = sampleRequest) ∧
        ∀ u : SyncService, u.requestCycle = s2.requestCycle →
          u.cycleIndex = rejectingService.cycleIndex →
          ∃ u', selectNext u = Except.ok (some sampleRequest, u') :=
  ⟨_, _, rfl, rfl, List.cons_ne_nil _ _,
    C14_rejected_recipe_stays rejectingService _ sampleRequest _
      ⟨404, "404 Not Found".toList, []⟩ rfl rfl rfl (List.cons_ne_nil _ _) rfl (Or.inr rfl)⟩

/-! ### The rebuilt cycle -/

theorem requests_rebuild (s : SyncService) :
    (rebuildRequestCycle s).requests =
      [serversRecipe s.managementURL (), osTypesRecipe s.managementURL ()] ++
        s.serverIDs.flatMap fun id => [serverDetailRecipe s.managementURL id (),
          rootPasswordRecipe s.managementURL id (),
          consoleCredentialsRecipe s.managementURL id ()] := by
  simp only [SyncService.requests, rebuildRequestCycle, SyncService.logf, targets_append]
  rfl

theorem triples_getElem {α : Type} (f g h : Int → α) : ∀ (ids : List Int) (k : Nat) (id : Int),
    ids[k]? = some id →
    (ids.flatMap fun id => [f id, g id, h id])[3 * k]? = some (f id) ∧
    (ids.flatMap fun id => [f id, g id, h id])[3 * k + 1]? = some (g id) ∧
    (ids.flatMap fun id => [f id, g id, h id])[3 * k + 2]? = some (h id)
  | [], k, id, hk => by simp at hk
  | a :: ids, 0, id, hk => by
    simp only [List.getElem?_cons_zero, Option.some.injEq] at hk
    subst hk
    simp [List.flatMap_cons]
  | a :: ids, k + 1, id, hk => by
    simp only [List.getElem?_cons_succ] at hk
    obtain ⟨h0, h1, h2⟩ := triples_getElem f g h ids k id hk
    have e0 : 3 * (k + 1) = 3 * k + 3 := by omega
    have e1 : 3 * (k + 1) + 1 = 3 * k + 1 + 3 := by omega
    have e2 : 3 * (k + 1) + 2 = 3 * k + 2 + 3 := by omega
    simp only [List.flatMap_cons, List.cons_append, List.nil_append]
    rw [e1, e2, e0]
    simp only [List.getElem?_cons_succ]
    exact ⟨h0, h1, h2⟩

/-- C22: `rebuildRequestCycle` replaces the cycle wholesale. Afterwards the
cursor is 0, every recipe of the cycle yields a request with `RetryCount` 0
and `MaxRetries` 3, the new cycle does not depend on the cycle and cursor there
were before, and no request with a positive retry count, as every retry recipe
yields, is produced by it. -/
theorem C22_rebuild_replaces_cycle (s : SyncService) :
    (rebuildRequestCycle s).cycleIndex = 0 ∧
    (∀ req ∈ (rebuildRequestCycle s).requests, req.RetryCount = 0 ∧ req.MaxRetries = 3) ∧
    (∀ (cycle : List (Unit → SyncRequest)) (cursor : Int),
      (rebuildRequestCycle { s with requestCycle := cycle, cycleIndex := cursor }).requestCycle =
        (rebuildRequestCycle s).requestCycle) ∧
    (∀ req : SyncRequest, (retried req).RetryCount = req.RetryCount + 1) ∧
    (∀ req : SyncRequest, 0 < req.RetryCount → req ∉ (rebuildRequestCycle s).requests) := by
  have hall : ∀ req ∈ (rebuildRequestCycle s).requests,
      req.RetryCount = 0 ∧ req.MaxRetries = 3 := by
    intro req hreq
    rw [requests_rebuild] at hreq
    simp only [List.mem_append, List.mem_cons, List.mem_flatMap, List.mem_singleton,
      List.not_mem_nil, or_false] at hreq
    rcases hreq with (h | h) | ⟨id, _, h | h | h⟩ <;> rw [h] <;> exact ⟨rfl, rfl⟩
  refine ⟨rfl, hall, fun _ _ => rfl, fun _ => rfl, ?_⟩
  intro req hpos hmem
  have := (hall req hmem).1
  omega

/-- C24: after `rebuildRequestCycle` the requests of the cycle are the two
catalog requests followed, for each known identifier in the order of the
Known-Resource Set, by its server-detail, root-password and console-credentials
requests, each a GET with `ServerID` the identifier and the URL built from it;
the identifier at place `k` of the set is the one of the recipes at places
`2 + 3k`, `3 + 3k` and `4 + 3k`. -/
theorem C24_rebuild_per_resource_recipes (s : SyncService) (k : Nat) (id : Int)
    (hk : s.serverIDs[k]? = some id) :
    (rebuildRequestCycle s).requests =
      [serversRecipe s.managementURL (), osTypesRecipe s.managementURL ()] ++
        (s.serverIDs.flatMap fun id =>
          [{ URL := s.managementURL ++ "/servers/".toList ++ Itoa id,
             ReqType := "server-detail".toList, Method := "GET".toList, Body := [],
             ServerID := id, RetryCount := 0, MaxRetries := 3 },
           { URL := s.managementURL ++ "/servers/".toList ++ Itoa id
               ++ "/get-root-password".toList,
             ReqType := "root-password".toList, Method := "GET".toList, Body := [],
             ServerID := id, RetryCount := 0, MaxRetries := 3 },
           { URL := s.managementURL ++ "/servers/".toList ++ Itoa id
               ++ "/get-console-credentials".toList,
             ReqType := "console-credentials".toList, Method := "GET".toList, Body := [],
             ServerID := id, RetryCount := 0, MaxRetries := 3 }]) ∧
    (rebuildRequestCycle s).requests[2 + 3 * k]? = some
      { URL := s.managementURL ++ "/servers/".toList ++ Itoa id,
        ReqType := "server-detail".toList, Method := "GET".toList, Body := [],
        ServerID := id, RetryCount := 0, MaxRetries := 3 } ∧
    (rebuildRequestCycle s).requests[2 + 3 * k + 1]? = some
      { URL := s.managementURL ++ "/servers/".toList ++ Itoa id ++ "/get-root-password".toList,
        ReqType := "root-password".toList, Method := "GET".toList, Body := [],
        ServerID := id, RetryCount := 0, MaxRetries := 3 } ∧
    (rebuildRequestCycle s).requests[2 + 3 * k + 2]? = some
      { URL := s.managementURL ++ "/servers/".toList ++ Itoa id
          ++ "/get-console-credentials".toList,
        ReqType := "console-credentials".toList, Method := "GET".toList, Body := [],
        ServerID := id, RetryCount := 0, MaxRetries := 3 } := by
  obtain ⟨h0, h1, h2⟩ := triples_getElem (fun id => serverDetailRecipe s.managementURL id ())
    (fun id => rootPasswordRecipe s.managementURL id ())
    (fun id => consoleCredentialsRecipe s.managementURL id ()) s.serverIDs k id hk
  have e0 : 2 + 3 * k = 3 * k + 2 := by omega
  have e1 : 2 + 3 * k + 1 = 3 * k + 1 + 2 := by omega
  have e2 : 2 + 3 * k + 2 = 3 * k + 2 + 2 := by omega
  refine ⟨requests_rebuild s, ?_, ?_, ?_⟩
  · rw [requests_rebuild, e0]
    simp only [List.cons_append, List.nil_append, List.getElem?_cons_succ]
    exact h0
  · rw [requests_rebuild, e1]
    simp only [List.cons_append, List.nil_append, List.getElem?_cons_succ]
    exact h1
  · rw [requests_rebuild, e2]
    simp only [List.cons_append, List.nil_append, List.getElem?_cons_succ]
    exact h2

/-- C24 at the Known-Resource Set `[5, 7]`: the recipes at places 5, 6 and 7
are those of the identifier 7. -/
theorem C24_rebuild_per_resource_recipes_witness :
    (rebuildRequestCycle { sampleService with serverIDs := [5, 7] }).requests[2 + 3 * 1]? =
      some
        { URL := "https://upstream.example/api".toList ++ "/servers/".toList ++ Itoa 7,
          ReqType := "server-detail".toList, Method := "GET".toList, Body := [],
          ServerID := 7, RetryCount := 0, MaxRetries := 3 } ∧
    (rebuildRequestCycle { sampleService with serverIDs := [5, 7] }).requests[2 + 3 * 1 + 2]? =
      some
        { URL := "https://upstream.example/api".toList ++ "/servers/".toList ++ Itoa 7
            ++ "/get-console-credentials".toList,
          ReqType := "console-credentials".toList, Method := "GET".toList, Body := [],
          ServerID := 7, RetryCount := 0, MaxRetries := 3 } :=
  ⟨(C24_rebuild_per_resource_recipes { sampleService with serverIDs := [5, 7] } 1 7 rfl).2.1,
    (C24_rebuild_per_resource_recipes { sampleService with serverIDs := [5, 7] } 1 7
      rfl).2.2.2⟩

/-! ### The console-credentials handler -/

theorem parseParts_db (serverID : Int) : ∀ (parts : List Str)
    (creds : VncConsoleCredentials) (s : SyncService),
    (parseParts serverID parts creds s).2.db = s.db
  | [], _, _ => rfl
  | part :: rest, creds, s => by
    simp only [parseParts]
    split
    · split
      · exact parseParts_db serverID rest _ _
      · rfl
    · exact parseParts_db serverID rest _ _

/-- The console parser and its side request leave the store alone. -/
theorem parseVnc_db (s : SyncService) (msg : Str) (serverID : Int)
    (c : VncConsoleCredentials) (s' : SyncService)
    (h : parseVncConsoleCredentials s msg serverID = Except.ok (c, s')) : s'.db = s.db := by
  have hp := parseParts_db serverID (Split msg portSep) ⟨"23.227.199.130".toList, 0, []⟩ s
  generalize hr : parseParts serverID (Split msg portSep) ⟨"23.227.199.130".toList, 0, []⟩ s
    = r at hp
  obtain ⟨creds, s1⟩ := r
  simp only [parseVncConsoleCredentials, hr] at h
  simp only at hp
  split at h
  · split at h
    · simp only [pure_eq_ok, Except.ok.injEq, Prod.mk.injEq] at h
      rw [← h.2]
      exact hp
    · cases hk : GetLeastRecentlyUsedKey s1.lruKeyManager s1.clock with
      | error e =>
        simp only [SyncService.logf] at h
        rw [hk] at h
        simp at h
      | ok r =>
        simp only [SyncService.logf] at h
        rw [hk] at h
        simp only [ok_bind] at h
        split at h
        · simp only [pure_eq_ok, Except.ok.injEq, Prod.mk.injEq] at h
          rw [← h.2]
          exact hp
        · split at h
          · simp only [pure_eq_ok, Except.ok.injEq, Prod.mk.injEq] at h
            rw [← h.2]
            exact hp
          · split at h
            · simp only [pure_eq_ok, Except.ok.injEq, Prod.mk.injEq] at h
              rw [← h.2]
              exact hp
            · simp only [pure_eq_ok, Except.ok.injEq, Prod.mk.injEq] at h
              rw [← h.2]
              exact hp
  · simp only [pure_eq_ok, Except.ok.injEq, Prod.mk.injEq] at h
    rw [← h.2]
    exact hp

/-- C21: when the console parser returns `credsData` and the store fails no
statement, `processConsoleCredentialsResponse` returns; if the cache held a row
for the server, its rows for the server are replaced by one row with the root
password of the (first) prior row and the parsed host, port and password; if it
held none, a row with an empty root password and the parsed values is added.
Either way this is the only row of the server afterwards. -/
theorem C21_console_update_keeps_root_password (s : SyncService) (msg : StatusMessage)
    (serverID : Int) (credsData : VncConsoleCredentials) (s1 : SyncService)
    (hparse : parseVncConsoleCredentials s msg.Message serverID = Except.ok (credsData, s1))
    (hf : s.db.faults = []) :
    ∃ s', processConsoleCredentialsResponse s (some msg) serverID = Except.ok s' ∧
      (∀ row, s.db.server_credentials_cache.find? (fun r => r.server_id = serverID) = some row →
        s'.db.server_credentials_cache =
          (s.db.server_credentials_cache.filter fun r => r.server_id ≠ serverID) ++
            [⟨serverID, row.root_password, credsData.Host, credsData.Port,
              credsData.Password⟩]) ∧
      (s.db.server_credentials_cache.find? (fun r => r.server_id = serverID) = none →
        s'.db.server_credentials_cache =
          s.db.server_credentials_cache ++
            [⟨serverID, [], credsData.Host, credsData.Port, credsData.Password⟩]) ∧
      s'.db.server_credentials_cache.filter (fun r => r.server_id = serverID) =
        [⟨serverID,
          ((s.db.server_credentials_cache.find? fun r => r.server_id = serverID).map
            fun r => r.root_password).getD [],
          credsData.Host, credsData.Port, credsData.Password⟩] := by
  have hdb := parseVnc_db s msg.Message serverID credsData s1 hparse
  have hf1 : s1.db.faults = [] := by rw [hdb]; exact hf
  cases hfind : s.db.server_credentials_cache.find? (fun r => r.server_id = serverID) with
  | none =>
    have hfind1 : s1.db.server_credentials_cache.find? (fun r => r.server_id = serverID)
        = none := by rw [hdb]; exact hfind
    have hcache : (processConsoleCredentialsResponse s (some msg) serverID) = Except.ok
        (consoleOutcome { s1 with db := { s1.db with
          server_credentials_cache := s1.db.server_credentials_cache ++
            [⟨serverID, [], credsData.Host, credsData.Port, credsData.Password⟩] } }
          false serverID) := by
      simp [processConsoleCredentialsResponse, hparse, DB.queryRootPassword, DB.exec, hf1,
        hfind1]
    refine ⟨_, hcache, fun row h => (by cases h), fun _ => ?_, ?_⟩
    · simp only [consoleOutcome, SyncService.logf, hdb]
      rfl
    · have hnone : ∀ r ∈ s.db.server_credentials_cache, ¬ r.server_id = serverID := by
        intro r hr
        have := List.find?_eq_none.mp hfind r hr
        simpa using this
      have hfil : s.db.server_credentials_cache.filter (fun r => r.server_id = serverID)
          = [] := by
        apply List.filter_eq_nil_iff.mpr
        intro r hr
        simpa using hnone r hr
      simp only [consoleOutcome, SyncService.logf, hdb]
      show (s.db.server_credentials_cache ++ _).filter _ = _
      simp [List.filter_append, hfil]
  | some row =>
    have hfind1 : s1.db.server_credentials_cache.find? (fun r => r.server_id = serverID)
        = some row := by rw [hdb]; exact hfind
    have hcache : (processConsoleCredentialsResponse s (some msg) serverID) = Except.ok
        (consoleOutcome { s1 with db := { s1.db with
          server_credentials_cache :=
            (s1.db.server_credentials_cache.filter fun r => r.server_id ≠ serverID) ++
            [⟨serverID, row.root_password, credsData.Host, credsData.Port,
              credsData.Password⟩] } }
          false serverID) := by
      simp [processConsoleCredentialsResponse, hparse, DB.queryRootPassword, DB.exec, hf1,
        hfind1]
    refine ⟨_, hcache, fun row' h => ?_, fun h => (by cases h), ?_⟩
    · cases h
      simp only [consoleOutcome, SyncService.logf, hdb]
      rfl
    · simp only [consoleOutcome, SyncService.logf, hdb]
      show ((s.db.server_credentials_cache.filter _) ++ _).filter _ = _
      simp [List.filter_append, List.filter_filter]

/-- C21 at a cache that holds the row (old-root, 23.227.199.130, 9063,
Nc#mq6Rv) for server 7, and a response with port 9100 and password Zx9kk2pQ:
the row afterwards has the old root password and the new console values. -/
theorem C21_console_update_keeps_root_password_witness :
    ∃ s', processConsoleCredentialsResponse cachedService
        (some ⟨"success".toList,
          "Your VM console credentials are: vnc_port: 9100, vnc_pass: Zx9kk2pQ.".toList⟩) 7
        = Except.ok s' ∧
      s'.db.server_credentials_cache =
        [⟨7, "old-root".toList, "23.227.199.130".toList, 9100, "Zx9kk2pQ".toList⟩] := by
  obtain ⟨s', h1, h2, _, _⟩ := C21_console_update_keeps_root_password cachedService
    ⟨"success".toList,
      "Your VM console credentials are: vnc_port: 9100, vnc_pass: Zx9kk2pQ.".toList⟩ 7
    ⟨"23.227.199.130".toList, 9100, "Zx9kk2pQ".toList⟩ cachedService rfl rfl
  exact ⟨s', h1, h2 _ rfl⟩

/-! ### The side request of the console parser -/

theorem parseParts_net (serverID : Int) : ∀ (parts : List Str)
    (creds : VncConsoleCredentials) (s : SyncService),
    (parseParts serverID parts creds s).2.net = s.net ∧
    (parseParts serverID parts creds s).2.lruKeyManager = s.lruKeyManager
  | [], _, _ => ⟨rfl, rfl⟩
  | part :: rest, creds, s => by
    simp only [parseParts]
    split
    · split
      · exact parseParts_net serverID rest _ _
      · exact ⟨rfl, rfl⟩
    · exact parseParts_net serverID rest _ _

/-- What the console parser does to the network and the rotator: with a
complete result it touches neither; otherwise it sends at most one request, a
POST to the relative URL `/servers/<id>/console/enable`. -/
theorem parseVnc_side_request (s : SyncService) (msg : Str) (serverID : Int)
    (c : VncConsoleCredentials) (s' : SyncService)
    (h : parseVncConsoleCredentials s msg serverID = Except.ok (c, s')) :
    (c.Port ≠ 0 ∧ c.Password ≠ [] → s'.net = s.net ∧ s'.lruKeyManager = s.lruKeyManager) ∧
    (s'.net.sent = s.net.sent ∨
      ∃ key, s'.net.sent = s.net.sent ++
        [⟨"POST".toList, "/servers/".toList ++ Itoa serverID ++ "/console/enable".toList,
          authHeaders key, []⟩]) := by
  have hp := parseParts_net serverID (Split msg portSep) ⟨"23.227.199.130".toList, 0, []⟩ s
  generalize hr : parseParts serverID (Split msg portSep) ⟨"23.227.199.130".toList, 0, []⟩ s
    = r at hp
  obtain ⟨creds, s1⟩ := r
  simp only [parseVncConsoleCredentials, hr] at h
  simp only at hp
  obtain ⟨hn, hl⟩ := hp
  split at h
  · rename_i hinc
    have hcomplete : ∀ c' : VncConsoleCredentials, c' = creds →
        ¬ (c'.Port ≠ 0 ∧ c'.Password ≠ []) := by
      intro c' hc' hboth
      rw [hc'] at hboth
      rcases hinc with h0 | h0
      · exact hboth.1 h0
      · exact hboth.2 h0
    split at h
    · simp only [pure_eq_ok, Except.ok.injEq, Prod.mk.injEq] at h
      refine ⟨fun hb => absurd hb (hcomplete c h.1.symm), Or.inl ?_⟩
      rw [← h.2]
      exact congrArg Net.sent hn
    · cases hk : GetLeastRecentlyUsedKey s1.lruKeyManager s1.clock with
      | error e =>
        simp only [SyncService.logf] at h
        rw [hk] at h
        simp at h
      | ok r =>
        simp only [SyncService.logf] at h
        rw [hk] at h
        simp only [ok_bind] at h
        split at h
        · simp only [pure_eq_ok, Except.ok.injEq, Prod.mk.injEq] at h
          refine ⟨fun hb => absurd hb (hcomplete c h.1.symm), Or.inl ?_⟩
          rw [← h.2]
          exact congrArg Net.sent hn
        · split at h
          · simp only [pure_eq_ok, Except.ok.injEq, Prod.mk.injEq] at h
            refine ⟨fun hb => absurd hb (hcomplete c h.1.symm), Or.inr ⟨r.key, ?_⟩⟩
            rw [← h.2, ← hn]
            rfl
          · split at h
            · simp only [pure_eq_ok, Except.ok.injEq, Prod.mk.injEq] at h
              refine ⟨fun hb => absurd hb (hcomplete c h.1.symm), Or.inr ⟨r.key, ?_⟩⟩
              rw [← h.2, ← hn]
              rfl
            · simp only [pure_eq_ok, Except.ok.injEq, Prod.mk.injEq] at h
              refine ⟨fun hb => absurd hb (hcomplete c h.1.symm), Or.inr ⟨r.key, ?_⟩⟩
              rw [← h.2, ← hn]
              rfl
  · simp only [pure_eq_ok, Except.ok.injEq, Prod.mk.injEq] at h
    rw [← h.2]
    exact ⟨fun _ => ⟨hn, hl⟩, Or.inl (congrArg Net.sent hn)⟩

/-- C26, failing input: the management URL is `https://upstream.example/api`
and the message for server 7 holds no credentials. The parse is incomplete, a
credential is acquired, and the one request sent is a POST to
`/servers/7/console/enable`, a URL without the management base URL in front. -/
theorem C26_side_request_relative_url :
    offlineService.managementURL = "https://upstream.example/api".toList ∧
    (parseVncConsoleCredentials offlineService "Console is disabled".toList 7 >>= fun r =>
      pure (r.1, r.2.net.sent.map (fun call => (call.method, call.url)),
        r.2.net.sent.map
          (fun call => offlineService.managementURL.isPrefixOf call.url))) =
      Except.ok (⟨"23.227.199.130".toList, 0, []⟩,
        [("POST".toList, "/servers/7/console/enable".toList)], [false]) :=
  ⟨rfl, rfl⟩

/-! ### The ticker for large pools, and short credentials -/

/-- The ticker of a pool of `N` credentials: for `1 ≤ N ≤ 60` it is created
with a positive period, for `N > 60` the period is 0 and `time.NewTicker`
panics. -/
theorem newTicker_of_capacity (s : SyncService) (lru : LRUAPIKeyManager) (N : Nat)
    (h : s.lruKeyManager = some lru) (hc : lru.capacity = (N : Int)) (hN : 1 ≤ N) :
    (N ≤ 60 → newTicker s = Except.ok (((60 / N : Nat) : Int) * 1000000000) ∧
      0 < ((60 / N : Nat) : Int) * 1000000000) ∧
    (60 < N → tickSeconds s = Except.ok 0 ∧
      newTicker s = Except.error Fault.tickerInterval) := by
  have hsec := (tickSeconds_of_capacity s lru N h hc hN).1
  constructor
  · intro hle
    have hpos : 0 < 60 / N := Nat.div_pos hle (by omega)
    have hpos' : 0 < ((60 / N : Nat) : Int) * 1000000000 := by
      have : (0 : Int) < ((60 / N : Nat) : Int) := by exact_mod_cast hpos
      omega
    refine ⟨?_, hpos'⟩
    simp only [newTicker, hsec, ok_bind, if_neg (not_le.mpr hpos'), pure_eq_ok]
  · intro hgt
    have hz : 60 / N = 0 := Nat.div_eq_of_lt hgt
    rw [hz] at hsec
    refine ⟨hsec, ?_⟩
    simp only [newTicker, hsec, ok_bind]
    rfl

/-- C27, failing input: a pool of sixty-one credentials. The capacity is 61,
the period is `60 / 61 = 0` seconds, and creating the ticker panics. -/
theorem C27_sixty_one_credentials_no_ticker :
    sixtyOneKeys.length = 61 ∧
    (NewLRUAPIKeyManager sixtyOneKeys 0 >>= fun m =>
      tickSeconds { sampleService with lruKeyManager := m }) = Except.ok 0 ∧
    (NewLRUAPIKeyManager sixtyOneKeys 0 >>= fun m =>
      newTicker { sampleService with lruKeyManager := m }) =
      Except.error Fault.tickerInterval :=
  ⟨rfl, rfl, rfl⟩

/-- C28, failing input: the pool of `key1_12345678` and the 5-byte credential
`short`. The first acquisition returns `key1_12345678`; the status listing and
the second acquisition, which reach `short`, panic with a slice bound out of
range. -/
theorem C28_short_credential_slice_panics :
    (NewLRUAPIKeyManager ["key1_12345678".toList, "short".toList] 0 >>= fun m =>
      pure (ledgerOf m)) = Except.ok ["short".toList, "key1_12345678".toList] ∧
    (NewLRUAPIKeyManager ["key1_12345678".toList, "short".toList] 0 >>= fun m =>
      acquireAll m [1] >>= fun r => pure r.1) = Except.ok ["key1_12345678".toList] ∧
    (NewLRUAPIKeyManager ["key1_12345678".toList, "short".toList] 0 >>= fun m =>
      acquireAll m [1, 2] >>= fun r => pure r.1) = Except.error Fault.sliceBounds ∧
    (NewLRUAPIKeyManager ["key1_12345678".toList, "short".toList] 0 >>= fun m =>
      GetAllKeysStatus m) = Except.error Fault.sliceBounds :=
  ⟨rfl, rfl, rfl, rfl⟩

/-- C25, failing input: for the pool of the 7-byte credential `1234567` the
status listing panics instead of returning an entry; and for the pool of the
8-byte credential `12345678` the one entry it returns shows the whole
credential. -/
theorem C25_status_listing_panics_or_unmasked :
    (NewLRUAPIKeyManager ["1234567".toList] 0 >>= fun m => pure (ledgerOf m)) =
      Except.ok ["1234567".toList] ∧
    (NewLRUAPIKeyManager ["1234567".toList] 0 >>= fun m => GetAllKeysStatus m) =
      Except.error Fault.sliceBounds ∧
    (NewLRUAPIKeyManager ["12345678".toList] 0 >>= fun m => GetAllKeysStatus m) =
      Except.ok ["Pos 1: ...12345678 (last used: 00:00:00)".toList] :=
  ⟨rfl, rfl, rfl⟩

/-! ### How a call moves cycle and cursor -/

theorem outcome_of_quiet {s s' : SyncService} (h : Quiet s s') : Outcome s s' :=
  ⟨h.2.2.2.1, Or.inl ⟨h.2.2.2.2.2.2.2, h.1, h.2.1⟩⟩

theorem quiet_outcome {s s1 s2 : SyncService} (h1 : Quiet s s1) (h2 : Outcome s1 s2) :
    Outcome s s2 := by
  obtain ⟨c1, c2, _, q1, _, _, _, q5⟩ := h1
  obtain ⟨a1, hcases⟩ := h2
  refine ⟨a1.trans q1, ?_⟩
  rcases hcases with ⟨t, c, i⟩ | ⟨line, t, hf, i, hc⟩ | ⟨line, t, hf, i, hc⟩
  · exact Or.inl ⟨t.trans q5, c.trans c1, i.trans c2⟩
  · refine Or.inr (Or.inl ⟨line, by rw [t, q5], hf, i.trans c2, ?_⟩)
    rw [c1, c2] at hc
    exact hc
  · exact Or.inr (Or.inr ⟨line, by rw [t, q5], hf, i, hc⟩)

theorem retryRequest_outcome (s : SyncService) (req : SyncRequest) (s' : SyncService)
    (h : retryRequest s req = Except.ok s') : Outcome s s' := by
  by_cases hlt : req.RetryCount < req.MaxRetries
  · by_cases hpos : s.requestCycle.length > 0
    · by_cases hb : 0 ≤ s.cycleIndex ∧ s.cycleIndex ≤ (s.requestCycle.length : Int)
      · simp only [retryRequest, hlt, if_true, SyncService.logf, hpos, sliceTo, sliceFrom, hb,
          and_self, pure_eq_ok, ok_bind, Except.ok.injEq] at h
        rw [← h]
        exact ⟨rfl, Or.inr (Or.inl ⟨⟨retryingFmt, _⟩, trace_logf s _ _, Or.inl rfl, rfl,
          Or.inr ⟨hb.1, hb.2, _, rfl⟩⟩)⟩
      · simp only [retryRequest, hlt, if_true, SyncService.logf, hpos, sliceTo, hb, if_false,
          throw_eq_error, error_bind] at h
        cases h
    · simp only [retryRequest, hlt, if_true, SyncService.logf, hpos, if_false, pure_eq_ok,
        Except.ok.injEq] at h
      rw [← h]
      exact ⟨rfl, Or.inr (Or.inl ⟨⟨retryingFmt, _⟩, trace_logf s _ _, Or.inl rfl, rfl,
        Or.inl rfl⟩)⟩
  · rw [retryRequest_exhausted s req (Int.not_lt.mp hlt)] at h
    simp only [Except.ok.injEq] at h
    rw [← h]
    exact ⟨rfl, Or.inr (Or.inl ⟨⟨exhaustedFmt, _⟩, trace_logf s _ _, Or.inr rfl, rfl,
      Or.inl rfl⟩)⟩

theorem processServersResponse_outcome (s : SyncService) (decoded : Option (List Server)) :
    Outcome s (processServersResponse s decoded) := by
  cases decoded with
  | none => exact outcome_of_quiet (quiet_logf _ _ _ (by decide))
  | some servers =>
    simp only [processServersResponse]
    split
    · exact outcome_of_quiet ((quiet_db s _).trans (quiet_logf _ _ _ (by decide)))
    · have hq := insertServers_quiet servers
        ({ s with db := (s.db.exec Stmt.truncateServers).1 } : SyncService) []
      generalize insertServers
        ({ s with db := (s.db.exec Stmt.truncateServers).1 } : SyncService) servers [] = r
        at hq
      obtain ⟨s1, ids⟩ := r
      simp only at hq ⊢
      have hq1 : Quiet s s1 := (quiet_db s _).trans hq
      obtain ⟨c1, c2, c3, q1, q2, q3, q4, q5⟩ := hq1
      have hq2 : ∀ (fmt : String) (args : List LogArg), tracked ⟨fmt, []⟩ = false →
          (({ s1 with serverIDs := ids } : SyncService).logf fmt args).trace = s.trace := by
        intro fmt args hf
        rw [(quiet_logf _ fmt args hf).2.2.2.2.2.2.2]
        exact q5
      split
      · have ht := trace_rebuild (({ s1 with serverIDs := ids } : SyncService).logf
          "Server count changed from %d to %d, rebuilding request cycle"
          [LogArg.int s1.serverIDs.length, LogArg.int ids.length])
        rw [hq2 _ _ (by decide)] at ht
        have ht2 := (quiet_logf (rebuildRequestCycle
          (({ s1 with serverIDs := ids } : SyncService).logf
            "Server count changed from %d to %d, rebuilding request cycle"
            [LogArg.int s1.serverIDs.length, LogArg.int ids.length]))
          "Updated servers cache with %d servers" [LogArg.int servers.length]
          (by decide)).2.2.2.2.2.2.2
        rw [ht] at ht2
        exact ⟨q1, Or.inr (Or.inr ⟨_, ht2, rfl, rfl, rfl⟩)⟩
      · refine ⟨q1, Or.inl ⟨?_, c1, c2⟩⟩
        exact hq2 _ _ (by decide)

theorem dispatch_outcome (s : SyncService) (req : SyncRequest) (resp : HttpResponse)
    (s' : SyncService) (h : dispatch s req resp = Except.ok s') : Outcome s s' := by
  simp only [dispatch] at h
  split at h
  · simp only [pure_eq_ok, Except.ok.injEq] at h
    rw [← h]; exact processServersResponse_outcome _ _
  split at h
  · simp only [pure_eq_ok, Except.ok.injEq] at h
    rw [← h]; exact outcome_of_quiet (processOSTypesResponse_quiet _ _)
  split at h
  · simp only [pure_eq_ok, Except.ok.injEq] at h
    rw [← h]; exact outcome_of_quiet (processAppsResponse_quiet _ _)
  split at h
  · simp only [pure_eq_ok, Except.ok.injEq] at h
    rw [← h]; exact outcome_of_quiet (processServerDetailResponse_quiet _ _ _)
  split at h
  · simp only [pure_eq_ok, Except.ok.injEq] at h
    rw [← h]; exact outcome_of_quiet (processSnapshotsResponse_quiet _ _ _)
  split at h
  · simp only [pure_eq_ok, Except.ok.injEq] at h
    rw [← h]; exact outcome_of_quiet (processRootPasswordResponse_quiet _ _ _)
  split at h
  · exact outcome_of_quiet (processConsoleCredentialsResponse_quiet _ _ _ _ h)
  · simp only [pure_eq_ok, Except.ok.injEq] at h
    rw [← h]; exact outcome_of_quiet (quiet_logf _ _ _ (by decide))

/-- Every call of `processRequest` that returns logs its `Processing` line and
then ends in one of the three ways of `Outcome`. -/
theorem processRequest_outcome (s : SyncService) (req : SyncRequest) (s' : SyncService)
    (h : processRequest s req = Except.ok s') : Outcome (began s req) s' := by
  cases hreq : s.requestOk req.Method req.URL with
  | false =>
    rw [processRequest_unbuilt s req hreq] at h
    exact quiet_outcome (quiet_logf _ _ _ (by decide)) (retryRequest_outcome _ _ _ h)
  | true =>
    cases hkey : GetLeastRecentlyUsedKey s.lruKeyManager s.clock with
    | error e =>
      rw [processRequest_keyfault s req e hreq hkey] at h
      cases h
    | ok r =>
      by_cases hnone : r.key = []
      · rw [processRequest_nokey s req r hreq hkey hnone] at h
        exact quiet_outcome ((keyed_quiet s req r hkey).trans (quiet_logf _ _ _ (by decide)))
          (retryRequest_outcome _ _ _ h)
      · cases hreply : s.net.replies.head?.join with
        | none =>
          rw [processRequest_transport s req r hreq hkey hnone hreply] at h
          exact quiet_outcome
            ((called_quiet s req r hkey).trans (quiet_logf _ _ _ (by decide)))
            (retryRequest_outcome _ _ _ h)
        | some resp =>
          rw [processRequest_answered s req r resp hreq hkey hnone hreply] at h
          split at h
          · split at h
            · simp only [Except.ok.injEq] at h
              rw [← h]
              exact outcome_of_quiet
                ((called_quiet s req r hkey).trans (quiet_logf _ _ _ (by decide)))
            · exact quiet_outcome
                ((called_quiet s req r hkey).trans (quiet_logf _ _ _ (by decide)))
                (retryRequest_outcome _ _ _ h)
          · exact quiet_outcome (called_quiet s req r hkey) (dispatch_outcome _ _ _ _ h)

theorem turn_of_outcome {s s' : SyncService} (h : Outcome s s') : Turn s s' := by
  obtain ⟨_, hcases⟩ := h
  rw [Turn, retryCalls_eq_trace s', retryCalls_eq_trace s, rebuildCount_eq_trace s',
    rebuildCount_eq_trace s]
  rcases hcases with ⟨t, c, i⟩ | ⟨line, t, hf, i, hc⟩ | ⟨line, t, hf, i, hc⟩
  · exact Or.inl ⟨by rw [t], by rw [t], c, i⟩
  · have h1 : (decide (line.fmt = retryingFmt) || decide (line.fmt = exhaustedFmt)) = true := by
      rcases hf with hf | hf <;> simp [hf]
    have h2 : line.fmt ≠ rebuiltFmt := by
      rcases hf with hf | hf <;> rw [hf] <;> decide
    refine Or.inr (Or.inl ⟨?_, ?_, i, hc⟩)
    · rw [t]
      simp only [List.countP_append, List.countP_cons, List.countP_nil, h1, if_true]
    · rw [t]
      simp [List.countP_append, h2]
  · refine Or.inr (Or.inr ⟨?_, ?_, i, hc⟩)
    · rw [t, List.countP_append]
      simp [hf, rebuiltFmt, retryingFmt, exhaustedFmt]
    · rw [t, List.countP_append]
      simp [hf]

theorem turn_began {s s' : SyncService} (req : SyncRequest) (h : Turn (began s req) s') :
    Turn s s' := by
  obtain ⟨b1, b2⟩ := began_quiet_counts s req
  rw [Turn, b1, b2] at h
  exact h

/-- What a returning call of `processRequest` has done to counts, cursor and
cycle. -/
theorem processRequest_turn (s : SyncService) (req : SyncRequest) (s' : SyncService)
    (h : processRequest s req = Except.ok s') : Turn s s' :=
  turn_began req (turn_of_outcome (processRequest_outcome s req s' h))

theorem retryRequest_turn (s : SyncService) (req : SyncRequest) (s' : SyncService)
    (h : retryRequest s req = Except.ok s') : Turn s s' :=
  turn_of_outcome (retryRequest_outcome s req s' h)

theorem rebuiltCycle_length (u : Str) (ids : List Int) :
    (rebuiltCycle u ids).length = 2 + 3 * ids.length := by
  simp [rebuiltCycle, appendServerRecipes_length]

theorem turn_cursorOk {s s' : SyncService} (hs : CursorOk s) (h : Turn s s') :
    CursorOk s' := by
  obtain ⟨h2, h0, hlt⟩ := hs
  rcases h with ⟨_, _, c, i⟩ | ⟨_, _, i, c | ⟨_, _, recipe, c⟩⟩ | ⟨_, _, i, c⟩
  · exact ⟨by rw [c]; exact h2, by rw [i]; exact h0, by rw [i, c]; exact hlt⟩
  · exact ⟨by rw [c]; exact h2, by rw [i]; exact h0, by rw [i, c]; exact hlt⟩
  · have hlen : s'.requestCycle.length = s.requestCycle.length + 1 := by
      rw [c]
      simp only [List.length_append, List.length_take, List.length_cons, List.length_nil,
        List.length_drop]
      omega
    refine ⟨by omega, by rw [i]; exact h0, ?_⟩
    rw [i, hlen]
    push_cast
    omega
  · have hlen := rebuiltCycle_length s'.managementURL s'.serverIDs
    rw [← c] at hlen
    refine ⟨by omega, by rw [i], ?_⟩
    rw [i, hlen]
    push_cast
    omega

theorem selectNext_cursorOk (s : SyncService) (hs : CursorOk s) :
    ∃ recipe, s.requestCycle[s.cycleIndex.toNat]? = some recipe ∧
      selectNext s = Except.ok (some (recipe ()),
        { s with cycleIndex := (s.cycleIndex + 1).tmod (s.requestCycle.length : Int) }) ∧
      CursorOk { s with cycleIndex := (s.cycleIndex + 1).tmod (s.requestCycle.length : Int) } ∧
      (s.cycleIndex + 1).tmod (s.requestCycle.length : Int) =
        (((s.cycleIndex.toNat + 1) % s.requestCycle.length : Nat) : Int) := by
  obtain ⟨h2, h0, hlt⟩ := hs
  have hk : s.cycleIndex = ((s.cycleIndex.toNat : Nat) : Int) := (Int.toNat_of_nonneg h0).symm
  have hklt : s.cycleIndex.toNat < s.requestCycle.length := by omega
  have hget : s.requestCycle[s.cycleIndex.toNat]? = some (s.requestCycle[s.cycleIndex.toNat]) :=
    List.getElem?_eq_getElem hklt
  have hsel := selectNext_at s s.cycleIndex.toNat _ hk hget
  have hb := cursor_step_bounds s.cycleIndex.toNat s.requestCycle.length (by omega)
  have hmod : (s.cycleIndex + 1).tmod (s.requestCycle.length : Int) =
      (((s.cycleIndex.toNat + 1) % s.requestCycle.length : Nat) : Int) := by
    rw [Int.tmod_eq_emod (by omega) (by omega)]
    conv_lhs => rw [hk]
    norm_cast
  rw [← hk] at hsel
  refine ⟨_, hget, hsel, ⟨h2, ?_, ?_⟩, hmod⟩
  · show 0 ≤ (s.cycleIndex + 1).tmod (s.requestCycle.length : Int)
    rw [hmod]
    omega
  · show (s.cycleIndex + 1).tmod (s.requestCycle.length : Int) < (s.requestCycle.length : Int)
    rw [hmod]
    have : (s.cycleIndex.toNat + 1) % s.requestCycle.length < s.requestCycle.length :=
      Nat.mod_lt _ (by omega)
    exact_mod_cast this

/-! ### The cursor invariant -/

theorem NewLRUAPIKeyManager_returns (apiKeys : List Str) (now : Nat) :
    ∃ m, NewLRUAPIKeyManager apiKeys now = Except.ok m := by
  cases apiKeys with
  | nil => exact ⟨none, rfl⟩
  | cons k ks =>
    obtain ⟨m, _, e, _⟩ := New_shape (k :: ks) now (List.cons_ne_nil _ _)
    exact ⟨some m, e⟩

/-- `NewSyncService` always returns; the service starts with the three catalog
recipes, the cursor at 0, no known resource and an empty log. -/
theorem NewSyncService_returns (db : DB) (environ : List Str) (net : Net) (clock : Nat)
    (requestOk : Str → Str → Bool) (decode : Decoders) :
    ∃ s0, NewSyncService db environ net clock requestOk decode = Except.ok s0 ∧
      s0.requestCycle = [serversRecipe s0.managementURL, osTypesRecipe s0.managementURL,
        appsRecipe s0.managementURL] ∧
      s0.cycleIndex = 0 ∧ s0.serverIDs = [] ∧ s0.logs = [] ∧
      s0.managementURL = Getenv environ "SERVER_MANAGEMENT_URL".toList := by
  obtain ⟨m, e⟩ := NewLRUAPIKeyManager_returns (environKeys environ) clock
  refine ⟨initializeRequestCycle
    { db := db, managementURL := Getenv environ "SERVER_MANAGEMENT_URL".toList,
      lruKeyManager := m, serverIDs := [], requestCycle := [], cycleIndex := 0,
      net := net, clock := clock, requestOk := requestOk, decode := decode, logs := [] },
    ?_, rfl, rfl, rfl, rfl, rfl⟩
  simp only [NewSyncService, e, ok_bind]
  rfl

theorem logf_cursorOk {s : SyncService} (fmt : String) (args : List LogArg)
    (hs : CursorOk s) : CursorOk (s.logf fmt args) := hs

theorem rebuild_cursorOk (s : SyncService) : CursorOk (rebuildRequestCycle s) := by
  have hlen : (rebuildRequestCycle s).requestCycle.length = 2 + 3 * s.serverIDs.length := by
    simp [rebuildRequestCycle, SyncService.logf, appendServerRecipes_length]
  have hc : (rebuildRequestCycle s).cycleIndex = 0 := rfl
  refine ⟨by omega, by rw [hc], ?_⟩
  rw [hc, hlen]
  push_cast
  omega

theorem tick_cursorOk (s s' : SyncService) (hs : CursorOk s) (h : tick s = Except.ok s') :
    CursorOk s' := by
  obtain ⟨recipe, _, hsel, hs1, _⟩ := selectNext_cursorOk s hs
  simp only [tick, hsel, ok_bind] at h
  exact turn_cursorOk hs1 (processRequest_turn _ _ _ h)

theorem processAll_cursorOk : ∀ (reqs : List SyncRequest) (s s' : SyncService),
    CursorOk s → processAll s reqs = Except.ok s' → CursorOk s'
  | [], s, s', hs, h => by
    simp only [processAll, pure_eq_ok, Except.ok.injEq] at h
    rw [← h]; exact hs
  | req :: rest, s, s', hs, h => by
    simp only [processAll] at h
    cases hp : processRequest s req with
    | error e => rw [hp] at h; simp at h
    | ok s1 =>
      rw [hp] at h
      simp only [ok_bind] at h
      exact processAll_cursorOk rest s1 s' (turn_cursorOk hs (processRequest_turn _ _ _ hp)) h

theorem ManualSync_cursorOk (s s' : SyncService) (e : Option Str) (hs : CursorOk s)
    (h : ManualSync s = Except.ok (s', e)) : CursorOk s' := by
  rw [ManualSync_unfold] at h
  cases hp : processAll (s.logf "Manual sync triggered" []) s.requests with
  | error err => rw [hp] at h; simp at h
  | ok s1 =>
    rw [hp] at h
    simp only [ok_bind, Except.ok.injEq, Prod.mk.injEq] at h
    rw [← h.1]
    exact logf_cursorOk _ _ (processAll_cursorOk _ _ _ (logf_cursorOk _ _ hs) hp)

theorem step_cursorOk (s s' : SyncService) (call : Call) (hs : CursorOk s)
    (h : step s call = Except.ok s') : CursorOk s' := by
  cases call with
  | tick => exact tick_cursorOk s s' hs h
  | select =>
    obtain ⟨recipe, _, hsel, hs1, _⟩ := selectNext_cursorOk s hs
    simp only [step, hsel, ok_bind, pure_eq_ok, Except.ok.injEq] at h
    rw [← h]; exact hs1
  | process req => exact turn_cursorOk hs (processRequest_turn _ _ _ h)
  | retry req => exact turn_cursorOk hs (retryRequest_turn _ _ _ h)
  | servers decoded =>
    simp only [step, pure_eq_ok, Except.ok.injEq] at h
    rw [← h]
    exact turn_cursorOk hs (turn_of_outcome (processServersResponse_outcome _ _))
  | rebuild =>
    simp only [step, pure_eq_ok, Except.ok.injEq] at h
    rw [← h]
    exact rebuild_cursorOk s
  | manual =>
    simp only [step] at h
    cases hm : ManualSync s with
    | error err => rw [hm] at h; simp at h
    | ok r =>
      obtain ⟨s1, e⟩ := r
      rw [hm] at h
      simp only [ok_bind, pure_eq_ok, Except.ok.injEq] at h
      rw [← h]
      exact ManualSync_cursorOk s s1 e hs hm

theorem runCalls_cursorOk : ∀ (calls : List Call) (s s' : SyncService),
    CursorOk s → runCalls s calls = Except.ok s' → CursorOk s'
  | [], s, s', hs, h => by
    simp only [runCalls, pure_eq_ok, Except.ok.injEq] at h
    rw [← h]; exact hs
  | call :: rest, s, s', hs, h => by
    simp only [runCalls] at h
    cases hp : step s call with
    | error e => rw [hp] at h; simp at h
    | ok s1 =>
      rw [hp] at h
      simp only [ok_bind] at h
      exact runCalls_cursorOk rest s1 s' (step_cursorOk s s1 call hs hp) h

/-- With the cursor inside the cycle, `retryRequest` returns for every item. -/
theorem retryRequest_returns (t : SyncService) (req : SyncRequest)
    (h0 : 0 ≤ t.cycleIndex) (hle : t.cycleIndex ≤ (t.requestCycle.length : Int)) :
    ∃ t', retryRequest t req = Except.ok t' := by
  by_cases hlt : req.RetryCount < req.MaxRetries
  · by_cases hne : t.requestCycle = []
    · refine ⟨t.logf "Retrying request %s (attempt %d/%d) - will retry on next cycle"
        [LogArg.str req.URL, LogArg.int (req.RetryCount + 1), LogArg.int req.MaxRetries], ?_⟩
      simp only [retryRequest, hlt, if_true, SyncService.logf, hne, List.length_nil,
        gt_iff_lt, lt_self_iff_false, if_false]
      rfl
    · exact ⟨_, retryRequest_insert t req t.cycleIndex.toNat (Int.toNat_of_nonneg h0).symm
        (by omega) hne hlt⟩
  · exact ⟨_, retryRequest_exhausted t req (Int.not_lt.mp hlt)⟩

/-- C29: in every state that a sequence of calls (ticks, selection steps,
`processRequest`, `retryRequest`, `processServersResponse`, rebuilds and
`ManualSync` calls, in any order and with any arguments) reaches from the state
`NewSyncService` returns, the cycle has at least 2 recipes and
`0 ≤ cycleIndex < len(requestCycle)`. Hence the selection of the next tick
finds a recipe at the cursor, and `retryRequest` returns on every state with
this cycle and cursor: neither the indexing nor the slicing is out of range. -/
theorem C29_cursor_invariant (db : DB) (environ : List Str) (net : Net) (clock : Nat)
    (requestOk : Str → Str → Bool) (decode : Decoders) (calls : List Call) (s : SyncService)
    (h : (NewSyncService db environ net clock requestOk decode >>= fun s0 =>
      runCalls s0 calls) = Except.ok s) :
    2 ≤ s.requestCycle.length ∧ 0 ≤ s.cycleIndex ∧
    s.cycleIndex < (s.requestCycle.length : Int) ∧
    (∃ recipe, s.requestCycle[s.cycleIndex.toNat]? = some recipe ∧
      selectNext s = Except.ok (some (recipe ()),
        { s with cycleIndex := (s.cycleIndex + 1).tmod (s.requestCycle.length : Int) })) ∧
    (∀ (t : SyncService) (req : SyncRequest), t.requestCycle = s.requestCycle →
      t.cycleIndex = s.cycleIndex → ∃ t', retryRequest t req = Except.ok t') := by
  obtain ⟨s0, e0, hc, hi, _⟩ := NewSyncService_returns db environ net clock requestOk decode
  rw [e0] at h
  simp only [ok_bind] at h
  have hlen : s0.requestCycle.length = 3 := by rw [hc]; rfl
  have h0 : CursorOk s0 := by
    refine ⟨by omega, by rw [hi], ?_⟩
    rw [hi, hlen]
    decide
  have hs := runCalls_cursorOk calls s0 s h0 h
  obtain ⟨recipe, hget, hsel, _, _⟩ := selectNext_cursorOk s hs
  refine ⟨hs.1, hs.2.1, hs.2.2, ⟨recipe, hget, hsel⟩, ?_⟩
  intro t req hcy hcu
  apply retryRequest_returns t req
  · rw [hcu]; exact hs.2.1
  · rw [hcu, hcy]; exact le_of_lt hs.2.2

/-- C29 on a run from a service with two credentials and an upstream that is
never reached: a tick, a retry, a resource list with one active resource, a
tick and a `ManualSync`. The cycle has 12 recipes and the cursor is 1. -/
theorem C29_cursor_invariant_witness :
    ∃ s, (NewSyncService ⟨[], [], [], [], [], [], []⟩ sampleEnviron ⟨[], []⟩ 0
        (fun _ _ => true) sampleService.decode >>= fun s0 =>
        runCalls s0 [Call.tick, Call.retry sampleRequest,
          Call.servers (some [activeServer 7]), Call.tick, Call.manual]) = Except.ok s ∧
      s.requestCycle.length = 12 ∧ s.cycleIndex = 1 ∧
      2 ≤ s.requestCycle.length ∧ 0 ≤ s.cycleIndex ∧
      s.cycleIndex < (s.requestCycle.length : Int) ∧
      (∃ recipe, s.requestCycle[s.cycleIndex.toNat]? = some recipe ∧
        selectNext s = Except.ok (some (recipe ()),
          { s with cycleIndex := (s.cycleIndex + 1).tmod (s.requestCycle.length : Int) })) ∧
      (∀ (t : SyncService) (req : SyncRequest), t.requestCycle = s.requestCycle →
        t.cycleIndex = s.cycleIndex → ∃ t', retryRequest t req = Except.ok t') :=
  ⟨_, rfl, rfl, rfl,
    C29_cursor_invariant ⟨[], [], [], [], [], [], []⟩ sampleEnviron ⟨[], []⟩ 0
      (fun _ _ => true) sampleService.decode
      [Call.tick, Call.retry sampleRequest, Call.servers (some [activeServer 7]), Call.tick,
        Call.manual] _ rfl⟩

/-! ### Passes of the cursor -/

theorem selectNext_frame (s : SyncService) (x : Option SyncRequest) (s1 : SyncService)
    (h : selectNext s = Except.ok (x, s1)) :
    s1.requestCycle = s.requestCycle ∧ s1.logs = s.logs ∧ s1.managementURL = s.managementURL ∧
      s1.serverIDs = s.serverIDs := by
  cases x with
  | none =>
    simp only [selectNext] at h
    split at h
    · simp only [pure_eq_ok, Except.ok.injEq, Prod.mk.injEq, true_and] at h
      rw [← h]
      exact ⟨rfl, rfl, rfl, rfl⟩
    · cases hi : indexAt s.requestCycle s.cycleIndex with
      | error e => rw [hi] at h; simp at h
      | ok recipe => rw [hi] at h; simp at h
  | some req =>
    obtain ⟨_, _, _, _, hs1⟩ := selectNext_some s req s1 h
    rw [hs1]
    exact ⟨rfl, rfl, rfl, rfl⟩

theorem selectNext_inside (s : SyncService) (h0 : 0 ≤ s.cycleIndex)
    (hlt : s.cycleIndex < (s.requestCycle.length : Int)) :
    ∃ recipe, s.requestCycle[s.cycleIndex.toNat]? = some recipe ∧
      selectNext s = Except.ok (some (recipe ()),
        { s with cycleIndex :=
            (((s.cycleIndex.toNat + 1) % s.requestCycle.length : Nat) : Int) }) := by
  have hk : s.cycleIndex = ((s.cycleIndex.toNat : Nat) : Int) := (Int.toNat_of_nonneg h0).symm
  have hklt : s.cycleIndex.toNat < s.requestCycle.length := by omega
  have hget : s.requestCycle[s.cycleIndex.toNat]? = some (s.requestCycle[s.cycleIndex.toNat]) :=
    List.getElem?_eq_getElem hklt
  have hsel := selectNext_at s s.cycleIndex.toNat _ hk hget
  have hmod : ((s.cycleIndex.toNat : Int) + 1).tmod (s.requestCycle.length : Int) =
      (((s.cycleIndex.toNat + 1) % s.requestCycle.length : Nat) : Int) := by
    rw [Int.tmod_eq_emod (by omega) (by omega)]
    norm_cast
  rw [hmod] at hsel
  exact ⟨_, hget, hsel⟩

theorem turn_mono {s s' : SyncService} (h : Turn s s') :
    retryCalls s ≤ retryCalls s' ∧ rebuildCount s ≤ rebuildCount s' := by
  rcases h with ⟨a, b, _, _⟩ | ⟨a, b, _, _⟩ | ⟨a, b, _, _⟩ <;> omega

theorem dispatched_mono : ∀ (n : Nat) (s : SyncService) (reqs : List SyncRequest)
    (s' : SyncService), dispatched n s = Except.ok (reqs, s') →
    retryCalls s ≤ retryCalls s' ∧ rebuildCount s ≤ rebuildCount s'
  | 0, s, reqs, s', h => by
    simp only [dispatched, pure_eq_ok, Except.ok.injEq, Prod.mk.injEq] at h
    rw [← h.2]
    exact ⟨le_refl _, le_refl _⟩
  | n + 1, s, reqs, s', h => by
    simp only [dispatched] at h
    cases hsel : selectNext s with
    | error e => rw [hsel] at h; simp at h
    | ok r =>
      obtain ⟨x, s1⟩ := r
      obtain ⟨_, hl, _, _⟩ := selectNext_frame s x s1 hsel
      have hr : retryCalls s1 = retryCalls s := by simp only [retryCalls, hl]
      have hb : rebuildCount s1 = rebuildCount s := by simp only [rebuildCount, hl]
      rw [hsel] at h
      simp only [ok_bind] at h
      cases x with
      | none =>
        have := dispatched_mono n s1 reqs s' h
        omega
      | some req =>
        simp only at h
        cases hp : processRequest s1 req with
        | error e => rw [hp] at h; simp at h
        | ok s2 =>
          rw [hp] at h
          simp only [ok_bind] at h
          cases hd : dispatched n s2 with
          | error e => rw [hd] at h; simp at h
          | ok r2 =>
            obtain ⟨reqs2, s3⟩ := r2
            rw [hd] at h
            simp only [ok_bind, pure_eq_ok, Except.ok.injEq, Prod.mk.injEq] at h
            have h1 := turn_mono (processRequest_turn s1 req s2 hp)
            have h2 := dispatched_mono n s2 reqs2 s3 hd
            rw [← h.2]
            omega

/-- The state a run of ticks leaves is the one of `ticks`. -/
theorem dispatched_ticks : ∀ (n : Nat) (s : SyncService),
    (dispatched n s >>= fun r => pure r.2) = ticks n s
  | 0, s => rfl
  | n + 1, s => by
    simp only [dispatched, ticks, tick]
    cases hsel : selectNext s with
    | error e => rfl
    | ok r =>
      obtain ⟨x, s1⟩ := r
      simp only [ok_bind]
      cases x with
      | none =>
        simp only [pure_eq_ok, ok_bind]
        exact dispatched_ticks n s1
      | some req =>
        simp only
        cases hp : processRequest s1 req with
        | error e => rfl
        | ok s2 =>
          simp only [ok_bind]
          rw [← dispatched_ticks n s2]
          cases hd : dispatched n s2 with
          | error e => rfl
          | ok r2 => rfl

theorem drop_take_succ {α : Type} (l : List α) (k n : Nat) (x : α)
    (h : l[k]? = some x) : (l.drop k).take (n + 1) = x :: (l.drop (k + 1)).take n := by
  obtain ⟨hk, hx⟩ := List.getElem?_eq_some_iff.mp h
  rw [List.drop_eq_getElem_cons hk, List.take_succ_cons, hx]

/-- A run of `n` ticks without retry and without rebuild, from the cursor at
`k`, dispatches the `n` requests from place `k` on and leaves the cycle as it
was and the cursor `n` places further. -/
theorem dispatched_pass : ∀ (n k : Nat) (s : SyncService) (reqs : List SyncRequest)
    (s' : SyncService), k + n ≤ s.requestCycle.length → 0 < s.requestCycle.length →
    s.cycleIndex = ((k % s.requestCycle.length : Nat) : Int) →
    dispatched n s = Except.ok (reqs, s') → retryCalls s' = retryCalls s →
    rebuildCount s' = rebuildCount s →
    reqs = (s.requests.drop k).take n ∧ s'.requestCycle = s.requestCycle ∧
      s'.cycleIndex = (((k + n) % s.requestCycle.length : Nat) : Int)
  | 0, k, s, reqs, s', _, _, hc, h, _, _ => by
    simp only [dispatched, pure_eq_ok, Except.ok.injEq, Prod.mk.injEq] at h
    rw [← h.1, ← h.2]
    exact ⟨by simp, rfl, by simpa using hc⟩
  | n + 1, k, s, reqs, s', hle, hpos, hc, h, hr, hb => by
    have hk : k < s.requestCycle.length := by omega
    rw [Nat.mod_eq_of_lt hk] at hc
    have h0 : 0 ≤ s.cycleIndex := by rw [hc]; omega
    have hlt : s.cycleIndex < (s.requestCycle.length : Int) := by rw [hc]; exact_mod_cast hk
    have hto : s.cycleIndex.toNat = k := by rw [hc]; rfl
    obtain ⟨recipe, hget, hsel⟩ := selectNext_inside s h0 hlt
    rw [hto] at hget hsel
    simp only [dispatched, hsel, ok_bind] at h
    cases hp : processRequest
        ({ s with cycleIndex := (((k + 1) % s.requestCycle.length : Nat) : Int) } : SyncService)
        (recipe ()) with
    | error e => rw [hp] at h; simp at h
    | ok s2 =>
      rw [hp] at h
      simp only [ok_bind] at h
      cases hd : dispatched n s2 with
      | error e => rw [hd] at h; simp at h
      | ok r2 =>
        obtain ⟨reqs2, s3⟩ := r2
        rw [hd] at h
        simp only [ok_bind, pure_eq_ok, Except.ok.injEq, Prod.mk.injEq] at h
        obtain ⟨hreqs, hs3⟩ := h
        subst hs3
        have hturn := processRequest_turn _ _ _ hp
        have hm1 := turn_mono hturn
        have hm2 := dispatched_mono n s2 reqs2 s3 hd
        have hr1 : retryCalls ({ s with cycleIndex :=
            (((k + 1) % s.requestCycle.length : Nat) : Int) } : SyncService) = retryCalls s := rfl
        have hb1 : rebuildCount ({ s with cycleIndex :=
            (((k + 1) % s.requestCycle.length : Nat) : Int) } : SyncService) = rebuildCount s :=
          rfl
        rw [hr1, hb1] at hm1
        rcases hturn with ⟨a, b, c, i⟩ | ⟨a, _, _, _⟩ | ⟨_, b, _, _⟩
        · have c' : s2.requestCycle = s.requestCycle := c
          have i' : s2.cycleIndex = (((k + 1) % s2.requestCycle.length : Nat) : Int) := by
            rw [c']; exact i
          obtain ⟨e1, e2, e3⟩ := dispatched_pass n (k + 1) s2 reqs2 s3 (by rw [c']; omega)
            (by rw [c']; exact hpos) i' hd (by rw [hr]; omega) (by rw [hb]; omega)
          have hreq : s.requests[k]? = some (recipe ()) := by
            simp only [SyncService.requests, List.getElem?_map, hget, Option.map_some']
          have hrq2 : s2.requests = s.requests := by
            simp only [SyncService.requests, c']
          refine ⟨?_, e2.trans c', ?_⟩
          · rw [← hreqs, e1, hrq2, drop_take_succ _ _ _ _ hreq]
          · rw [e3, c']
            congr 2
            omega
        · rw [hr1] at a
          omega
        · rw [hb1] at b
          omega

/-- C23: one tick on a cycle of length `L` with the cursor at `c < L` selects
the request of the recipe at index `c`, sets the cursor to `(c + 1) mod L` and
then processes that request, the only call of `processRequest` it makes. From
the cursor at 0, a run of `L` ticks in which no retry and no rebuild happens
dispatches the requests of the recipes of the cycle, each once, in cycle
order, and leaves the cycle as it was and the cursor at 0. -/
theorem C23_tick_advances_cursor (s : SyncService) (c L : Nat)
    (hL : s.requestCycle.length = L) (hc : s.cycleIndex = (c : Int)) (hlt : c < L) :
    ∃ recipe, s.requestCycle[c]? = some recipe ∧
      selectNext s = Except.ok (some (recipe ()),
        { s with cycleIndex := (((c + 1) % L : Nat) : Int) }) ∧
      tick s = processRequest { s with cycleIndex := (((c + 1) % L : Nat) : Int) }
        (recipe ()) ∧
      (∀ s', tick s = Except.ok s' →
        s'.processed = s.processed ++
          [[LogArg.str (recipe ()).URL, LogArg.str (recipe ()).ReqType]]) ∧
      (c = 0 → ∀ reqs s', dispatched L s = Except.ok (reqs, s') →
        retryCalls s' = retryCalls s → rebuildCount s' = rebuildCount s →
        reqs = s.requests ∧ s'.requestCycle = s.requestCycle ∧ s'.cycleIndex = 0 ∧
          ticks L s = Except.ok s') := by
  have h0 : 0 ≤ s.cycleIndex := by rw [hc]; omega
  have hlt' : s.cycleIndex < (s.requestCycle.length : Int) := by
    rw [hc, hL]; exact_mod_cast hlt
  have hto : s.cycleIndex.toNat = c := by rw [hc]; rfl
  obtain ⟨recipe, hget, hsel⟩ := selectNext_inside s h0 hlt'
  rw [hto, hL] at hsel
  rw [hto] at hget
  have htick : tick s = processRequest
      { s with cycleIndex := (((c + 1) % L : Nat) : Int) } (recipe ()) := by
    simp only [tick, hsel, ok_bind]
  refine ⟨recipe, hget, hsel, htick, ?_, ?_⟩
  · intro s' h
    rw [htick] at h
    exact (processRequest_summary _ _ _ h).1
  · intro hc0 reqs s' hd hr hb
    subst hc0
    have hpos : 0 < s.requestCycle.length := by omega
    have hci : s.cycleIndex = ((0 % s.requestCycle.length : Nat) : Int) := by
      rw [hc]; simp
    obtain ⟨e1, e2, e3⟩ := dispatched_pass L 0 s reqs s' (by omega) hpos hci hd hr hb
    refine ⟨?_, e2, ?_, ?_⟩
    · rw [e1, List.drop_zero, ← hL]
      have : s.requests.length = s.requestCycle.length := by
        simp [SyncService.requests]
      rw [← this, List.take_length]
    · rw [e3, hL]
      simp
    · rw [← dispatched_ticks, hd]
      rfl

/-- C23 at the keyed bootstrap state with an upstream that answers 404: the
cycle has 3 recipes, and 3 ticks from the cursor at 0 dispatch its 3 requests
in order and bring the cursor back to 0. -/
theorem C23_tick_advances_cursor_witness :
    refusingService.requestCycle.length = 3 ∧ refusingService.cycleIndex = ((0 : Nat) : Int) ∧
    ∃ reqs s', dispatched 3 refusingService = Except.ok (reqs, s') ∧
      retryCalls s' = retryCalls refusingService ∧
      rebuildCount s' = rebuildCount refusingService ∧
      reqs = refusingService.requests ∧ s'.requestCycle = refusingService.requestCycle ∧
      s'.cycleIndex = 0 ∧ ticks 3 refusingService = Except.ok s' := by
  obtain ⟨_, _, _, _, _, hpass⟩ :=
    C23_tick_advances_cursor refusingService 0 3 rfl rfl (by decide)
  have hd : dispatched 3 refusingService = Except.ok
      ((dispatched 3 refusingService >>= fun r => pure r.1).toOption.getD [],
        (ticks 3 refusingService).toOption.getD refusingService) := rfl
  have hr : retryCalls ((ticks 3 refusingService).toOption.getD refusingService) =
      retryCalls refusingService := by decide
  have hb : rebuildCount ((ticks 3 refusingService).toOption.getD refusingService) =
      rebuildCount refusingService := by decide
  exact ⟨rfl, rfl, _, _, hd, hr, hb, hpass rfl _ _ hd hr hb⟩

/-! ### Recipes stay in the cycle -/

theorem sublist_insert {α : Type} (l : List α) (k : Nat) (x : α) :
    l.Sublist (l.take k ++ ([x] ++ l.drop k)) := by
  have h : (l.take k ++ l.drop k).Sublist (l.take k ++ ([x] ++ l.drop k)) :=
    List.Sublist.append (List.Sublist.refl _) (List.sublist_append_right _ _)
  rwa [List.take_append_drop] at h

/-- What `retryRequest` does to the cycle: nothing, or, with budget left and a
non-empty cycle, the insertion at the cursor of the recipe that yields the item
with its retry count one higher. -/
theorem retryRequest_cycle (s : SyncService) (req : SyncRequest) (s' : SyncService)
    (h : retryRequest s req = Except.ok s') :
    s'.requestCycle = s.requestCycle ∨
    (req.RetryCount < req.MaxRetries ∧ s.requestCycle ≠ [] ∧ 0 ≤ s.cycleIndex ∧
      s.cycleIndex ≤ (s.requestCycle.length : Int) ∧
      s'.requestCycle = s.requestCycle.take s.cycleIndex.toNat ++
        ([fun _ => retried req] ++ s.requestCycle.drop s.cycleIndex.toNat)) := by
  by_cases hlt : req.RetryCount < req.MaxRetries
  · by_cases hpos : s.requestCycle.length > 0
    · by_cases hb : 0 ≤ s.cycleIndex ∧ s.cycleIndex ≤ (s.requestCycle.length : Int)
      · have hne : s.requestCycle ≠ [] := List.length_pos.mp hpos
        rw [retryRequest_insert s req s.cycleIndex.toNat (Int.toNat_of_nonneg hb.1).symm
          (by omega) hne hlt] at h
        simp only [Except.ok.injEq] at h
        rw [← h]
        exact Or.inr ⟨hlt, hne, hb.1, hb.2, rfl⟩
      · simp only [retryRequest, hlt, if_true, SyncService.logf, hpos, sliceTo, hb, if_false,
          throw_eq_error, error_bind] at h
        cases h
    · simp only [retryRequest, hlt, if_true, SyncService.logf, hpos, if_false, pure_eq_ok,
        Except.ok.injEq] at h
      rw [← h]
      exact Or.inl rfl
  · rw [retryRequest_exhausted s req (Int.not_lt.mp hlt)] at h
    simp only [Except.ok.injEq] at h
    rw [← h]
    exact Or.inl rfl

theorem turn_sublist {s s' : SyncService} (h : Turn s s')
    (hb : rebuildCount s' = rebuildCount s) : s.requestCycle.Sublist s'.requestCycle := by
  rcases h with ⟨_, _, c, _⟩ | ⟨_, _, _, c | ⟨_, _, recipe, c⟩⟩ | ⟨_, b, _, _⟩
  · rw [c]
  · rw [c]
  · rw [c]; exact sublist_insert _ _ _
  · omega

/-- Between two rebuilds a run of ticks only adds recipes to the cycle. -/
theorem dispatched_sublist : ∀ (n : Nat) (s : SyncService) (reqs : List SyncRequest)
    (s' : SyncService), dispatched n s = Except.ok (reqs, s') →
    rebuildCount s' = rebuildCount s → s.requestCycle.Sublist s'.requestCycle
  | 0, s, reqs, s', h, _ => by
    simp only [dispatched, pure_eq_ok, Except.ok.injEq, Prod.mk.injEq] at h
    rw [← h.2]
  | n + 1, s, reqs, s', h, hb => by
    simp only [dispatched] at h
    cases hsel : selectNext s with
    | error e => rw [hsel] at h; simp at h
    | ok r =>
      obtain ⟨x, s1⟩ := r
      obtain ⟨hcy, hl, _, _⟩ := selectNext_frame s x s1 hsel
      have hb1 : rebuildCount s1 = rebuildCount s := by simp only [rebuildCount, hl]
      rw [hsel] at h
      simp only [ok_bind] at h
      cases x with
      | none =>
        have := dispatched_sublist n s1 reqs s' h (by rw [hb, hb1])
        rwa [hcy] at this
      | some req =>
        simp only at h
        cases hp : processRequest s1 req with
        | error e => rw [hp] at h; simp at h
        | ok s2 =>
          rw [hp] at h
          simp only [ok_bind] at h
          cases hd : dispatched n s2 with
          | error e => rw [hd] at h; simp at h
          | ok r2 =>
            obtain ⟨reqs2, s3⟩ := r2
            rw [hd] at h
            simp only [ok_bind, pure_eq_ok, Except.ok.injEq, Prod.mk.injEq] at h
            obtain ⟨_, hs3⟩ := h
            subst hs3
            have hturn := processRequest_turn s1 req s2 hp
            have h1 := turn_mono hturn
            have h2 := dispatched_mono n s2 reqs2 s3 hd
            have e2 : rebuildCount s2 = rebuildCount s1 := by omega
            have e3 : rebuildCount s3 = rebuildCount s2 := by omega
            have sub1 := turn_sublist hturn e2
            have sub2 := dispatched_sublist n s2 reqs2 s3 hd e3
            rw [hcy] at sub1
            exact sub1.trans sub2

theorem grew_refl (s : SyncService) : Grew s s := ⟨le_refl _, fun _ => List.Sublist.refl _⟩

theorem grew_trans {s s1 s2 : SyncService} (h1 : Grew s s1) (h2 : Grew s1 s2) : Grew s s2 :=
  ⟨le_trans h1.1 h2.1, fun e =>
    (h1.2 (by have := h1.1; have := h2.1; omega)).trans
      (h2.2 (by have := h1.1; have := h2.1; omega))⟩

theorem turn_grew {s s' : SyncService} (h : Turn s s') : Grew s s' :=
  ⟨(turn_mono h).2, turn_sublist h⟩

theorem logf_grew (s : SyncService) (fmt : String) (args : List LogArg)
    (h : tracked ⟨fmt, []⟩ = false) : Grew s (s.logf fmt args) :=
  ⟨le_of_eq (quiet_counts (quiet_logf s fmt args h)).2.1.symm, fun _ => List.Sublist.refl _⟩

theorem selectNext_grew (s : SyncService) (x : Option SyncRequest) (s1 : SyncService)
    (h : selectNext s = Except.ok (x, s1)) : Grew s s1 := by
  obtain ⟨hcy, hl, _, _⟩ := selectNext_frame s x s1 h
  have hb : rebuildCount s1 = rebuildCount s := by simp only [rebuildCount, hl]
  exact ⟨le_of_eq hb.symm, fun _ => by rw [hcy]⟩

theorem tick_grew (s s' : SyncService) (h : tick s = Except.ok s') : Grew s s' := by
  simp only [tick] at h
  cases hsel : selectNext s with
  | error e => rw [hsel] at h; simp at h
  | ok r =>
    obtain ⟨x, s1⟩ := r
    have g1 := selectNext_grew s x s1 hsel
    rw [hsel] at h
    simp only [ok_bind] at h
    cases x with
    | none =>
      simp only [pure_eq_ok, Except.ok.injEq] at h
      rw [← h]; exact g1
    | some req => exact grew_trans g1 (turn_grew (processRequest_turn _ _ _ h))

theorem processAll_grew : ∀ (reqs : List SyncRequest) (s s' : SyncService),
    processAll s reqs = Except.ok s' → Grew s s'
  | [], s, s', h => by
    simp only [processAll, pure_eq_ok, Except.ok.injEq] at h
    rw [← h]; exact grew_refl s
  | req :: rest, s, s', h => by
    simp only [processAll] at h
    cases hp : processRequest s req with
    | error e => rw [hp] at h; simp at h
    | ok s1 =>
      rw [hp] at h
      simp only [ok_bind] at h
      exact grew_trans (turn_grew (processRequest_turn _ _ _ hp)) (processAll_grew rest s1 s' h)

theorem ManualSync_grew (s s' : SyncService) (e : Option Str)
    (h : ManualSync s = Except.ok (s', e)) : Grew s s' := by
  rw [ManualSync_unfold] at h
  cases hp : processAll (s.logf "Manual sync triggered" []) s.requests with
  | error err => rw [hp] at h; simp at h
  | ok s1 =>
    rw [hp] at h
    simp only [ok_bind, Except.ok.injEq, Prod.mk.injEq] at h
    rw [← h.1]
    exact grew_trans (grew_trans (logf_grew s _ _ (by decide)) (processAll_grew _ _ _ hp))
      (logf_grew s1 _ _ (by decide))

theorem step_grew (s s' : SyncService) (call : Call) (h : step s call = Except.ok s') :
    Grew s s' := by
  cases call with
  | tick => exact tick_grew s s' h
  | select =>
    simp only [step] at h
    cases hsel : selectNext s with
    | error e => rw [hsel] at h; simp at h
    | ok r =>
      obtain ⟨x, s1⟩ := r
      rw [hsel] at h
      simp only [ok_bind, pure_eq_ok, Except.ok.injEq] at h
      rw [← h]
      exact selectNext_grew s x s1 hsel
  | process req => exact turn_grew (processRequest_turn _ _ _ h)
  | retry req => exact turn_grew (retryRequest_turn _ _ _ h)
  | servers decoded =>
    simp only [step, pure_eq_ok, Except.ok.injEq] at h
    rw [← h]
    exact turn_grew (turn_of_outcome (processServersResponse_outcome _ _))
  | rebuild =>
    simp only [step, pure_eq_ok, Except.ok.injEq] at h
    rw [← h]
    have hb := rebuildCount_rebuild s
    exact ⟨by omega, fun e => by omega⟩
  | manual =>
    simp only [step] at h
    cases hm : ManualSync s with
    | error err => rw [hm] at h; simp at h
    | ok r =>
      obtain ⟨s1, e⟩ := r
      rw [hm] at h
      simp only [ok_bind, pure_eq_ok, Except.ok.injEq] at h
      rw [← h]
      exact ManualSync_grew s s1 e hm

/-- Between two rebuilds every run of calls only adds recipes to the cycle. -/
theorem runCalls_grew : ∀ (calls : List Call) (s s' : SyncService),
    runCalls s calls = Except.ok s' → Grew s s'
  | [], s, s', h => by
    simp only [runCalls, pure_eq_ok, Except.ok.injEq] at h
    rw [← h]; exact grew_refl s
  | call :: rest, s, s', h => by
    simp only [runCalls] at h
    cases hp : step s call with
    | error e => rw [hp] at h; simp at h
    | ok s1 =>
      rw [hp] at h
      simp only [ok_bind] at h
      exact grew_trans (step_grew s s1 call hp) (runCalls_grew rest s1 s' h)

/-- A run of `n` ticks is the run of the calls `tick, ..., tick`. -/
theorem runCalls_ticks : ∀ (n : Nat) (s : SyncService),
    runCalls s (List.replicate n Call.tick) = ticks n s
  | 0, _ => rfl
  | n + 1, s => by
    simp only [List.replicate_succ, runCalls, step, ticks]
    cases ht : tick s with
    | error e => rfl
    | ok s1 =>
      simp only [ok_bind]
      exact runCalls_ticks n s1

/-- C30: dispatching never removes a recipe. The selection step of a tick
leaves the cycle unchanged, and `retryRequest` leaves it or inserts one recipe
at the cursor. Hence over every run of calls without rebuild (ticks, of which
a run is a sequence of `tick` calls, and also retries, resource-list
responses and manual triggers) the old cycle is a sublist of the new one, so
its length does not decrease; and a retry recipe, once inserted, is in the
cycle after every such run and yields the same item, with the same retry
count, whenever a selection finds the cursor on it, whatever happened to the
item meanwhile. -/
theorem C30_recipes_stay (s : SyncService) :
    (∀ x s1, selectNext s = Except.ok (x, s1) → s1.requestCycle = s.requestCycle) ∧
    (∀ req s', retryRequest s req = Except.ok s' →
      s.requestCycle.Sublist s'.requestCycle ∧
      (s'.requestCycle = s.requestCycle ∨
        s'.requestCycle = s.requestCycle.take s.cycleIndex.toNat ++
          ([fun _ => retried req] ++ s.requestCycle.drop s.cycleIndex.toNat))) ∧
    (∀ n, runCalls s (List.replicate n Call.tick) = ticks n s) ∧
    (∀ calls s', runCalls s calls = Except.ok s' → rebuildCount s' = rebuildCount s →
      s.requestCycle.Sublist s'.requestCycle ∧
        s.requestCycle.length ≤ s'.requestCycle.length) ∧
    (∀ req t, retryRequest s req = Except.ok t → req.RetryCount < req.MaxRetries →
      s.requestCycle ≠ [] →
      ∃ recipe : Unit → SyncRequest, recipe () = retried req ∧
        (retried req).RetryCount = req.RetryCount + 1 ∧
        t.requestCycle[s.cycleIndex.toNat]? = some recipe ∧
        ∀ calls s', runCalls t calls = Except.ok s' → rebuildCount s' = rebuildCount t →
          recipe ∈ s'.requestCycle ∧
          ∀ (u : SyncService) (k : Nat), u.requestCycle = s'.requestCycle →
            u.requestCycle[k]? = some recipe → u.cycleIndex = (k : Int) →
            ∃ u', selectNext u = Except.ok (some (retried req), u')) := by
  refine ⟨fun x s1 h => (selectNext_frame s x s1 h).1, ?_, fun n => runCalls_ticks n s, ?_, ?_⟩
  · intro req s' h
    rcases retryRequest_cycle s req s' h with c | ⟨_, _, _, _, c⟩
    · exact ⟨by rw [c], Or.inl c⟩
    · exact ⟨by rw [c]; exact sublist_insert _ _ _, Or.inr c⟩
  · intro calls s' h hb
    have sub := (runCalls_grew calls s s' h).2 hb
    exact ⟨sub, sub.length_le⟩
  · intro req t h hlt hne
    rcases retryRequest_cycle s req t h with c | ⟨_, _, h0, hle, c⟩
    · exfalso
      have hpos : 0 < s.requestCycle.length := List.length_pos.mpr hne
      by_cases hb : 0 ≤ s.cycleIndex ∧ s.cycleIndex ≤ (s.requestCycle.length : Int)
      · rw [retryRequest_insert s req s.cycleIndex.toNat (Int.toNat_of_nonneg hb.1).symm
          (by omega) hne hlt] at h
        simp only [Except.ok.injEq] at h
        rw [← h] at c
        have hlen := congrArg List.length c
        simp only [List.length_append, List.length_take, List.length_cons, List.length_nil,
          List.length_drop] at hlen
        omega
      · simp only [retryRequest, hlt, if_true, SyncService.logf, gt_iff_lt, hpos, sliceTo, hb,
          if_false, throw_eq_error, error_bind] at h
        cases h
    · have hget : t.requestCycle[s.cycleIndex.toNat]? = some (fun _ => retried req) := by
        rw [c]
        exact getElem?_insert_at _ _ _ (by omega)
      refine ⟨fun _ => retried req, rfl, rfl, hget, ?_⟩
      intro calls s' hd hb
      have sub := (runCalls_grew calls t s' hd).2 hb
      have hmem : (fun _ => retried req) ∈ t.requestCycle :=
        List.mem_iff_getElem?.mpr ⟨_, hget⟩
      refine ⟨sub.subset hmem, ?_⟩
      intro u k _ hk hcu
      exact ⟨_, selectNext_at u k _ hcu hk⟩

/-- A run of six ticks in which the first request fails at transport level:
the retry recipe inserted for it is dispatched by the second tick, answered
with 200, and dispatched again, with the same retry count, by the sixth tick
after the cursor has wrapped; one retry and no rebuild have happened. -/
theorem retry_recipe_dispatched_again :
    (dispatched 6 flakyService >>= fun r =>
      pure (r.1.map (fun req => (req.ReqType, req.RetryCount)),
        r.2.requests.map (fun req => req.RetryCount), retryCalls r.2, rebuildCount r.2)) =
      Except.ok
        ([("servers".toList, 0), ("servers".toList, 1), ("os-types".toList, 0),
          ("apps".toList, 0), ("servers".toList, 0), ("servers".toList, 1)],
         [0, 1, 0, 0], 1, 0) :=
  rfl

/-! ### The rebuild trigger of the resource-list reconciler -/

/-- C10: when the cache clear succeeds, processing a decoded resource-list
response yields as Known-Resource Set the identifiers of its active entries
whose insert the store accepted, all its active entries when the store fails no
statement. If the number of these identifiers differs from the size of the
previous Known-Resource Set, the cycle is rebuilt exactly once: it is the cycle
built from the new set and the cursor is 0. If the two numbers are equal,
nothing is rebuilt: cycle and cursor are as before. -/
theorem C10_rebuild_iff_count_changed (s : SyncService) (servers : List Server)
    (hclear : (s.db.exec Stmt.truncateServers).2 = false) :
    (processServersResponse s (some servers)).serverIDs = keptIDs s.db.faults.tail servers ∧
    ((keptIDs s.db.faults.tail servers).length ≠ s.serverIDs.length →
      rebuildCount (processServersResponse s (some servers)) = rebuildCount s + 1 ∧
      (processServersResponse s (some servers)).requestCycle =
        rebuiltCycle s.managementURL (keptIDs s.db.faults.tail servers) ∧
      (processServersResponse s (some servers)).cycleIndex = 0) ∧
    ((keptIDs s.db.faults.tail servers).length = s.serverIDs.length →
      rebuildCount (processServersResponse s (some servers)) = rebuildCount s ∧
      (processServersResponse s (some servers)).requestCycle = s.requestCycle ∧
      (processServersResponse s (some servers)).cycleIndex = s.cycleIndex) ∧
    ((∀ f ∈ s.db.faults, f = false) →
      ((activeIDs servers).length ≠ s.serverIDs.length →
        rebuildCount (processServersResponse s (some servers)) = rebuildCount s + 1 ∧
        (processServersResponse s (some servers)).requestCycle =
          rebuiltCycle s.managementURL (activeIDs servers) ∧
        (processServersResponse s (some servers)).cycleIndex = 0) ∧
      ((activeIDs servers).length = s.serverIDs.length →
        rebuildCount (processServersResponse s (some servers)) = rebuildCount s ∧
        (processServersResponse s (some servers)).requestCycle = s.requestCycle ∧
        (processServersResponse s (some servers)).cycleIndex = s.cycleIndex)) := by
  obtain ⟨h1, h2, h3, h4, h5⟩ := insertServers_frame servers
    ({ s with db := (s.db.exec Stmt.truncateServers).1 } : SyncService) []
  have hids := insertServers_ids servers
    ({ s with db := (s.db.exec Stmt.truncateServers).1 } : SyncService) []
  generalize hr : insertServers
    ({ s with db := (s.db.exec Stmt.truncateServers).1 } : SyncService) servers [] = r
    at h1 h2 h3 h4 h5 hids
  obtain ⟨s1, ids⟩ := r
  simp only [List.nil_append, exec_faults] at h1 h2 h3 h4 h5 hids
  have main : (processServersResponse s (some servers)).serverIDs = ids ∧
      (ids.length ≠ s.serverIDs.length →
        rebuildCount (processServersResponse s (some servers)) = rebuildCount s + 1 ∧
        (processServersResponse s (some servers)).requestCycle =
          rebuiltCycle s.managementURL ids ∧
        (processServersResponse s (some servers)).cycleIndex = 0) ∧
      (ids.length = s.serverIDs.length →
        rebuildCount (processServersResponse s (some servers)) = rebuildCount s ∧
        (processServersResponse s (some servers)).requestCycle = s.requestCycle ∧
        (processServersResponse s (some servers)).cycleIndex = s.cycleIndex) := by
    by_cases hcount : ids.length = s.serverIDs.length
    · have e : processServersResponse s (some servers) =
          ({ s1 with serverIDs := ids } : SyncService).logf
            "Updated servers cache with %d servers" [LogArg.int servers.length] := by
        simp [processServersResponse, hclear, hr, h3, hcount]
      rw [e]
      refine ⟨rfl, fun hne => absurd hcount hne, fun _ => ⟨?_, h1, h2⟩⟩
      rw [rebuildCount_logf, if_neg (by decide)]
      exact h5
    · have e : processServersResponse s (some servers) =
          (rebuildRequestCycle (({ s1 with serverIDs := ids } : SyncService).logf
            "Server count changed from %d to %d, rebuilding request cycle"
            [LogArg.int s.serverIDs.length, LogArg.int ids.length])).logf
            "Updated servers cache with %d servers" [LogArg.int servers.length] := by
        simp [processServersResponse, hclear, hr, h3, hcount]
      rw [e]
      refine ⟨rfl, fun _ => ⟨?_, ?_, rfl⟩, fun heq => absurd heq hcount⟩
      · rw [rebuildCount_logf, if_neg (by decide), rebuildCount_rebuild, rebuildCount_logf,
          if_neg (by decide)]
        exact congrArg (· + 1) h5
      · rw [← h4]
        rfl
  rw [hids] at main
  refine ⟨main.1, main.2.1, main.2.2, fun hf => ?_⟩
  have hk := keptIDs_no_fault servers s.db.faults.tail
    (fun f hm => hf f (List.mem_of_mem_tail hm))
  rw [hk] at main
  exact ⟨main.2.1, main.2.2⟩

/-- C10 on three inputs, each with the cache clear succeeding. At the bootstrap
state (no known resource) a response with one active and one suspended entry
has 1 active resource against 0 known: one rebuild, the cycle is the one built
for `[7]`, the cursor is 0. At a state that knows the resource 5, with the
cursor at 2, a response with the one active resource 7 has 1 against 1: no
rebuild, cycle and cursor as before. At a state that knows the resource 7 and
whose store fails the insert, the response with the active resource 7 yields 0
identifiers against 1 known: one rebuild. -/
theorem C10_rebuild_iff_count_changed_witness :
    ((sampleService.db.exec Stmt.truncateServers).2 = false ∧
      (∀ f ∈ sampleService.db.faults, f = false) ∧
      (activeIDs [activeServer 7, ⟨8, "vm8".toList, [], [], [], "Suspended".toList⟩]).length
        ≠ sampleService.serverIDs.length ∧
      rebuildCount (processServersResponse sampleService
        (some [activeServer 7, ⟨8, "vm8".toList, [], [], [], "Suspended".toList⟩])) =
        rebuildCount sampleService + 1 ∧
      (processServersResponse sampleService
        (some [activeServer 7, ⟨8, "vm8".toList, [], [], [], "Suspended".toList⟩])).requestCycle =
        rebuiltCycle sampleService.managementURL
          (activeIDs [activeServer 7, ⟨8, "vm8".toList, [], [], [], "Suspended".toList⟩]) ∧
      (processServersResponse sampleService
        (some [activeServer 7, ⟨8, "vm8".toList, [], [], [], "Suspended".toList⟩])).cycleIndex
        = 0) ∧
    ((knowingService.db.exec Stmt.truncateServers).2 = false ∧
      (∀ f ∈ knowingService.db.faults, f = false) ∧
      (activeIDs [activeServer 7]).length = knowingService.serverIDs.length ∧
      rebuildCount (processServersResponse knowingService (some [activeServer 7])) =
        rebuildCount knowingService ∧
      (processServersResponse knowingService (some [activeServer 7])).requestCycle =
        knowingService.requestCycle ∧
      (processServersResponse knowingService (some [activeServer 7])).cycleIndex =
        knowingService.cycleIndex ∧
      knowingService.cycleIndex = 2 ∧
      (processServersResponse knowingService (some [activeServer 7])).serverIDs = [7]) ∧
    ((failingInsertService.db.exec Stmt.truncateServers).2 = false ∧
      (keptIDs failingInsertService.db.faults.tail [activeServer 7]).length ≠
        failingInsertService.serverIDs.length ∧
      rebuildCount (processServersResponse failingInsertService (some [activeServer 7])) =
        rebuildCount failingInsertService + 1 ∧
      (processServersResponse failingInsertService (some [activeServer 7])).requestCycle =
        rebuiltCycle failingInsertService.managementURL
          (keptIDs failingInsertService.db.faults.tail [activeServer 7]) ∧
      (processServersResponse failingInsertService (some [activeServer 7])).cycleIndex = 0) :=
  ⟨⟨rfl, by decide, by decide,
      ((C10_rebuild_iff_count_changed sampleService
        [activeServer 7, ⟨8, "vm8".toList, [], [], [], "Suspended".toList⟩] rfl).2.2.2
        (by decide)).1 (by decide)⟩,
    ⟨rfl, by decide, by decide,
      (((C10_rebuild_iff_count_changed knowingService [activeServer 7] rfl).2.2.2
        (by decide)).2 (by decide)).1,
      (((C10_rebuild_iff_count_changed knowingService [activeServer 7] rfl).2.2.2
        (by decide)).2 (by decide)).2.1,
      (((C10_rebuild_iff_count_changed knowingService [activeServer 7] rfl).2.2.2
        (by decide)).2 (by decide)).2.2,
      rfl,
      (C10_rebuild_iff_count_changed knowingService [activeServer 7] rfl).1.trans
        (by decide)⟩,
    ⟨rfl, by decide,
      (C10_rebuild_iff_count_changed failingInsertService [activeServer 7] rfl).2.1
        (by decide)⟩⟩

end Sync
